import Mathlib

/-! # Poco::Net::IPAddress

A shallow embedding of `Net/src/IPAddress.cpp` and the properties of its
prefix, mask, comparison, bitwise, classification, formatting and parsing
operations.

Modelling conventions.

* Memory is modelled as octets in network byte order: a `struct in_addr` is
  four octets, a `struct in6_addr` sixteen.  Word views of that memory
  (`s_addr`, `s6_addr32[i]`) are modelled by their network-order reading, i.e.
  by the value `ntohl` returns on every host; `htonl` followed by a store
  writes the big-endian octets of the word.  The raw (host-order) uses of a word
  in the source are bitwise operators and comparisons with `0` and
  `0xffffffff`, which do not depend on the host byte order.
* Unsigned 32-bit values are natural numbers; the operations that could leave
  the 32-bit range (`~`) are modelled with their 32-bit result.
* The conditional compilation branches followed are the ones of a Unix build
  with IPv6 support (`POCO_OS_FAMILY_UNIX`, `POCO_HAVE_IPv6`, not `_WIN32`).
* A C++ exception is a value of `Exception`; a function that may throw returns
  `Except Exception _`, and a mutating member function that may throw returns
  the state of the object after the call together with the outcome.
* An argument that a mutating member function receives by pointer or by
  reference is an `ObjRef`: the object the function is called on, or another
  object.  What the function reads through the argument after it has written to
  its object is then what it has written, as in the call `a.mask(m, a)`.
* A `std::string` is a `String`.  The formatting helpers of Poco Foundation
  (`NumberFormatter::append`, `NumberFormatter::appendHex`, `toLower`) and the
  parsers of the C library (`inet_aton`, `inet_pton`) are not among the sources:
  they are modelled from the spec.  The interface table of the operating system
  (`if_nametoindex`, `if_indextoname`) is a parameter of the functions that
  consult it.
-/

namespace Poco.Net

/-! ## Exceptions -/

/-- The exception classes thrown by the address code, with their message. -/
inductive Exception where
  | InvalidArgumentException (msg : String)
  | InvalidAddressException (msg : String)
  | NotImplementedException (msg : String)
  | AssertionViolationException (msg : String)
  deriving DecidableEq

/-! ## Octets and words -/

/-- Network-order (big-endian) reading of a sequence of octets. -/
def beValue (bs : List Nat) : Nat :=
  bs.foldl (fun acc b => acc * 256 + b) 0

/-- The `k` octets of the network-order representation of `w` (the octets that
storing `w`, truncated to `k` octets, in network order writes to memory). -/
def beBytes : Nat → Nat → List Nat
  | 0, _ => []
  | k + 1, w => (w / 256 ^ k % 256) :: beBytes k w

/-- A block of `n` octets of memory. -/
structure Octets (n : Nat) where
  bytes : List Nat
  size_eq : bytes.length = n
  byte_lt : ∀ b ∈ bytes, b < 256

/-- The block of `n` octets holding `w` in network order. -/
def Octets.ofWord (n w : Nat) : Octets n where
  bytes := beBytes n w
  size_eq := by
    induction n with
    | zero => rfl
    | succ k ih => simp [beBytes, ih]
  byte_lt := by
    induction n with
    | zero => simp [beBytes]
    | succ k ih =>
      intro b hb
      simp only [beBytes, List.mem_cons] at hb
      rcases hb with rfl | hb
      · exact Nat.mod_lt _ (by decide)
      · exact ih b hb

/-- A block of `n` octets seen as a block of `m` octets, for `n = m`
(`std::memcpy` of the whole block). -/
def Octets.cast {n m : Nat} (h : n = m) (a : Octets n) : Octets m :=
  ⟨a.bytes, by rw [a.size_eq, h], a.byte_lt⟩

/-- The all-zero block (`std::memset(&_addr, 0, sizeof(_addr))`). -/
def Octets.zero (n : Nat) : Octets n := Octets.ofWord n 0

/-- The C type `struct in_addr`: four octets. -/
abbrev in_addr := Octets 4

/-- The C type `struct in6_addr`: sixteen octets. -/
abbrev in6_addr := Octets 16

/-- The value `ntohl(a.s_addr)`. -/
def in_addr.s_addr (a : in_addr) : Nat := beValue a.bytes

/-- The value `ntohl(a.s6_addr32[i])`. -/
def in6_addr.s6_addr32 (a : in6_addr) (i : Nat) : Nat :=
  beValue ((a.bytes.drop (4 * i)).take 4)

/-- The assignment `a.s6_addr32[i] = htonl(w)`; the array has four elements. -/
def in6_addr.set_s6_addr32 (a : in6_addr) (i w : Nat) : in6_addr :=
  if h : i < 4 then
    { bytes := a.bytes.take (4 * i) ++ (beBytes 4 w ++ a.bytes.drop (4 * i + 4))
      size_eq := by
        have := a.size_eq
        simp [beBytes]
        omega
      byte_lt := by
        intro b hb
        simp only [List.mem_append] at hb
        rcases hb with hb | hb | hb
        · exact a.byte_lt b (List.mem_of_mem_take hb)
        · exact (Octets.ofWord 4 w).byte_lt b hb
        · exact a.byte_lt b (List.mem_of_mem_drop hb) }
  else a

/-- The operator `~` on an unsigned 32-bit value. -/
def not32 (x : Nat) : Nat := x ^^^ 0xffffffff

/-- The function `std::memcmp` on the first `n` octets of two blocks; the result
is the difference of the first pair of octets that differ, `0` if none does. -/
def memcmp : List Nat → List Nat → Nat → Int
  | a :: as, b :: bs, n + 1 => if a ≠ b then (a : Int) - (b : Int) else memcmp as bs n
  | _, _, _ => 0

/-! ## maskBits -/

/-- The loop `for (count = 0; val; ++count) val >>= 1;` of `maskBits`, started
with the given value of `count`. -/
def maskBits.loop (val count : Nat) : Nat :=
  if val ≠ 0 then maskBits.loop (val >>> 1) (count + 1) else count
termination_by val
decreasing_by
  simp only [Nat.shiftRight_eq_div_pow]
  omega

/-- The template function `maskBits(T val, unsigned size)`. -/
def maskBits (val size : Nat) : Nat :=
  let count :=
    if val ≠ 0 then maskBits.loop ((val ^^^ (val - 1)) >>> 1) 0
    else size
  size - count

/-! ## Address families -/

/-- The enumeration `IPAddress::Family`. -/
inductive IPAddress.Family where
  | IPv4
  | IPv6
  deriving DecidableEq

/-- The socket constant `AF_INET`. -/
def AF_INET : Int := 2

/-- The socket constant `AF_INET6` (its Linux value; only `AF_INET6 ≠ AF_INET`
is used). -/
def AF_INET6 : Int := 10

/-! ## IPv4AddressImpl -/

/-- The class `IPv4AddressImpl`: its only member is `_addr`. -/
structure IPv4AddressImpl where
  _addr : in_addr

/-- The constructor `IPv4AddressImpl()`. -/
def IPv4AddressImpl.new : IPv4AddressImpl := ⟨Octets.zero 4⟩

/-- The constructor `IPv4AddressImpl(const void* addr)`, which copies
`sizeof(_addr)` octets. -/
def IPv4AddressImpl.ofAddr (addr : in_addr) : IPv4AddressImpl := ⟨addr⟩

/-- The constructor `IPv4AddressImpl(unsigned prefix)`. -/
def IPv4AddressImpl.ofPrefixLength (pfx : Nat) : IPv4AddressImpl :=
  let addr := if pfx = 32 then 0xffffffff else not32 (0xffffffff >>> pfx)
  ⟨Octets.ofWord 4 addr⟩

/-- The member function `length()`: `sizeof(_addr)`. -/
def IPv4AddressImpl.length (_self : IPv4AddressImpl) : Nat := 4

/-- The member function `addr()`: the octets of `_addr`. -/
def IPv4AddressImpl.addr (self : IPv4AddressImpl) : List Nat := self._addr.bytes

/-- The member function `family()`. -/
def IPv4AddressImpl.family (_self : IPv4AddressImpl) : IPAddress.Family := .IPv4

/-- The member function `af()`. -/
def IPv4AddressImpl.af (_self : IPv4AddressImpl) : Int := AF_INET

/-- The member function `prefixLength()`. -/
def IPv4AddressImpl.prefixLength (self : IPv4AddressImpl) : Nat :=
  maskBits self._addr.s_addr 32

/-- The member function `scope()`. -/
def IPv4AddressImpl.scope (_self : IPv4AddressImpl) : Nat := 0

/-- The member function `clone()`. -/
def IPv4AddressImpl.clone (self : IPv4AddressImpl) : IPv4AddressImpl :=
  IPv4AddressImpl.ofAddr self._addr

/-- The operator `&` of `IPv4AddressImpl`. -/
def IPv4AddressImpl.op_and (self addr : IPv4AddressImpl) : IPv4AddressImpl :=
  let result := IPv4AddressImpl.ofAddr self._addr
  ⟨Octets.ofWord 4 (result._addr.s_addr &&& addr._addr.s_addr)⟩

/-- The operator `|` of `IPv4AddressImpl`. -/
def IPv4AddressImpl.op_or (self addr : IPv4AddressImpl) : IPv4AddressImpl :=
  let result := IPv4AddressImpl.ofAddr self._addr
  ⟨Octets.ofWord 4 (result._addr.s_addr ||| addr._addr.s_addr)⟩

/-- The operator `^` of `IPv4AddressImpl`. -/
def IPv4AddressImpl.op_xor (self addr : IPv4AddressImpl) : IPv4AddressImpl :=
  let result := IPv4AddressImpl.ofAddr self._addr
  ⟨Octets.ofWord 4 (result._addr.s_addr ^^^ addr._addr.s_addr)⟩

/-- The operator `~` of `IPv4AddressImpl`. -/
def IPv4AddressImpl.op_not (self : IPv4AddressImpl) : IPv4AddressImpl :=
  let result := IPv4AddressImpl.ofAddr self._addr
  ⟨Octets.ofWord 4 (result._addr.s_addr ^^^ 0xffffffff)⟩

/-! ## IPv6AddressImpl -/

/-- The class `IPv6AddressImpl`: members `_addr` and `_scope`. -/
structure IPv6AddressImpl where
  _addr : in6_addr
  _scope : Nat

/-- The constructor `IPv6AddressImpl()`. -/
def IPv6AddressImpl.new : IPv6AddressImpl := ⟨Octets.zero 16, 0⟩

/-- The constructor `IPv6AddressImpl(const void* addr)`. -/
def IPv6AddressImpl.ofAddr (addr : in6_addr) : IPv6AddressImpl := ⟨addr, 0⟩

/-- The constructor `IPv6AddressImpl(const void* addr, Poco::UInt32 scope)`. -/
def IPv6AddressImpl.ofAddrScope (addr : in6_addr) (scope : Nat) : IPv6AddressImpl :=
  ⟨addr, scope⟩

/-- First loop of `IPv6AddressImpl(unsigned prefix)`:
`for (; prefix >= 32; ++i, prefix -= 32) _addr.s6_addr32[i] = 0xffffffff;`.
Returns the memory and the values of `i` and `prefix` at the exit. -/
def IPv6AddressImpl.fillOnes (a : in6_addr) (i pfx : Nat) : in6_addr × Nat × Nat :=
  if 32 ≤ pfx then
    IPv6AddressImpl.fillOnes (a.set_s6_addr32 i 0xffffffff) (i + 1) (pfx - 32)
  else (a, i, pfx)
termination_by pfx
decreasing_by omega

/-- Last loop of `IPv6AddressImpl(unsigned prefix)`:
`while (i < 4) _addr.s6_addr32[i++] = 0;`. -/
def IPv6AddressImpl.fillZeros (a : in6_addr) (i : Nat) : in6_addr :=
  if i < 4 then IPv6AddressImpl.fillZeros (a.set_s6_addr32 i 0) (i + 1) else a
termination_by 4 - i
decreasing_by omega

/-- The constructor `IPv6AddressImpl(unsigned prefix)`.  The member `_addr` is
not initialised before the loops run: `uninit` is its indeterminate content. -/
def IPv6AddressImpl.ofPrefixLength (pfx : Nat) (uninit : in6_addr) : IPv6AddressImpl :=
  let (a1, i1, pfx1) := IPv6AddressImpl.fillOnes uninit 0 pfx
  let (a2, i2) :=
    if pfx1 > 0 then (a1.set_s6_addr32 i1 (not32 (0xffffffff >>> pfx1)), i1 + 1)
    else (a1, i1)
  ⟨IPv6AddressImpl.fillZeros a2 i2, 0⟩

/-- The member function `length()`: `sizeof(_addr)`. -/
def IPv6AddressImpl.length (_self : IPv6AddressImpl) : Nat := 16

/-- The member function `addr()`: the octets of `_addr`. -/
def IPv6AddressImpl.addr (self : IPv6AddressImpl) : List Nat := self._addr.bytes

/-- The member function `family()`. -/
def IPv6AddressImpl.family (_self : IPv6AddressImpl) : IPAddress.Family := .IPv6

/-- The member function `af()`. -/
def IPv6AddressImpl.af (_self : IPv6AddressImpl) : Int := AF_INET6

/-- The loop of `prefixLength()`, for `i` running from `n - 1` down to `0`:
`n` is `i + 1` at the head of the loop, `0` standing for the exit `i = -1`. -/
def IPv6AddressImpl.prefixLength.loop (a : in6_addr) : Nat → Nat → Nat
  | 0, _ => 0
  | i + 1, bitPos =>
    let addr := a.s6_addr32 i
    let bits := maskBits addr 32
    if bits ≠ 0 then bitPos - (32 - bits)
    else IPv6AddressImpl.prefixLength.loop a i (bitPos - 32)

/-- The member function `prefixLength()`. -/
def IPv6AddressImpl.prefixLength (self : IPv6AddressImpl) : Nat :=
  IPv6AddressImpl.prefixLength.loop self._addr 4 128

/-- The member function `scope()`. -/
def IPv6AddressImpl.scope (self : IPv6AddressImpl) : Nat := self._scope

/-- The member function `clone()`. -/
def IPv6AddressImpl.clone (self : IPv6AddressImpl) : IPv6AddressImpl :=
  IPv6AddressImpl.ofAddrScope self._addr self._scope

/-- The four statements `result._addr.s6_addr32[i] op= addr._addr.s6_addr32[i]`
shared by the operators `&`, `|` and `^` of `IPv6AddressImpl`. -/
def IPv6AddressImpl.wordwise (op : Nat → Nat → Nat) (self addr : IPv6AddressImpl) :
    IPv6AddressImpl :=
  let result := IPv6AddressImpl.ofAddr self._addr
  let r0 := result._addr.set_s6_addr32 0 (op (result._addr.s6_addr32 0) (addr._addr.s6_addr32 0))
  let r1 := r0.set_s6_addr32 1 (op (r0.s6_addr32 1) (addr._addr.s6_addr32 1))
  let r2 := r1.set_s6_addr32 2 (op (r1.s6_addr32 2) (addr._addr.s6_addr32 2))
  let r3 := r2.set_s6_addr32 3 (op (r2.s6_addr32 3) (addr._addr.s6_addr32 3))
  { result with _addr := r3 }

/-- The operator `&` of `IPv6AddressImpl`. -/
def IPv6AddressImpl.op_and (self addr : IPv6AddressImpl) : IPv6AddressImpl :=
  IPv6AddressImpl.wordwise (· &&& ·) self addr

/-- The operator `|` of `IPv6AddressImpl`. -/
def IPv6AddressImpl.op_or (self addr : IPv6AddressImpl) : IPv6AddressImpl :=
  IPv6AddressImpl.wordwise (· ||| ·) self addr

/-- The operator `^` of `IPv6AddressImpl`. -/
def IPv6AddressImpl.op_xor (self addr : IPv6AddressImpl) : IPv6AddressImpl :=
  IPv6AddressImpl.wordwise (· ^^^ ·) self addr

/-- The operator `~` of `IPv6AddressImpl`: the four statements
`result._addr.s6_addr32[i] ^= 0xffffffff`. -/
def IPv6AddressImpl.op_not (self : IPv6AddressImpl) : IPv6AddressImpl :=
  let result := IPv6AddressImpl.ofAddr self._addr
  let r0 := result._addr.set_s6_addr32 0 (result._addr.s6_addr32 0 ^^^ 0xffffffff)
  let r1 := r0.set_s6_addr32 1 (r0.s6_addr32 1 ^^^ 0xffffffff)
  let r2 := r1.set_s6_addr32 2 (r1.s6_addr32 2 ^^^ 0xffffffff)
  let r3 := r2.set_s6_addr32 3 (r2.s6_addr32 3 ^^^ 0xffffffff)
  { result with _addr := r3 }

/-! ## IPAddressImpl: the abstract base class and its virtual dispatch -/

/-- The abstract class `IPAddressImpl`: an object of this type is an object of
one of its two subclasses. -/
inductive IPAddressImpl where
  | v4 (impl : IPv4AddressImpl)
  | v6 (impl : IPv6AddressImpl)

/-- The virtual member function `length()`. -/
def IPAddressImpl.length : IPAddressImpl → Nat
  | .v4 impl => impl.length
  | .v6 impl => impl.length

/-- The virtual member function `addr()`. -/
def IPAddressImpl.addr : IPAddressImpl → List Nat
  | .v4 impl => impl.addr
  | .v6 impl => impl.addr

/-- The virtual member function `family()`. -/
def IPAddressImpl.family : IPAddressImpl → IPAddress.Family
  | .v4 impl => impl.family
  | .v6 impl => impl.family

/-- The virtual member function `af()`. -/
def IPAddressImpl.af : IPAddressImpl → Int
  | .v4 impl => impl.af
  | .v6 impl => impl.af

/-- The virtual member function `scope()`. -/
def IPAddressImpl.scope : IPAddressImpl → Nat
  | .v4 impl => impl.scope
  | .v6 impl => impl.scope

/-- The virtual member function `prefixLength()`. -/
def IPAddressImpl.prefixLength : IPAddressImpl → Nat
  | .v4 impl => impl.prefixLength
  | .v6 impl => impl.prefixLength

/-- The virtual member function `clone()`. -/
def IPAddressImpl.clone : IPAddressImpl → IPAddressImpl
  | .v4 impl => .v4 impl.clone
  | .v6 impl => .v6 impl.clone

/-- An argument that a member function receives by pointer or by reference:
the object the function is called on, or another object.  A member function
that writes to its object and reads an argument afterwards reads what it has
written when the argument is that object. -/
inductive ObjRef (α : Type) where
  | self : ObjRef α
  | other (object : α) : ObjRef α

/-- The object an argument designates, `current` being the present state of the
object the function is called on. -/
def ObjRef.deref {α : Type} (current : α) : ObjRef α → α
  | .self => current
  | .other object => object

/-- The member function `IPv4AddressImpl::mask(pMask, pSet)`.  The macro
`poco_assert` throws `AssertionViolationException` when its condition is false
(the exception carries the text of the condition; file and line are left out);
once it has passed, both arguments are `IPv4AddressImpl` objects and the
`static_cast`s are the projections of the `v4` case.  The second statement
reads `pSet->_addr` and `pMask->_addr` after the first has written `_addr`. -/
def IPv4AddressImpl.mask (self : IPv4AddressImpl) (pMask pSet : ObjRef IPAddressImpl) :
    IPv4AddressImpl × Except Exception Unit :=
  if (pMask.deref (.v4 self)).af = AF_INET ∧ (pSet.deref (.v4 self)).af = AF_INET then
    match pMask.deref (.v4 self) with
    | .v4 m =>
      let self1 : IPv4AddressImpl :=
        ⟨Octets.ofWord 4 (self._addr.s_addr &&& m._addr.s_addr)⟩
      match pSet.deref (.v4 self1), pMask.deref (.v4 self1) with
      | .v4 s, .v4 m1 =>
        let a2 : in_addr :=
          Octets.ofWord 4 (self1._addr.s_addr ||| (s._addr.s_addr &&& not32 m1._addr.s_addr))
        (⟨a2⟩, .ok ())
      | _, _ => (self1, .ok ())
    | _ => (self, .ok ())
  else
    (self, .error (.AssertionViolationException
      "pMask->af() == AF_INET && pSet->af() == AF_INET"))

/-- The member function `IPv6AddressImpl::mask(pMask, pSet)`. -/
def IPv6AddressImpl.mask (self : IPv6AddressImpl) (_pMask _pSet : ObjRef IPAddressImpl) :
    IPv6AddressImpl × Except Exception Unit :=
  (self, .error (.NotImplementedException "mask() is only supported for IPv4 addresses"))

/-- The virtual member function `mask(pMask, pSet)`. -/
def IPAddressImpl.mask (self : IPAddressImpl) (pMask pSet : ObjRef IPAddressImpl) :
    IPAddressImpl × Except Exception Unit :=
  match self with
  | .v4 impl => ((.v4 (impl.mask pMask pSet).1), (impl.mask pMask pSet).2)
  | .v6 impl => ((.v6 (impl.mask pMask pSet).1), (impl.mask pMask pSet).2)

/-! ## IPAddress -/

/-- The class `IPAddress`: a handle on an implementation object. -/
structure IPAddress where
  _pImpl : IPAddressImpl

/-- The message of the exception thrown for a bad address family. -/
def invalidFamilyMsg : String :=
  "Invalid or unsupported address family passed to IPAddress()"

/-- The message of the exception thrown for a bad address length. -/
def invalidLengthMsg : String :=
  "Invalid address length passed to IPAddress()"

/-- The message of the exception thrown for a bad prefix length. -/
def invalidPrefixMsg : String :=
  "Invalid prefix length passed to IPAddress()"

/-- The default constructor `IPAddress()`. -/
def IPAddress.new : IPAddress := ⟨.v4 IPv4AddressImpl.new⟩

/-- The constructor `IPAddress(const void* addr, poco_socklen_t length)`; the
buffer `addr` holds `length` octets. -/
def IPAddress.ofAddr {length : Nat} (addr : Octets length) : Except Exception IPAddress :=
  if h4 : length = 4 then .ok ⟨.v4 (IPv4AddressImpl.ofAddr (addr.cast h4))⟩
  else if h16 : length = 16 then .ok ⟨.v6 (IPv6AddressImpl.ofAddr (addr.cast h16))⟩
  else .error (.InvalidArgumentException invalidLengthMsg)

/-- The constructor `IPAddress(const void* addr, poco_socklen_t length,
Poco::UInt32 scope)`; the buffer `addr` holds `length` octets. -/
def IPAddress.ofAddrScope {length : Nat} (addr : Octets length) (scope : Nat) :
    Except Exception IPAddress :=
  if h4 : length = 4 then .ok ⟨.v4 (IPv4AddressImpl.ofAddr (addr.cast h4))⟩
  else if h16 : length = 16 then .ok ⟨.v6 (IPv6AddressImpl.ofAddrScope (addr.cast h16) scope)⟩
  else .error (.InvalidArgumentException invalidLengthMsg)

/-- The constructor `IPAddress(unsigned prefix, Family family)`; `uninit` is the
indeterminate initial content of the memory of a new `IPv6AddressImpl`.  The
result `none` of the first step stands for the null `_pImpl`. -/
def IPAddress.ofPrefixLength (pfx : Nat) (family : IPAddress.Family) (uninit : in6_addr) :
    Except Exception IPAddress :=
  let pImpl : Option IPAddressImpl :=
    match family with
    | .IPv4 => if pfx ≤ 32 then some (.v4 (IPv4AddressImpl.ofPrefixLength pfx)) else none
    | .IPv6 => if pfx ≤ 128 then some (.v6 (IPv6AddressImpl.ofPrefixLength pfx uninit)) else none
  match pImpl with
  | some impl => .ok ⟨impl⟩
  | none => .error (.InvalidArgumentException invalidPrefixMsg)

/-- The member function `family()`. -/
def IPAddress.family (self : IPAddress) : IPAddress.Family := self._pImpl.family

/-- The member function `scope()`. -/
def IPAddress.scope (self : IPAddress) : Nat := self._pImpl.scope

/-- The member function `length()`. -/
def IPAddress.length (self : IPAddress) : Nat := self._pImpl.length

/-- The member function `addr()`. -/
def IPAddress.addr (self : IPAddress) : List Nat := self._pImpl.addr

/-- The member function `af()`. -/
def IPAddress.af (self : IPAddress) : Int := self._pImpl.af

/-- The member function `prefixLength()`. -/
def IPAddress.prefixLength (self : IPAddress) : Nat := self._pImpl.prefixLength

/-- The operator `==`. -/
def IPAddress.op_eq (self a : IPAddress) : Bool :=
  let l1 := self.length
  let l2 := a.length
  if l1 = l2 then memcmp self.addr a.addr l1 == 0 else false

/-- The operator `!=`. -/
def IPAddress.op_ne (self a : IPAddress) : Bool :=
  let l1 := self.length
  let l2 := a.length
  if l1 = l2 then memcmp self.addr a.addr l1 != 0 else true

/-- The operator `<`. -/
def IPAddress.op_lt (self a : IPAddress) : Bool :=
  let l1 := self.length
  let l2 := a.length
  if l1 = l2 then decide (memcmp self.addr a.addr l1 < 0) else decide (l1 < l2)

/-- The operator `<=`. -/
def IPAddress.op_le (self a : IPAddress) : Bool :=
  let l1 := self.length
  let l2 := a.length
  if l1 = l2 then decide (memcmp self.addr a.addr l1 ≤ 0) else decide (l1 < l2)

/-- The operator `>`. -/
def IPAddress.op_gt (self a : IPAddress) : Bool :=
  let l1 := self.length
  let l2 := a.length
  if l1 = l2 then decide (memcmp self.addr a.addr l1 > 0) else decide (l1 > l2)

/-- The operator `>=`. -/
def IPAddress.op_ge (self a : IPAddress) : Bool :=
  let l1 := self.length
  let l2 := a.length
  if l1 = l2 then decide (memcmp self.addr a.addr l1 ≥ 0) else decide (l1 > l2)

/-- The operator `&`.  `IPAddress::Family` has the two values `IPv4` and `IPv6`,
which leaves the innermost `else` of the source without a case. -/
def IPAddress.op_and (self other : IPAddress) : Except Exception IPAddress :=
  if self.family = other.family then
    match self._pImpl, other._pImpl with
    | .v4 t0, .v4 o0 =>
      let t := IPv4AddressImpl.ofAddr t0._addr
      let o := IPv4AddressImpl.ofAddr o0._addr
      IPAddress.ofAddr (t.op_and o)._addr
    | .v6 t0, .v6 o0 =>
      let t := IPv6AddressImpl.ofAddr t0._addr
      let o := IPv6AddressImpl.ofAddr o0._addr
      IPAddress.ofAddr (t.op_and o)._addr
    | _, _ => .error (.InvalidArgumentException invalidFamilyMsg)
  else .error (.InvalidArgumentException invalidFamilyMsg)

/-- The operator `|`, written like the operator `&`. -/
def IPAddress.op_or (self other : IPAddress) : Except Exception IPAddress :=
  if self.family = other.family then
    match self._pImpl, other._pImpl with
    | .v4 t0, .v4 o0 =>
      let t := IPv4AddressImpl.ofAddr t0._addr
      let o := IPv4AddressImpl.ofAddr o0._addr
      IPAddress.ofAddr (t.op_or o)._addr
    | .v6 t0, .v6 o0 =>
      let t := IPv6AddressImpl.ofAddr t0._addr
      let o := IPv6AddressImpl.ofAddr o0._addr
      IPAddress.ofAddr (t.op_or o)._addr
    | _, _ => .error (.InvalidArgumentException invalidFamilyMsg)
  else .error (.InvalidArgumentException invalidFamilyMsg)

/-- The operator `^`, written like the operator `&`. -/
def IPAddress.op_xor (self other : IPAddress) : Except Exception IPAddress :=
  if self.family = other.family then
    match self._pImpl, other._pImpl with
    | .v4 t0, .v4 o0 =>
      let t := IPv4AddressImpl.ofAddr t0._addr
      let o := IPv4AddressImpl.ofAddr o0._addr
      IPAddress.ofAddr (t.op_xor o)._addr
    | .v6 t0, .v6 o0 =>
      let t := IPv6AddressImpl.ofAddr t0._addr
      let o := IPv6AddressImpl.ofAddr o0._addr
      IPAddress.ofAddr (t.op_xor o)._addr
    | _, _ => .error (.InvalidArgumentException invalidFamilyMsg)
  else .error (.InvalidArgumentException invalidFamilyMsg)

/-- The operator `~`.  `IPAddress::Family` has the two values `IPv4` and `IPv6`,
which leaves the last `else` of the source without a case. -/
def IPAddress.op_not (self : IPAddress) : Except Exception IPAddress :=
  match self._pImpl with
  | .v4 t0 =>
    let self1 := IPv4AddressImpl.ofAddr t0._addr
    IPAddress.ofAddr self1.op_not._addr
  | .v6 t0 =>
    let self1 := IPv6AddressImpl.ofAddr t0._addr
    IPAddress.ofAddr self1.op_not._addr

/-- The expression `a._pImpl` for an argument `a` received by reference,
evaluated after the assignment `_pImpl = pClone`: for the object the function is
called on it is the very object `_pImpl->mask` is called on, for another
`IPAddress` it is the implementation object of that one, which the new clone is
not. -/
def ObjRef.pImpl : ObjRef IPAddress → ObjRef IPAddressImpl
  | .self => .self
  | .other a => .other a._pImpl

/-- The member function `mask(const IPAddress& mask)`: the object after the
call, and the outcome of the call. -/
def IPAddress.mask (self : IPAddress) (mask : ObjRef IPAddress) :
    IPAddress × Except Exception Unit :=
  let pClone := self._pImpl.clone
  let null := IPAddress.new
  let r := pClone.mask mask.pImpl (.other null._pImpl)
  (⟨r.1⟩, r.2)

/-- The member function `mask(const IPAddress& mask, const IPAddress& set)`: the
object after the call, and the outcome of the call. -/
def IPAddress.mask_set (self : IPAddress) (mask set : ObjRef IPAddress) :
    IPAddress × Except Exception Unit :=
  let pClone := self._pImpl.clone
  let r := pClone.mask mask.pImpl set.pImpl
  (⟨r.1⟩, r.2)

/-! ## Classification -/

/-- The constant `INADDR_ANY`. -/
def INADDR_ANY : Nat := 0

/-- The constant `INADDR_NONE`. -/
def INADDR_NONE : Nat := 0xffffffff

/-- The value `ntohs(words[i])`, for `words` the view of a `struct in6_addr` as
eight 16-bit words.  The raw test `words[i] == 0` of the source holds exactly
when this value is `0`. -/
def in6_addr.words (a : in6_addr) (i : Nat) : Nat :=
  beValue ((a.bytes.drop (2 * i)).take 2)

/-- The member function `IPv4AddressImpl::isWildcard()`. -/
def IPv4AddressImpl.isWildcard (self : IPv4AddressImpl) : Bool :=
  self._addr.s_addr == INADDR_ANY

/-- The member function `IPv4AddressImpl::isBroadcast()`. -/
def IPv4AddressImpl.isBroadcast (self : IPv4AddressImpl) : Bool :=
  self._addr.s_addr == INADDR_NONE

/-- The member function `IPv4AddressImpl::isLoopback()`. -/
def IPv4AddressImpl.isLoopback (self : IPv4AddressImpl) : Bool :=
  (self._addr.s_addr &&& 0xFF000000) == 0x7F000000

/-- The member function `IPv4AddressImpl::isMulticast()`. -/
def IPv4AddressImpl.isMulticast (self : IPv4AddressImpl) : Bool :=
  (self._addr.s_addr &&& 0xF0000000) == 0xE0000000

/-- The member function `IPv4AddressImpl::isLinkLocal()`. -/
def IPv4AddressImpl.isLinkLocal (self : IPv4AddressImpl) : Bool :=
  (self._addr.s_addr &&& 0xFFFF0000) == 0xA9FE0000

/-- The member function `IPv4AddressImpl::isSiteLocal()`. -/
def IPv4AddressImpl.isSiteLocal (self : IPv4AddressImpl) : Bool :=
  let addr := self._addr.s_addr
  (addr &&& 0xFF000000) == 0x0A000000 ||
    (addr &&& 0xFFFF0000) == 0xC0A80000 ||
    (decide (addr ≥ 0xAC100000) && decide (addr ≤ 0xAC1FFFFF))

/-- The member function `IPv4AddressImpl::isIPv4Compatible()`. -/
def IPv4AddressImpl.isIPv4Compatible (_self : IPv4AddressImpl) : Bool := true

/-- The member function `IPv4AddressImpl::isIPv4Mapped()`. -/
def IPv4AddressImpl.isIPv4Mapped (_self : IPv4AddressImpl) : Bool := true

/-- The member function `IPv4AddressImpl::isWellKnownMC()`; the source carries
the comment `// 224.0.0.0/8`. -/
def IPv4AddressImpl.isWellKnownMC (self : IPv4AddressImpl) : Bool :=
  (self._addr.s_addr &&& 0xFFFFFF00) == 0xE0000000

/-- The member function `IPv4AddressImpl::isNodeLocalMC()`. -/
def IPv4AddressImpl.isNodeLocalMC (_self : IPv4AddressImpl) : Bool := false

/-- The member function `IPv4AddressImpl::isLinkLocalMC()`; the source carries
the comment `// 244.0.0.0/24`. -/
def IPv4AddressImpl.isLinkLocalMC (self : IPv4AddressImpl) : Bool :=
  (self._addr.s_addr &&& 0xFF000000) == 0xE0000000

/-- The member function `IPv4AddressImpl::isSiteLocalMC()`. -/
def IPv4AddressImpl.isSiteLocalMC (self : IPv4AddressImpl) : Bool :=
  (self._addr.s_addr &&& 0xFFFF0000) == 0xEFFF0000

/-- The member function `IPv4AddressImpl::isOrgLocalMC()`. -/
def IPv4AddressImpl.isOrgLocalMC (self : IPv4AddressImpl) : Bool :=
  (self._addr.s_addr &&& 0xFFFF0000) == 0xEFC00000

/-- The member function `IPv4AddressImpl::isGlobalMC()`; the source carries the
comment `// 224.0.1.0 to 238.255.255.255`. -/
def IPv4AddressImpl.isGlobalMC (self : IPv4AddressImpl) : Bool :=
  let addr := self._addr.s_addr
  decide (addr ≥ 0xE0000100) && decide (addr ≤ 0xEE000000)

/-- The member function `IPv6AddressImpl::isWildcard()`. -/
def IPv6AddressImpl.isWildcard (self : IPv6AddressImpl) : Bool :=
  let words := self._addr.words
  words 0 == 0 && words 1 == 0 && words 2 == 0 && words 3 == 0 &&
    words 4 == 0 && words 5 == 0 && words 6 == 0 && words 7 == 0

/-- The member function `IPv6AddressImpl::isBroadcast()`. -/
def IPv6AddressImpl.isBroadcast (_self : IPv6AddressImpl) : Bool := false

/-- The member function `IPv6AddressImpl::isLoopback()`. -/
def IPv6AddressImpl.isLoopback (self : IPv6AddressImpl) : Bool :=
  let words := self._addr.words
  words 0 == 0 && words 1 == 0 && words 2 == 0 && words 3 == 0 &&
    words 4 == 0 && words 5 == 0 && words 6 == 0 && words 7 == 0x0001

/-- The member function `IPv6AddressImpl::isMulticast()`. -/
def IPv6AddressImpl.isMulticast (self : IPv6AddressImpl) : Bool :=
  (self._addr.words 0 &&& 0xFFE0) == 0xFF00

/-- The member function `IPv6AddressImpl::isLinkLocal()`. -/
def IPv6AddressImpl.isLinkLocal (self : IPv6AddressImpl) : Bool :=
  (self._addr.words 0 &&& 0xFFE0) == 0xFE80

/-- The member function `IPv6AddressImpl::isSiteLocal()`. -/
def IPv6AddressImpl.isSiteLocal (self : IPv6AddressImpl) : Bool :=
  ((self._addr.words 0 &&& 0xFFE0) == 0xFEC0) || ((self._addr.words 0 &&& 0xFF00) == 0xFC00)

/-- The member function `IPv6AddressImpl::isIPv4Compatible()`. -/
def IPv6AddressImpl.isIPv4Compatible (self : IPv6AddressImpl) : Bool :=
  let words := self._addr.words
  words 0 == 0 && words 1 == 0 && words 2 == 0 && words 3 == 0 && words 4 == 0 && words 5 == 0

/-- The member function `IPv6AddressImpl::isIPv4Mapped()`. -/
def IPv6AddressImpl.isIPv4Mapped (self : IPv6AddressImpl) : Bool :=
  let words := self._addr.words
  words 0 == 0 && words 1 == 0 && words 2 == 0 && words 3 == 0 && words 4 == 0 &&
    words 5 == 0xFFFF

/-- The member function `IPv6AddressImpl::isWellKnownMC()`. -/
def IPv6AddressImpl.isWellKnownMC (self : IPv6AddressImpl) : Bool :=
  (self._addr.words 0 &&& 0xFFF0) == 0xFF00

/-- The member function `IPv6AddressImpl::isNodeLocalMC()`. -/
def IPv6AddressImpl.isNodeLocalMC (self : IPv6AddressImpl) : Bool :=
  (self._addr.words 0 &&& 0xFFEF) == 0xFF01

/-- The member function `IPv6AddressImpl::isLinkLocalMC()`. -/
def IPv6AddressImpl.isLinkLocalMC (self : IPv6AddressImpl) : Bool :=
  (self._addr.words 0 &&& 0xFFEF) == 0xFF02

/-- The member function `IPv6AddressImpl::isSiteLocalMC()`. -/
def IPv6AddressImpl.isSiteLocalMC (self : IPv6AddressImpl) : Bool :=
  (self._addr.words 0 &&& 0xFFEF) == 0xFF05

/-- The member function `IPv6AddressImpl::isOrgLocalMC()`. -/
def IPv6AddressImpl.isOrgLocalMC (self : IPv6AddressImpl) : Bool :=
  (self._addr.words 0 &&& 0xFFEF) == 0xFF08

/-- The member function `IPv6AddressImpl::isGlobalMC()`. -/
def IPv6AddressImpl.isGlobalMC (self : IPv6AddressImpl) : Bool :=
  (self._addr.words 0 &&& 0xFFEF) == 0xFF0F

/-- The virtual member function `isWildcard()`. -/
def IPAddressImpl.isWildcard : IPAddressImpl → Bool
  | .v4 impl => impl.isWildcard
  | .v6 impl => impl.isWildcard

/-- The virtual member function `isBroadcast()`. -/
def IPAddressImpl.isBroadcast : IPAddressImpl → Bool
  | .v4 impl => impl.isBroadcast
  | .v6 impl => impl.isBroadcast

/-- The virtual member function `isLoopback()`. -/
def IPAddressImpl.isLoopback : IPAddressImpl → Bool
  | .v4 impl => impl.isLoopback
  | .v6 impl => impl.isLoopback

/-- The virtual member function `isMulticast()`. -/
def IPAddressImpl.isMulticast : IPAddressImpl → Bool
  | .v4 impl => impl.isMulticast
  | .v6 impl => impl.isMulticast

/-- The virtual member function `isLinkLocal()`. -/
def IPAddressImpl.isLinkLocal : IPAddressImpl → Bool
  | .v4 impl => impl.isLinkLocal
  | .v6 impl => impl.isLinkLocal

/-- The virtual member function `isSiteLocal()`. -/
def IPAddressImpl.isSiteLocal : IPAddressImpl → Bool
  | .v4 impl => impl.isSiteLocal
  | .v6 impl => impl.isSiteLocal

/-- The virtual member function `isIPv4Compatible()`. -/
def IPAddressImpl.isIPv4Compatible : IPAddressImpl → Bool
  | .v4 impl => impl.isIPv4Compatible
  | .v6 impl => impl.isIPv4Compatible

/-- The virtual member function `isIPv4Mapped()`. -/
def IPAddressImpl.isIPv4Mapped : IPAddressImpl → Bool
  | .v4 impl => impl.isIPv4Mapped
  | .v6 impl => impl.isIPv4Mapped

/-- The virtual member function `isWellKnownMC()`. -/
def IPAddressImpl.isWellKnownMC : IPAddressImpl → Bool
  | .v4 impl => impl.isWellKnownMC
  | .v6 impl => impl.isWellKnownMC

/-- The virtual member function `isNodeLocalMC()`. -/
def IPAddressImpl.isNodeLocalMC : IPAddressImpl → Bool
  | .v4 impl => impl.isNodeLocalMC
  | .v6 impl => impl.isNodeLocalMC

/-- The virtual member function `isLinkLocalMC()`. -/
def IPAddressImpl.isLinkLocalMC : IPAddressImpl → Bool
  | .v4 impl => impl.isLinkLocalMC
  | .v6 impl => impl.isLinkLocalMC

/-- The virtual member function `isSiteLocalMC()`. -/
def IPAddressImpl.isSiteLocalMC : IPAddressImpl → Bool
  | .v4 impl => impl.isSiteLocalMC
  | .v6 impl => impl.isSiteLocalMC

/-- The virtual member function `isOrgLocalMC()`. -/
def IPAddressImpl.isOrgLocalMC : IPAddressImpl → Bool
  | .v4 impl => impl.isOrgLocalMC
  | .v6 impl => impl.isOrgLocalMC

/-- The virtual member function `isGlobalMC()`. -/
def IPAddressImpl.isGlobalMC : IPAddressImpl → Bool
  | .v4 impl => impl.isGlobalMC
  | .v6 impl => impl.isGlobalMC

/-- The member function `IPAddress::isWildcard()`. -/
def IPAddress.isWildcard (self : IPAddress) : Bool := self._pImpl.isWildcard

/-- The member function `IPAddress::isBroadcast()`. -/
def IPAddress.isBroadcast (self : IPAddress) : Bool := self._pImpl.isBroadcast

/-- The member function `IPAddress::isLoopback()`. -/
def IPAddress.isLoopback (self : IPAddress) : Bool := self._pImpl.isLoopback

/-- The member function `IPAddress::isMulticast()`. -/
def IPAddress.isMulticast (self : IPAddress) : Bool := self._pImpl.isMulticast

/-- The member function `IPAddress::isUnicast()`. -/
def IPAddress.isUnicast (self : IPAddress) : Bool :=
  !self.isWildcard && !self.isBroadcast && !self.isMulticast

/-- The member function `IPAddress::isLinkLocal()`. -/
def IPAddress.isLinkLocal (self : IPAddress) : Bool := self._pImpl.isLinkLocal

/-- The member function `IPAddress::isSiteLocal()`. -/
def IPAddress.isSiteLocal (self : IPAddress) : Bool := self._pImpl.isSiteLocal

/-- The member function `IPAddress::isIPv4Compatible()`. -/
def IPAddress.isIPv4Compatible (self : IPAddress) : Bool := self._pImpl.isIPv4Compatible

/-- The member function `IPAddress::isIPv4Mapped()`. -/
def IPAddress.isIPv4Mapped (self : IPAddress) : Bool := self._pImpl.isIPv4Mapped

/-- The member function `IPAddress::isWellKnownMC()`. -/
def IPAddress.isWellKnownMC (self : IPAddress) : Bool := self._pImpl.isWellKnownMC

/-- The member function `IPAddress::isNodeLocalMC()`. -/
def IPAddress.isNodeLocalMC (self : IPAddress) : Bool := self._pImpl.isNodeLocalMC

/-- The member function `IPAddress::isLinkLocalMC()`. -/
def IPAddress.isLinkLocalMC (self : IPAddress) : Bool := self._pImpl.isLinkLocalMC

/-- The member function `IPAddress::isSiteLocalMC()`. -/
def IPAddress.isSiteLocalMC (self : IPAddress) : Bool := self._pImpl.isSiteLocalMC

/-- The member function `IPAddress::isOrgLocalMC()`. -/
def IPAddress.isOrgLocalMC (self : IPAddress) : Bool := self._pImpl.isOrgLocalMC

/-- The member function `IPAddress::isGlobalMC()`. -/
def IPAddress.isGlobalMC (self : IPAddress) : Bool := self._pImpl.isGlobalMC

/-! ## Formatting -/

/-- Modelled from the spec: `NumberFormatter::append(str, value)` of Poco
Foundation, which is not among the sources: it appends `value` in decimal, without
leading zeros. -/
def NumberFormatter.append (str : String) (value : Nat) : String :=
  str ++ String.mk (Nat.toDigits 10 value)

/-- Modelled from the spec: `NumberFormatter::appendHex(str, value)` of Poco
Foundation, which is not among the sources: it appends `value` in hexadecimal,
without leading zeros.  The digits are written in upper case; `toLower` gives
them the lower case the spec describes. -/
def NumberFormatter.appendHex (str : String) (value : Nat) : String :=
  str ++ String.mk ((Nat.toDigits 16 value).map Char.toUpper)

/-- Modelled from the spec: `Poco::toLower(str)` of Poco Foundation, which is not
among the sources: the string with every upper-case letter replaced by its
lower-case letter. -/
def toLower (str : String) : String :=
  String.mk (str.data.map Char.toLower)

/-- The octet `bytes[i]` of a block of memory. -/
def Octets.byte {n : Nat} (a : Octets n) (i : Nat) : Nat := a.bytes.getD i 0

/-- The member function `IPv4AddressImpl::toString()`. -/
def IPv4AddressImpl.toString (self : IPv4AddressImpl) : String :=
  let bytes := self._addr.byte
  let result := ""
  let result := NumberFormatter.append result (bytes 0)
  let result := result ++ "."
  let result := NumberFormatter.append result (bytes 1)
  let result := result ++ "."
  let result := NumberFormatter.append result (bytes 2)
  let result := result ++ "."
  let result := NumberFormatter.append result (bytes 3)
  result

/-- The inner loop `while (zi < 8 && words[zi] == 0) ++zi;` of
`IPv6AddressImpl::toString()`: the value of `zi` at the exit. -/
def IPv6AddressImpl.toString.skipZeros (words : Nat → Nat) (zi : Nat) : Nat :=
  if zi < 8 ∧ words zi = 0 then IPv6AddressImpl.toString.skipZeros words (zi + 1) else zi
termination_by 8 - zi
decreasing_by omega

/-- The body of the loop `while (i < 8)` of `IPv6AddressImpl::toString()` up to
the test `if (i > 0)`: the new values of `i`, `result` and `zeroSequence`. -/
def IPv6AddressImpl.toString.zeroStep (words : Nat → Nat) (i : Nat) (zeroSequence : Bool)
    (result : String) : Nat × String × Bool :=
  if !zeroSequence ∧ words i = 0 then
    let zi := IPv6AddressImpl.toString.skipZeros words i
    if zi > i + 1 then (zi, result ++ ":", true) else (i, result, zeroSequence)
  else (i, result, zeroSequence)

/-- The loop `while (i < 8)` of `IPv6AddressImpl::toString()`: the value of
`result` at the exit. -/
def IPv6AddressImpl.toString.loop (words : Nat → Nat) (i : Nat) (zeroSequence : Bool)
    (result : String) : String :=
  if i < 8 then
    match hs : IPv6AddressImpl.toString.zeroStep words i zeroSequence result with
    | (i1, result1, zeroSequence1) =>
      let result2 := if i1 > 0 then result1 ++ ":" else result1
      if i1 < 8 then
        IPv6AddressImpl.toString.loop words (i1 + 1) zeroSequence1
          (NumberFormatter.appendHex result2 (words i1))
      else IPv6AddressImpl.toString.loop words i1 zeroSequence1 result2
  else result
termination_by 8 - i
decreasing_by
  all_goals simp_wf
  · have h1 : i ≤ (IPv6AddressImpl.toString.zeroStep words i zeroSequence result).1 := by
      simp only [IPv6AddressImpl.toString.zeroStep]
      split_ifs <;> simp only [] <;> omega
    rw [hs] at h1
    simp only at h1
    omega
  · omega

/-- The member function `IPv6AddressImpl::toString()`.  The function
`if_indextoname` of the operating system is a parameter: it gives the name of
the interface with the given index, if there is one. -/
def IPv6AddressImpl.toString (self : IPv6AddressImpl) (if_indextoname : Nat → Option String) :
    String :=
  let words := self._addr.words
  if self.isIPv4Compatible || self.isIPv4Mapped then
    let result := ""
    let result := if words 5 = 0 then result ++ "::" else result ++ "::ffff:"
    let bytes := self._addr.byte
    let result := NumberFormatter.append result (bytes 12)
    let result := result ++ "."
    let result := NumberFormatter.append result (bytes 13)
    let result := result ++ "."
    let result := NumberFormatter.append result (bytes 14)
    let result := result ++ "."
    let result := NumberFormatter.append result (bytes 15)
    result
  else
    let result := ""
    let result := IPv6AddressImpl.toString.loop words 0 false result
    let result :=
      if self._scope > 0 then
        let result := result ++ "%"
        match if_indextoname self._scope with
        | some buffer => result ++ buffer
        | none => NumberFormatter.append result self._scope
      else result
    toLower result

/-- The virtual member function `toString()`. -/
def IPAddressImpl.toString (self : IPAddressImpl) (if_indextoname : Nat → Option String) :
    String :=
  match self with
  | .v4 impl => impl.toString
  | .v6 impl => impl.toString if_indextoname

/-- The member function `IPAddress::toString()`. -/
def IPAddress.toString (self : IPAddress) (if_indextoname : Nat → Option String) : String :=
  self._pImpl.toString if_indextoname

/-! ## Parsing -/

/-- Modelled from the spec: part of `inet_aton` and `inet_pton`, which are not
among the sources: the value of a decimal or hexadecimal digit character. -/
def digitValue (c : Char) : Option Nat :=
  if '0' ≤ c ∧ c ≤ '9' then some (c.toNat - '0'.toNat)
  else if 'a' ≤ c ∧ c ≤ 'f' then some (c.toNat - 'a'.toNat + 10)
  else if 'A' ≤ c ∧ c ≤ 'F' then some (c.toNat - 'A'.toNat + 10)
  else none

/-- Modelled from the spec: part of `inet_aton` and `inet_pton`, which are not
among the sources: the number written by a sequence of digits in the given base,
after the digits already read, whose value is `acc`. -/
def parseDigits (base : Nat) (acc : Nat) : List Char → Option Nat
  | [] => some acc
  | c :: cs =>
    match digitValue c with
    | some d => if d < base then parseDigits base (acc * base + d) cs else none
    | none => none

/-- Modelled from the spec: part of `inet_aton` and `inet_pton`, which are not
among the sources: the pieces of a text between the occurrences of a separator. -/
def splitOn (sep : Char) : List Char → List (List Char)
  | [] => [[]]
  | c :: cs =>
    if c = sep then [] :: splitOn sep cs
    else
      match splitOn sep cs with
      | [] => [[c]]
      | p :: ps => (c :: p) :: ps

/-- Modelled from the spec: part of `inet_aton` and `inet_pton`, which are not
among the sources: the values of a list of pieces, each read by `f`, if all of
them can be read. -/
def parseEach (f : List Char → Option Nat) : List (List Char) → Option (List Nat)
  | [] => some []
  | p :: ps =>
    match f p, parseEach f ps with
    | some v, some vs => some (v :: vs)
    | _, _ => none

/-- Modelled from the spec: part of `inet_aton` and `inet_pton`, which are not
among the sources: a decimal octet, one to three decimal digits of value at most
255. -/
def parseOctet (p : List Char) : Option Nat :=
  if p ≠ [] ∧ p.length ≤ 3 then
    (parseDigits 10 0 p).bind (fun v => if v ≤ 255 then some v else none)
  else none

/-- Modelled from the spec: part of `inet_pton`, which is not among the sources:
a 16-bit group, one to four hexadecimal digits. -/
def parseGroup (p : List Char) : Option Nat :=
  if p ≠ [] ∧ p.length ≤ 4 then parseDigits 16 0 p else none

/-- Modelled from the spec: part of `inet_aton` and `inet_pton`, which are not
among the sources: a dotted quad, four decimal octets separated by `.`, and
nothing else. -/
def parseDottedQuad (cs : List Char) : Option (List Nat) :=
  match parseEach parseOctet (splitOn '.' cs) with
  | some [a, b, c, d] => some [a, b, c, d]
  | _ => none

/-- Modelled from the spec: part of `inet_pton`, which is not among the sources:
the groups written by a list of pieces, the last of which may be a dotted quad,
which stands for two groups. -/
def parseTail : List (List Char) → Option (List Nat)
  | [] => some []
  | [p] =>
    if '.' ∈ p then
      (parseDottedQuad p).map
        (fun q => [q.getD 0 0 * 256 + q.getD 1 0, q.getD 2 0 * 256 + q.getD 3 0])
    else (parseGroup p).map (fun v => [v])
  | p :: ps =>
    match parseGroup p, parseTail ps with
    | some v, some vs => some (v :: vs)
    | _, _ => none

/-- Modelled from the spec: part of `inet_pton`, which is not among the sources:
the texts before and after the first `::` of a text, if there is one. -/
def splitDoubleColon : List Char → Option (List Char × List Char)
  | [] => none
  | [_] => none
  | c :: d :: rest =>
    if c = ':' ∧ d = ':' then some ([], rest)
    else (splitDoubleColon (d :: rest)).map (fun lr => (c :: lr.1, lr.2))

/-- Modelled from the spec: part of `inet_pton`, which is not among the sources:
the eight groups written by an IPv6 text, which has up to eight groups separated
by `:`, with at most one `::`, which stands for one or more zero groups, and
possibly a dotted quad for the last two groups. -/
def parseGroups (cs : List Char) : Option (List Nat) :=
  match splitDoubleColon cs with
  | some (l, r) =>
    match (if l = [] then some [] else parseEach parseGroup (splitOn ':' l)),
        (if r = [] then some [] else parseTail (splitOn ':' r)) with
    | some left, some right =>
      if left.length + right.length ≤ 7 then
        some (left ++ List.replicate (8 - (left.length + right.length)) 0 ++ right)
      else none
    | _, _ => none
  | none =>
    match parseTail (splitOn ':' cs) with
    | some all => if all.length = 8 then some all else none
    | none => none

/-- The block of `n` octets holding the first `n` elements of a list of octets
(`std::memcpy` from a buffer of at least `n` octets). -/
def Octets.ofList (n : Nat) (l : List Nat) : Octets n where
  bytes := (List.range n).map (fun i => l.getD i 0 % 256)
  size_eq := by simp
  byte_lt := by
    intro b hb
    simp only [List.mem_map] at hb
    obtain ⟨i, _, rfl⟩ := hb
    exact Nat.mod_lt _ (by decide)

/-- Modelled from the spec: the function `inet_aton` of the C library, which is
not among the sources, as the grammar of the spec has it: four decimal octets
0-255 separated by `.`, no extraneous characters. -/
def inet_aton (cp : String) : Option in_addr :=
  (parseDottedQuad cp.data).map (Octets.ofList 4)

/-- Modelled from the spec: the function `inet_pton(AF_INET6, src, dst)` of the C
library, which is not among the sources, as the grammar of the spec has it: up
to eight colon-separated 16-bit groups in hexadecimal, with at most one `::`
standing for one or more zero groups, and possibly a dotted quad for the last 32
bits. -/
def inet_pton6 (src : String) : Option in6_addr :=
  (parseGroups src.data).map (fun g => Octets.ofList 16 (g.flatMap (fun w => [w / 256, w % 256])))

/-- The member function `std::string::find(c)`: the index of the first
occurrence of `c`, `none` standing for `npos`. -/
def find (s : List Char) (c : Char) : Option Nat :=
  match s with
  | [] => none
  | x :: xs => if x = c then some 0 else (find xs c).map (· + 1)

/-- The constructor `std::string(str, pos, n)`: the substring of at most `n`
characters that starts at `pos`. -/
def substr (str : String) (pos n : Nat) : String :=
  String.mk ((str.data.drop pos).take n)

/-- The static member function `IPv4AddressImpl::parse(addr)`; `none` stands for
the null pointer. -/
def IPv4AddressImpl.parse (addr : String) : Option IPv4AddressImpl :=
  if addr = "" then none
  else
    match inet_aton addr with
    | some ia => some (IPv4AddressImpl.ofAddr ia)
    | none => none

/-- The static member function `IPv6AddressImpl::parse(addr)`; `none` stands for
the null pointer.  The function `if_nametoindex` of the operating system is a
parameter: it gives the index of the interface with the given name, `0` if
there is none. -/
def IPv6AddressImpl.parse (addr : String) (if_nametoindex : String → Nat) :
    Option IPv6AddressImpl :=
  if addr = "" then none
  else
    match find addr.data '%' with
    | some pos =>
      let start := if addr.data.head? = some '[' then 1 else 0
      let unscopedAddr := substr addr start (pos - start)
      let scope := substr addr (pos + 1) (addr.data.length - start - pos)
      let scopeId := if_nametoindex scope
      if scopeId = 0 then none
      else
        match inet_pton6 unscopedAddr with
        | some ia => some (IPv6AddressImpl.ofAddrScope ia scopeId)
        | none => none
    | none =>
      match inet_pton6 addr with
      | some ia => some (IPv6AddressImpl.ofAddr ia)
      | none => none

/-- The constructor `IPAddress(const std::string& addr)`. -/
def IPAddress.ofString (addr : String) (if_nametoindex : String → Nat) :
    Except Exception IPAddress :=
  match IPv4AddressImpl.parse addr with
  | some impl => .ok ⟨.v4 impl⟩
  | none =>
    match IPv6AddressImpl.parse addr if_nametoindex with
    | some impl => .ok ⟨.v6 impl⟩
    | none => .error (.InvalidAddressException addr)

/-- The static member function `IPAddress::parse(addr)`. -/
def IPAddress.parse (addr : String) (if_nametoindex : String → Nat) :
    Except Exception IPAddress :=
  IPAddress.ofString addr if_nametoindex

/-- An interface table with the single interface `Eth0`, of index 2, for the
examples: its function `if_nametoindex`. -/
def eth0NameToIndex : String → Nat := fun name => if name = "Eth0" then 2 else 0

/-- An interface table with the single interface `Eth0`, of index 2, for the
examples: its function `if_indextoname`. -/
def eth0IndexToName : Nat → Option String := fun index => if index = 2 then some "Eth0" else none

/-! ## Observations used to state the properties -/

/-- Number of trailing zero bits of `x` among its `w` low bits: `0` when the
lowest bit is set, one more than the count for `x / 2` in `w - 1` bits
otherwise (so `w` when none of the `w` low bits is set). -/
def trailingZeroBits : Nat → Nat → Nat
  | 0, _ => 0
  | w + 1, x => if x % 2 = 1 then 0 else 1 + trailingZeroBits w (x / 2)

/-- The payload of an address read as a big-endian unsigned integer. -/
def IPAddress.payload (a : IPAddress) : Nat := beValue a.addr

/-- The bit width of an address family: 32 for IPv4, 128 for IPv6. -/
def IPAddress.Family.width : IPAddress.Family → Nat
  | .IPv4 => 32
  | .IPv6 => 128

/-- The IPv4 address with the given four bytes, for the examples. -/
def exampleV4 (b0 b1 b2 b3 : Fin 256) : IPAddress :=
  ⟨.v4 ⟨⟨[b0.val, b1.val, b2.val, b3.val], rfl, by
    intro b hb
    simp only [List.mem_cons, List.mem_singleton, List.not_mem_nil, or_false] at hb
    rcases hb with rfl | rfl | rfl | rfl <;> exact Fin.is_lt _⟩⟩⟩

/-- The IPv6 loopback address `::1`, for the examples. -/
def exampleV6Loopback : IPAddress :=
  ⟨.v6 ⟨⟨[0, 0, 0, 0, 0, 0, 0, 0, 0, 0, 0, 0, 0, 0, 0, 1], rfl, by decide⟩, 0⟩⟩

/-- The `IPv6AddressImpl` object with the given eight 16-bit groups and scope 0,
for the examples. -/
def exampleV6Impl (g0 g1 g2 g3 g4 g5 g6 g7 : Fin 65536) : IPv6AddressImpl :=
  ⟨⟨[g0.val / 256, g0.val % 256, g1.val / 256, g1.val % 256, g2.val / 256, g2.val % 256,
      g3.val / 256, g3.val % 256, g4.val / 256, g4.val % 256, g5.val / 256, g5.val % 256,
      g6.val / 256, g6.val % 256, g7.val / 256, g7.val % 256], rfl, by
    intro b hb
    simp only [List.mem_cons, List.mem_singleton, List.not_mem_nil, or_false] at hb
    have h0 := g0.is_lt
    have h1 := g1.is_lt
    have h2 := g2.is_lt
    have h3 := g3.is_lt
    have h4 := g4.is_lt
    have h5 := g5.is_lt
    have h6 := g6.is_lt
    have h7 := g7.is_lt
    omega⟩, 0⟩

/-- The IPv6 address with the given eight 16-bit groups and scope 0, for the
examples. -/
def exampleV6 (g0 g1 g2 g3 g4 g5 g6 g7 : Fin 65536) : IPAddress :=
  ⟨.v6 (exampleV6Impl g0 g1 g2 g3 g4 g5 g6 g7)⟩

/-- The IPv6 address with the given eight 16-bit groups and the given scope, for
the examples. -/
def exampleV6Scoped (g0 g1 g2 g3 g4 g5 g6 g7 : Fin 65536) (scope : Nat) : IPAddress :=
  ⟨.v6 ⟨(exampleV6Impl g0 g1 g2 g3 g4 g5 g6 g7)._addr, scope⟩⟩

/-- The number of predicates that hold among those listed. -/
def countTrue (l : List Bool) : Nat := l.count true

/-- The eight 16-bit groups of an IPv6 address, in network order. -/
def in6_addr.groups (a : in6_addr) : List Nat :=
  (List.range 8).map a.words

/-- A 16-bit group in lower-case hexadecimal without leading zeros. -/
def hexGroup (w : Nat) : String := String.mk (Nat.toDigits 16 w)

/-- A 16-bit group in upper-case hexadecimal without leading zeros, as
`NumberFormatter::appendHex` writes it. -/
def hexGroupUpper (w : Nat) : String := String.mk ((Nat.toDigits 16 w).map Char.toUpper)

/-- The texts of the given groups, each written by `h`, separated by `:`. -/
def joinGroups (h : Nat → String) : List Nat → String
  | [] => ""
  | [w] => h w
  | w :: rest => h w ++ ":" ++ joinGroups h rest

/-- The number of zero groups at the head of a list of groups. -/
def leadingZeros (l : List Nat) : Nat := (l.takeWhile (· == 0)).length

/-- The first run of two or more consecutive zero groups of a list of groups,
if there is one: the index at which it starts and its length. -/
def firstZeroRun : List Nat → Option (Nat × Nat)
  | [] => none
  | w :: rest =>
    if 2 ≤ leadingZeros (w :: rest) then some (0, leadingZeros (w :: rest))
    else (firstZeroRun rest).map (fun r => (r.1 + 1, r.2))

/-- The groups written by `h` and separated by `:`, in which the first run of two
or more consecutive zero groups, if there is one, is replaced by `::`. -/
def compressFirstRun (h : Nat → String) (l : List Nat) : String :=
  match firstZeroRun l with
  | none => joinGroups h l
  | some (i, k) => joinGroups h (l.take i) ++ "::" ++ joinGroups h (l.drop (i + k))

/-- Four octets in dotted decimal. -/
def dottedQuad (b0 b1 b2 b3 : Nat) : String :=
  Nat.repr b0 ++ "." ++ Nat.repr b1 ++ "." ++ Nat.repr b2 ++ "." ++ Nat.repr b3

/-- The groups written by `h`, each preceded by `:`. -/
def colonGroups (h : Nat → String) : List Nat → String
  | [] => ""
  | w :: rest => ":" ++ h w ++ colonGroups h rest

/-- The text that the loop of `IPv6AddressImpl::toString()` appends for the
groups `l` that remain, as long as no run of zero groups has been replaced;
`first` tells whether `l` starts at the first group. -/
def renderGroups (h : Nat → String) : Bool → List Nat → String
  | _, [] => ""
  | first, w :: rest =>
    if 2 ≤ leadingZeros (w :: rest) then
      "::" ++ (match (w :: rest).drop (leadingZeros (w :: rest)) with
        | [] => ""
        | w1 :: rest1 => h w1 ++ colonGroups h rest1)
    else (if first then "" else ":") ++ h w ++ renderGroups h false rest

/-- An interface table without any interface, for the examples: the function
`if_indextoname` that finds no name. -/
def noInterfaceName : Nat → Option String := fun _ => none

/-! ## Octets and words: lemmas -/

theorem foldl_be (l : List Nat) (acc : Nat) :
    l.foldl (fun acc b => acc * 256 + b) acc = acc * 256 ^ l.length + beValue l := by
  induction l generalizing acc with
  | nil => simp [beValue]
  | cons b l ih =>
    have h1 := ih (acc * 256 + b)
    have h2 := ih (0 * 256 + b)
    simp only [beValue, List.foldl_cons, List.length_cons] at *
    rw [h1, h2]
    ring

theorem beValue_nil : beValue [] = 0 := rfl

theorem beValue_cons (b : Nat) (l : List Nat) :
    beValue (b :: l) = b * 256 ^ l.length + beValue l := by
  have h := foldl_be l (0 * 256 + b)
  simp only [beValue, List.foldl_cons] at *
  rw [h]
  ring

theorem beValue_append (l1 l2 : List Nat) :
    beValue (l1 ++ l2) = beValue l1 * 256 ^ l2.length + beValue l2 := by
  unfold beValue
  rw [List.foldl_append, foldl_be]
  rfl

theorem beValue_lt (l : List Nat) (h : ∀ b ∈ l, b < 256) : beValue l < 256 ^ l.length := by
  induction l with
  | nil => simp [beValue]
  | cons b l ih =>
    have hb : b < 256 := h b (List.mem_cons_self _ _)
    have hl := ih (fun x hx => h x (List.mem_cons_of_mem _ hx))
    rw [beValue_cons, List.length_cons, pow_succ]
    nlinarith

theorem length_beBytes (k w : Nat) : (beBytes k w).length = k :=
  (Octets.ofWord k w).size_eq

theorem beValue_beBytes (k w : Nat) : beValue (beBytes k w) = w % 256 ^ k := by
  induction k with
  | zero => simp [beBytes, beValue, Nat.mod_one]
  | succ k ih =>
    rw [beBytes, beValue_cons, ih, length_beBytes, Nat.mod_pow_succ]
    ring

theorem beBytes_mod_of_le (j k w : Nat) (h : j ≤ k) :
    beBytes j (w % 256 ^ k) = beBytes j w := by
  induction j with
  | zero => rfl
  | succ j ih =>
    rw [beBytes, beBytes, ih (by omega)]
    congr 1
    obtain ⟨d, rfl⟩ : ∃ d, k = j + (d + 1) := ⟨k - j - 1, by omega⟩
    rw [pow_add, Nat.mod_mul_right_div_self, Nat.mod_mod_of_dvd]
    exact Dvd.intro_left (256 ^ d) (by rw [pow_succ])

theorem beBytes_mod (k w : Nat) : beBytes k (w % 256 ^ k) = beBytes k w :=
  beBytes_mod_of_le k k w (le_refl k)

theorem beBytes_beValue (l : List Nat) (h : ∀ b ∈ l, b < 256) :
    beBytes l.length (beValue l) = l := by
  induction l with
  | nil => rfl
  | cons b l ih =>
    have hb : b < 256 := h b (List.mem_cons_self _ _)
    have hl : ∀ x ∈ l, x < 256 := fun x hx => h x (List.mem_cons_of_mem _ hx)
    have hv := beValue_lt l hl
    have hpos : 0 < 256 ^ l.length := by positivity
    rw [List.length_cons, beBytes, beValue_cons]
    congr 1
    · rw [Nat.add_comm, Nat.add_mul_div_right _ _ hpos, Nat.div_eq_of_lt hv, Nat.zero_add,
        Nat.mod_eq_of_lt hb]
    · rw [← beBytes_mod, Nat.add_comm, Nat.add_mul_mod_self_right, Nat.mod_eq_of_lt hv]
      exact ih hl

theorem Octets.beBytes_s (n : Nat) (a : Octets n) : beBytes n (beValue a.bytes) = a.bytes := by
  have h := beBytes_beValue a.bytes a.byte_lt
  rwa [a.size_eq] at h

theorem Octets.value_lt (n : Nat) (a : Octets n) : beValue a.bytes < 256 ^ n := by
  have h := Poco.Net.beValue_lt a.bytes a.byte_lt
  rwa [a.size_eq] at h

theorem Octets.ext_bytes {n : Nat} (a b : Octets n) (h : a.bytes = b.bytes) : a = b := by
  cases a
  cases b
  simp only [Octets.mk.injEq]
  exact h

/-! ## maskBits: lemmas -/

theorem maskBits_loop_zero (c : Nat) : maskBits.loop 0 c = c := by
  rw [maskBits.loop]
  simp

theorem maskBits_loop_ones (t c : Nat) : maskBits.loop (2 ^ t - 1) c = c + t := by
  induction t generalizing c with
  | zero => simpa using maskBits_loop_zero c
  | succ t ih =>
    have hpos : 0 < 2 ^ t := by positivity
    have hne : 2 ^ (t + 1) - 1 ≠ 0 := by rw [pow_succ]; omega
    have hhalf : (2 ^ (t + 1) - 1) >>> 1 = 2 ^ t - 1 := by
      rw [Nat.shiftRight_eq_div_pow, pow_succ]
      omega
    rw [maskBits.loop, if_pos hne, hhalf, ih]
    omega

theorem xor_pred_of_lowest_bit (t q : Nat) :
    (2 ^ t * (2 * q + 1)) ^^^ (2 ^ t * (2 * q + 1) - 1) = 2 ^ (t + 1) - 1 := by
  have hpos : 0 < 2 ^ t := by positivity
  have h1 : 2 ^ t * (2 * q + 1) = 2 ^ (t + 1) * q + 2 ^ t := by rw [pow_succ]; ring
  have h2 : 2 ^ t * (2 * q + 1) - 1 = 2 ^ (t + 1) * q + (2 ^ t - 1) := by
    rw [h1]; omega
  have hlt1 : 2 ^ t < 2 ^ (t + 1) := by rw [pow_succ]; omega
  have hlt2 : 2 ^ t - 1 < 2 ^ (t + 1) := by omega
  rw [h2, h1]
  apply Nat.eq_of_testBit_eq
  intro i
  rw [Nat.testBit_xor, Nat.testBit_mul_pow_two_add _ hlt1, Nat.testBit_mul_pow_two_add _ hlt2,
    Nat.testBit_two_pow_sub_one]
  by_cases hi : i < t + 1
  · simp only [hi, if_true, Nat.testBit_two_pow, Nat.testBit_two_pow_sub_one, decide_True]
    by_cases hit : t = i
    · subst hit; simp
    · have : i < t := by omega
      simp [hit, this]
  · simp [hi]

theorem maskBits_zero (size : Nat) : maskBits 0 size = 0 := by
  simp [maskBits]

theorem maskBits_of_lowest_bit (t q size : Nat) :
    maskBits (2 ^ t * (2 * q + 1)) size = size - t := by
  have hne : 2 ^ t * (2 * q + 1) ≠ 0 := by positivity
  have hhalf : (2 ^ (t + 1) - 1) >>> 1 = 2 ^ t - 1 := by
    have hpos : 0 < 2 ^ t := by positivity
    rw [Nat.shiftRight_eq_div_pow, pow_succ]
    omega
  simp only [maskBits, if_pos hne, xor_pred_of_lowest_bit, hhalf, maskBits_loop_ones]
  omega

theorem exists_lowest_bit (x : Nat) (h : x ≠ 0) : ∃ t q, x = 2 ^ t * (2 * q + 1) := by
  obtain ⟨k, m, hm, rfl⟩ := Nat.exists_eq_two_pow_mul_odd h
  obtain ⟨q, rfl⟩ := hm
  exact ⟨k, q, rfl⟩

theorem trailingZeroBits_zero (w : Nat) : trailingZeroBits w 0 = w := by
  induction w with
  | zero => rfl
  | succ w ih => simp [trailingZeroBits, ih]; omega

theorem trailingZeroBits_of_lowest_bit (w t q : Nat) (h : t < w) :
    trailingZeroBits w (2 ^ t * (2 * q + 1)) = t := by
  induction t generalizing w with
  | zero =>
    obtain ⟨w, rfl⟩ : ∃ v, w = v + 1 := ⟨w - 1, by omega⟩
    simp [trailingZeroBits]
    omega
  | succ t ih =>
    obtain ⟨w, rfl⟩ : ∃ v, w = v + 1 := ⟨w - 1, by omega⟩
    have h1 : 2 ^ (t + 1) * (2 * q + 1) = 2 * (2 ^ t * (2 * q + 1)) := by rw [pow_succ]; ring
    rw [h1, trailingZeroBits]
    have h2 : ¬ (2 * (2 ^ t * (2 * q + 1)) % 2 = 1) := by omega
    rw [if_neg h2, Nat.mul_div_cancel_left _ (by decide : 0 < 2), ih w (by omega)]
    omega

theorem lowest_bit_lt (t q w : Nat) (h : 2 ^ t * (2 * q + 1) < 2 ^ w) : t < w := by
  by_contra hc
  have h1 : 2 ^ w ≤ 2 ^ t := Nat.pow_le_pow_right (by decide) (by omega)
  have h2 : 2 ^ t ≤ 2 ^ t * (2 * q + 1) := Nat.le_mul_of_pos_right _ (by omega)
  omega


theorem maskBits_eq_trailing (v w : Nat) (h : v < 2 ^ w) :
    maskBits v w = if v = 0 then 0 else w - trailingZeroBits w v := by
  by_cases hv : v = 0
  · subst hv
    simp [maskBits_zero]
  · obtain ⟨t, q, rfl⟩ := exists_lowest_bit v hv
    rw [if_neg hv, maskBits_of_lowest_bit, trailingZeroBits_of_lowest_bit w t q (lowest_bit_lt t q w h)]

/-! ## prefixLength: lemmas -/

theorem in6_addr.s6_addr32_lt (a : in6_addr) (n : Nat) (h : n < 4) : a.s6_addr32 n < 2 ^ 32 := by
  have hlen : ((a.bytes.drop (4 * n)).take 4).length = 4 := by
    simp [a.size_eq]
    omega
  have hb : ∀ b ∈ (a.bytes.drop (4 * n)).take 4, b < 256 := fun b hb =>
    a.byte_lt b (List.mem_of_mem_drop (List.mem_of_mem_take hb))
  have := beValue_lt _ hb
  rw [hlen] at this
  exact this

theorem in6_addr.take_value_succ (a : in6_addr) (n : Nat) (h : n < 4) :
    beValue (a.bytes.take (4 * (n + 1)))
      = beValue (a.bytes.take (4 * n)) * 2 ^ 32 + a.s6_addr32 n := by
  have hlen : ((a.bytes.drop (4 * n)).take 4).length = 4 := by
    simp [a.size_eq]
    omega
  rw [show 4 * (n + 1) = 4 * n + 4 by ring, List.take_add, beValue_append, hlen]
  rfl

theorem IPv6AddressImpl.prefixLength_loop_spec (a : in6_addr) (n : Nat) (hn : n ≤ 4) (bitPos : Nat) :
    (beValue (a.bytes.take (4 * n)) = 0 → IPv6AddressImpl.prefixLength.loop a n bitPos = 0) ∧
    (∀ t q, beValue (a.bytes.take (4 * n)) = 2 ^ t * (2 * q + 1) →
      IPv6AddressImpl.prefixLength.loop a n bitPos = bitPos - t) := by
  induction n generalizing bitPos with
  | zero =>
    constructor
    · intro _
      rfl
    · intro t q h
      have hpos : 0 < 2 ^ t * (2 * q + 1) := by positivity
      have h0 : beValue (a.bytes.take (4 * 0)) = 0 := rfl
      omega
  | succ n ih =>
    have hlt := a.s6_addr32_lt n (by omega)
    have hrec := a.take_value_succ n (by omega)
    obtain ⟨ih0, ih1⟩ := ih (by omega) (bitPos - 32)
    rw [hrec]
    by_cases hw : a.s6_addr32 n = 0
    · have hstep : IPv6AddressImpl.prefixLength.loop a (n + 1) bitPos
          = IPv6AddressImpl.prefixLength.loop a n (bitPos - 32) := by
        simp [IPv6AddressImpl.prefixLength.loop, hw, maskBits_zero]
      rw [hstep, hw, Nat.add_zero]
      constructor
      · intro h
        apply ih0
        have : (2 : Nat) ^ 32 ≠ 0 := by positivity
        rcases Nat.mul_eq_zero.mp h with h | h
        · exact h
        · exact absurd h this
      · intro t q h
        have h32 : 32 ≤ t := by
          by_contra hc
          have h32 : (2 : Nat) ^ 32 = 2 ^ t * (2 * 2 ^ (31 - t)) := by
            rw [← pow_succ', ← pow_add]
            congr 1
            omega
          have hpos : 0 < (2 : Nat) ^ t := by positivity
          have hcancel : 2 * (beValue (a.bytes.take (4 * n)) * 2 ^ (31 - t)) = 2 * q + 1 := by
            apply Nat.eq_of_mul_eq_mul_left hpos
            rw [← h, h32]
            ring
          omega
        obtain ⟨d, rfl⟩ : ∃ d, t = d + 32 := ⟨t - 32, by omega⟩
        have hP : beValue (a.bytes.take (4 * n)) = 2 ^ d * (2 * q + 1) := by
          have hpos : 0 < (2 : Nat) ^ 32 := by positivity
          apply Nat.eq_of_mul_eq_mul_right hpos
          rw [h, pow_add]
          ring
        rw [ih1 d q hP]
        omega
    · obtain ⟨t, q, hq⟩ := exists_lowest_bit _ hw
      have ht : t < 32 := lowest_bit_lt t q 32 (hq ▸ hlt)
      have hstep : IPv6AddressImpl.prefixLength.loop a (n + 1) bitPos = bitPos - t := by
        have hm : maskBits (a.s6_addr32 n) 32 = 32 - t := by
          rw [hq, maskBits_of_lowest_bit]
        have hne : 32 - t ≠ 0 := by omega
        simp only [IPv6AddressImpl.prefixLength.loop, hm]
        rw [if_pos hne]
        omega
      rw [hstep]
      have hsum : beValue (a.bytes.take (4 * n)) * 2 ^ 32 + a.s6_addr32 n
          = 2 ^ t * (2 * (beValue (a.bytes.take (4 * n)) * 2 ^ (31 - t) + q) + 1) := by
        rw [hq]
        have : (2 : Nat) ^ 32 = 2 ^ t * (2 * 2 ^ (31 - t)) := by
          rw [← pow_succ', ← pow_add]
          congr 1
          omega
        rw [this]
        ring
      constructor
      · intro h
        rw [hsum] at h
        have hpos : 0 < 2 ^ t * (2 * (beValue (a.bytes.take (4 * n)) * 2 ^ (31 - t) + q) + 1) := by
          positivity
        omega
      · intro t2 q2 h
        rw [hsum] at h
        have : t = t2 := by
          have e1 := trailingZeroBits_of_lowest_bit (t + t2 + 1) t
            (beValue (a.bytes.take (4 * n)) * 2 ^ (31 - t) + q) (by omega)
          have e2 := trailingZeroBits_of_lowest_bit (t + t2 + 1) t2 q2 (by omega)
          rw [h] at e1
          omega
        rw [this]

theorem IPv4AddressImpl.prefixLength_eq_v4 (x : IPv4AddressImpl) :
    x.prefixLength = if beValue x._addr.bytes = 0 then 0
      else 32 - trailingZeroBits 32 (beValue x._addr.bytes) :=
  maskBits_eq_trailing _ 32 (Octets.value_lt 4 x._addr)

theorem IPv6AddressImpl.prefixLength_eq_v6 (x : IPv6AddressImpl) :
    x.prefixLength = if beValue x._addr.bytes = 0 then 0
      else 128 - trailingZeroBits 128 (beValue x._addr.bytes) := by
  have htake : x._addr.bytes.take (4 * 4) = x._addr.bytes :=
    List.take_of_length_le (by rw [x._addr.size_eq])
  obtain ⟨h0, h1⟩ := IPv6AddressImpl.prefixLength_loop_spec x._addr 4 (le_refl 4) 128
  rw [htake] at h0 h1
  unfold IPv6AddressImpl.prefixLength
  by_cases hv : beValue x._addr.bytes = 0
  · rw [if_pos hv, h0 hv]
  · obtain ⟨t, q, hq⟩ := exists_lowest_bit _ hv
    have hlt := Octets.value_lt 16 x._addr
    have ht : t < 128 := lowest_bit_lt t q 128 (by rw [← hq]; exact hlt)
    rw [if_neg hv, h1 t q hq, hq, trailingZeroBits_of_lowest_bit 128 t q ht]

theorem IPAddress.prefixLength_eq (a : IPAddress) :
    a.prefixLength = if a.payload = 0 then 0
      else a.family.width - trailingZeroBits a.family.width a.payload := by
  obtain ⟨impl⟩ := a
  cases impl with
  | v4 x => exact IPv4AddressImpl.prefixLength_eq_v4 x
  | v6 x => exact IPv6AddressImpl.prefixLength_eq_v6 x

/-! ## Word access to `in6_addr`: lemmas -/

theorem in6_addr.bytes_eq (a : in6_addr) :
    ∃ b0 b1 b2 b3 b4 b5 b6 b7 b8 b9 b10 b11 b12 b13 b14 b15 : Nat,
      a.bytes = [b0, b1, b2, b3, b4, b5, b6, b7, b8, b9, b10, b11, b12, b13, b14, b15] := by
  obtain ⟨l, hl, _⟩ := a
  simp only
  rcases l with _ | ⟨b0, _ | ⟨b1, _ | ⟨b2, _ | ⟨b3, _ | ⟨b4, _ | ⟨b5, _ | ⟨b6, _ | ⟨b7,
    _ | ⟨b8, _ | ⟨b9, _ | ⟨b10, _ | ⟨b11, _ | ⟨b12, _ | ⟨b13, _ | ⟨b14, _ | ⟨b15, _ | ⟨b16, l⟩⟩⟩⟩⟩⟩⟩⟩⟩⟩⟩⟩⟩⟩⟩⟩⟩ <;>
    simp at hl
  exact ⟨b0, b1, b2, b3, b4, b5, b6, b7, b8, b9, b10, b11, b12, b13, b14, b15, rfl⟩

theorem in6_addr.s6_addr32_set (a : in6_addr) (i j w : Nat) (hi : i < 4) (hj : j < 4) :
    (a.set_s6_addr32 i w).s6_addr32 j = if j = i then w % 2 ^ 32 else a.s6_addr32 j := by
  obtain ⟨b0, b1, b2, b3, b4, b5, b6, b7, b8, b9, b10, b11, b12, b13, b14, b15, hb⟩ := a.bytes_eq
  have hw : beValue [w / 16777216 % 256, w / 65536 % 256, w / 256 % 256, w % 256]
      = w % 4294967296 := by
    have h := beValue_beBytes 4 w
    simpa [beBytes] using h
  have hbe : beBytes 4 w
      = [w / 256 ^ 3 % 256, w / 256 ^ 2 % 256, w / 256 ^ 1 % 256, w / 256 ^ 0 % 256] := rfl
  interval_cases i <;> interval_cases j <;>
    simp [in6_addr.set_s6_addr32, in6_addr.s6_addr32, hb, hbe] <;> exact hw

theorem in6_addr.value_words (a : in6_addr) :
    beValue a.bytes
      = ((a.s6_addr32 0 * 2 ^ 32 + a.s6_addr32 1) * 2 ^ 32 + a.s6_addr32 2) * 2 ^ 32
        + a.s6_addr32 3 := by
  have htake : a.bytes.take (4 * (3 + 1)) = a.bytes :=
    List.take_of_length_le (by rw [a.size_eq])
  have h4 := a.take_value_succ 3 (by decide)
  have h3 := a.take_value_succ 2 (by decide)
  have h2 := a.take_value_succ 1 (by decide)
  have h1 := a.take_value_succ 0 (by decide)
  have h0 : beValue (a.bytes.take (4 * 0)) = 0 := rfl
  rw [htake] at h4
  rw [h4, h3, h2, h1, h0]
  ring

/-! ## Construction from a prefix length: lemmas -/

theorem not32_shift (r : Nat) (hr : r ≤ 32) :
    not32 (0xffffffff >>> r) = 2 ^ 32 - 2 ^ (32 - r) := by
  interval_cases r <;> rfl

theorem IPv4AddressImpl.ofPrefixLength_value_v4 (n : Nat) (hn : n ≤ 32) :
    beValue (IPv4AddressImpl.ofPrefixLength n)._addr.bytes = 2 ^ 32 - 2 ^ (32 - n) := by
  interval_cases n <;> rfl

theorem IPv6AddressImpl.fillOnes_add (a : in6_addr) (i p : Nat) :
    IPv6AddressImpl.fillOnes a i (p + 32)
      = IPv6AddressImpl.fillOnes (a.set_s6_addr32 i 0xffffffff) (i + 1) p := by
  rw [IPv6AddressImpl.fillOnes, if_pos (by omega), Nat.add_sub_cancel]

theorem IPv6AddressImpl.fillOnes_lt (a : in6_addr) (i p : Nat) (h : p < 32) :
    IPv6AddressImpl.fillOnes a i p = (a, i, p) := by
  rw [IPv6AddressImpl.fillOnes, if_neg (by omega)]

theorem IPv6AddressImpl.fillZeros_lt (a : in6_addr) (i : Nat) (h : i < 4) :
    IPv6AddressImpl.fillZeros a i = IPv6AddressImpl.fillZeros (a.set_s6_addr32 i 0) (i + 1) := by
  rw [IPv6AddressImpl.fillZeros, if_pos h]

theorem IPv6AddressImpl.fillZeros_ge (a : in6_addr) (i : Nat) (h : 4 ≤ i) :
    IPv6AddressImpl.fillZeros a i = a := by
  rw [IPv6AddressImpl.fillZeros, if_neg (by omega)]

theorem IPv6AddressImpl.ofPrefixLength_value_v6 (n : Nat) (hn : n ≤ 128) (u : in6_addr) :
    beValue (IPv6AddressImpl.ofPrefixLength n u)._addr.bytes = 2 ^ 128 - 2 ^ (128 - n) := by
  obtain ⟨k, r, rfl, hr⟩ : ∃ k r, n = 32 * k + r ∧ r < 32 :=
    ⟨n / 32, n % 32, by omega, Nat.mod_lt _ (by decide)⟩
  have hk : k ≤ 4 := by omega
  have hW := not32_shift r (by omega)
  have hX : 0 < 2 ^ (32 - r) := by positivity
  have hX2 : 2 ^ (32 - r) ≤ 2 ^ 32 := Nat.pow_le_pow_right (by decide) (by omega)
  rw [in6_addr.value_words]
  interval_cases k
  · have e : 32 * 0 + r = r := by omega
    have e2 : (2 : Nat) ^ (128 - (32 * 0 + r)) = 2 ^ 96 * 2 ^ (32 - r) := by
      rw [← pow_add]
      congr 1
      omega
    rw [e2, e]
    by_cases h0 : r = 0
    · subst h0
      simp [IPv6AddressImpl.ofPrefixLength, IPv6AddressImpl.fillOnes_add,
        IPv6AddressImpl.fillOnes_lt, IPv6AddressImpl.fillZeros_lt, IPv6AddressImpl.fillZeros_ge,
        in6_addr.s6_addr32_set]
    · have hpos : 0 < r := by omega
      simp [IPv6AddressImpl.ofPrefixLength, IPv6AddressImpl.fillOnes_add,
        IPv6AddressImpl.fillOnes_lt, IPv6AddressImpl.fillZeros_lt, IPv6AddressImpl.fillZeros_ge,
        in6_addr.s6_addr32_set, hr, hpos, hW]
      omega
  · have e : 32 * 1 + r = r + 32 := by omega
    have e2 : (2 : Nat) ^ (128 - (32 * 1 + r)) = 2 ^ 64 * 2 ^ (32 - r) := by
      rw [← pow_add]
      congr 1
      omega
    rw [e2, e]
    by_cases h0 : r = 0
    · subst h0
      simp [IPv6AddressImpl.ofPrefixLength, IPv6AddressImpl.fillOnes_add,
        IPv6AddressImpl.fillOnes_lt, IPv6AddressImpl.fillZeros_lt, IPv6AddressImpl.fillZeros_ge,
        in6_addr.s6_addr32_set]
    · have hpos : 0 < r := by omega
      simp [IPv6AddressImpl.ofPrefixLength, IPv6AddressImpl.fillOnes_add,
        IPv6AddressImpl.fillOnes_lt, IPv6AddressImpl.fillZeros_lt, IPv6AddressImpl.fillZeros_ge,
        in6_addr.s6_addr32_set, hr, hpos, hW]
      omega
  · have e : 32 * 2 + r = r + 32 + 32 := by omega
    have e2 : (2 : Nat) ^ (128 - (32 * 2 + r)) = 2 ^ 32 * 2 ^ (32 - r) := by
      rw [← pow_add]
      congr 1
      omega
    rw [e2, e]
    by_cases h0 : r = 0
    · subst h0
      simp [IPv6AddressImpl.ofPrefixLength, IPv6AddressImpl.fillOnes_add,
        IPv6AddressImpl.fillOnes_lt, IPv6AddressImpl.fillZeros_lt, IPv6AddressImpl.fillZeros_ge,
        in6_addr.s6_addr32_set]
    · have hpos : 0 < r := by omega
      simp [IPv6AddressImpl.ofPrefixLength, IPv6AddressImpl.fillOnes_add,
        IPv6AddressImpl.fillOnes_lt, IPv6AddressImpl.fillZeros_lt, IPv6AddressImpl.fillZeros_ge,
        in6_addr.s6_addr32_set, hr, hpos, hW]
      omega
  · have e : 32 * 3 + r = r + 32 + 32 + 32 := by omega
    have e2 : (2 : Nat) ^ (128 - (32 * 3 + r)) = 2 ^ 0 * 2 ^ (32 - r) := by
      rw [← pow_add]
      congr 1
      omega
    rw [e2, e]
    by_cases h0 : r = 0
    · subst h0
      simp [IPv6AddressImpl.ofPrefixLength, IPv6AddressImpl.fillOnes_add,
        IPv6AddressImpl.fillOnes_lt, IPv6AddressImpl.fillZeros_lt, IPv6AddressImpl.fillZeros_ge,
        in6_addr.s6_addr32_set]
    · have hpos : 0 < r := by omega
      simp [IPv6AddressImpl.ofPrefixLength, IPv6AddressImpl.fillOnes_add,
        IPv6AddressImpl.fillOnes_lt, IPv6AddressImpl.fillZeros_lt, IPv6AddressImpl.fillZeros_ge,
        in6_addr.s6_addr32_set, hr, hpos, hW]
      omega
  · have h0 : r = 0 := by omega
    subst h0
    have e : 32 * 4 + 0 = 0 + 32 + 32 + 32 + 32 := by omega
    rw [e]
    simp [IPv6AddressImpl.ofPrefixLength, IPv6AddressImpl.fillOnes_add,
        IPv6AddressImpl.fillOnes_lt, IPv6AddressImpl.fillZeros_lt, IPv6AddressImpl.fillZeros_ge,
        in6_addr.s6_addr32_set]

theorem IPv6AddressImpl.ofPrefixLength_scope (n : Nat) (u : in6_addr) :
    (IPv6AddressImpl.ofPrefixLength n u)._scope = 0 := rfl

theorem mask_value_eq (w n : Nat) (h0 : 0 < n) (hn : n ≤ w) :
    2 ^ w - 2 ^ (w - n) = 2 ^ (w - n) * (2 * (2 ^ (n - 1) - 1) + 1) := by
  have h1 : (2 : Nat) ^ w = 2 ^ (w - n) * (2 * 2 ^ (n - 1)) := by
    rw [← pow_succ', ← pow_add]
    congr 1
    omega
  have hpos : 0 < 2 ^ (n - 1) := by positivity
  have h2 : 2 * (2 ^ (n - 1) - 1) + 1 = 2 * 2 ^ (n - 1) - 1 := by omega
  rw [h2, Nat.mul_sub, ← h1, Nat.mul_one]

theorem prefix_of_mask_value (w n : Nat) (hn : n ≤ w) :
    (if 2 ^ w - 2 ^ (w - n) = 0 then 0
      else w - trailingZeroBits w (2 ^ w - 2 ^ (w - n))) = n := by
  by_cases h0 : n = 0
  · subst h0
    simp
  · have hv := mask_value_eq w n (by omega) hn
    have hne : 2 ^ w - 2 ^ (w - n) ≠ 0 := by
      rw [hv]
      positivity
    rw [if_neg hne, hv, trailingZeroBits_of_lowest_bit w (w - n) _ (by omega)]
    omega

theorem testBit_mask_value (w n i : Nat) (hn : n ≤ w) :
    (2 ^ w - 2 ^ (w - n)).testBit i = decide (w - n ≤ i ∧ i < w) := by
  have h1 : (2 : Nat) ^ w = 2 ^ (w - n) * 2 ^ n := by
    rw [← pow_add]
    congr 1
    omega
  have h2 : 2 ^ w - 2 ^ (w - n) = 2 ^ (w - n) * (2 ^ n - 1) := by
    rw [Nat.mul_sub, ← h1, Nat.mul_one]
  rw [h2, Nat.testBit_mul_pow_two, Nat.testBit_two_pow_sub_one]
  by_cases h : w - n ≤ i
  · have : (i - (w - n) < n) ↔ i < w := by omega
    simp [h, this]
  · simp [h]

/-! ## Masking an IPv4 address: lemmas -/

theorem and_div_mod (x y j : Nat) :
    (x &&& y) / 256 ^ j % 256 = (x / 256 ^ j % 256) &&& (y / 256 ^ j % 256) := by
  have h256 : (256 : Nat) ^ j = 2 ^ (8 * j) := by
    rw [show (256 : Nat) = 2 ^ 8 by norm_num, ← pow_mul]
  have h8 : (256 : Nat) = 2 ^ 8 := by norm_num
  rw [h256, h8]
  apply Nat.eq_of_testBit_eq
  intro i
  simp only [Nat.testBit_mod_two_pow, Nat.testBit_and, ← Nat.shiftRight_eq_div_pow,
    Nat.testBit_shiftRight]
  cases decide (i < 8) <;> simp

theorem beBytes_and (k x y : Nat) :
    beBytes k (x &&& y) = List.zipWith (· &&& ·) (beBytes k x) (beBytes k y) := by
  induction k with
  | zero => rfl
  | succ k ih => simp only [beBytes, List.zipWith_cons_cons, ih, and_div_mod]

theorem in_addr.s_addr_lt (a : in_addr) : a.s_addr < 2 ^ 32 :=
  Octets.value_lt 4 a

theorem in_addr.s_addr_ofWord (w : Nat) (h : w < 2 ^ 32) :
    in_addr.s_addr (Octets.ofWord 4 w) = w := by
  show beValue (beBytes 4 w) = w
  rw [beValue_beBytes]
  exact Nat.mod_eq_of_lt h

theorem not32_lt (x : Nat) (h : x < 2 ^ 32) : not32 x < 2 ^ 32 :=
  Nat.xor_lt_two_pow h (by decide)

theorem IPv4AddressImpl.mask_v4 (self m s : IPv4AddressImpl) :
    self.mask (.other (.v4 m)) (.other (.v4 s))
      = (⟨Octets.ofWord 4 ((self._addr.s_addr &&& m._addr.s_addr)
            ||| (s._addr.s_addr &&& not32 m._addr.s_addr))⟩, .ok ()) := by
  have h1 : self._addr.s_addr &&& m._addr.s_addr < 2 ^ 32 :=
    Nat.and_lt_two_pow _ m._addr.s_addr_lt
  simp [IPv4AddressImpl.mask, ObjRef.deref, IPAddressImpl.af, IPv4AddressImpl.af,
    in_addr.s_addr_ofWord _ h1]

theorem IPv4AddressImpl.mask_aliased_set (self m : IPv4AddressImpl) :
    self.mask (.other (.v4 m)) .self
      = (⟨Octets.ofWord 4 (self._addr.s_addr &&& m._addr.s_addr)⟩, .ok ()) := by
  have h1 : self._addr.s_addr &&& m._addr.s_addr < 2 ^ 32 :=
    Nat.and_lt_two_pow _ m._addr.s_addr_lt
  have h2 : (self._addr.s_addr &&& m._addr.s_addr)
      ||| (self._addr.s_addr &&& m._addr.s_addr &&& not32 m._addr.s_addr)
      = self._addr.s_addr &&& m._addr.s_addr := by
    apply Nat.eq_of_testBit_eq
    intro i
    simp only [Nat.testBit_or, Nat.testBit_and]
    cases self._addr.s_addr.testBit i <;> cases m._addr.s_addr.testBit i <;> simp
  simp [IPv4AddressImpl.mask, ObjRef.deref, IPAddressImpl.af, IPv4AddressImpl.af,
    in_addr.s_addr_ofWord _ h1, h2]

theorem IPv4AddressImpl.mask_aliased_mask (self : IPv4AddressImpl) :
    self.mask .self (.other (.v4 IPv4AddressImpl.new))
      = (⟨Octets.ofWord 4 (self._addr.s_addr &&& self._addr.s_addr)⟩, .ok ()) := by
  have h1 : self._addr.s_addr < 2 ^ 32 := self._addr.s_addr_lt
  have hz : in_addr.s_addr (IPv4AddressImpl.new)._addr = 0 := rfl
  simp [IPv4AddressImpl.mask, ObjRef.deref, IPAddressImpl.af, IPv4AddressImpl.af,
    in_addr.s_addr_ofWord _ h1, hz]

theorem IPv4AddressImpl.mask_value_lt (a m s : IPv4AddressImpl) :
    (a._addr.s_addr &&& m._addr.s_addr) ||| (s._addr.s_addr &&& not32 m._addr.s_addr)
      < 2 ^ 32 :=
  Nat.or_lt_two_pow (Nat.and_lt_two_pow _ m._addr.s_addr_lt)
    (Nat.and_lt_two_pow _ (not32_lt _ m._addr.s_addr_lt))

theorem testBit_eq_false_of_lt (x i : Nat) (h : x < 2 ^ 32) (hi : 32 ≤ i) :
    x.testBit i = false :=
  Nat.testBit_lt_two_pow (lt_of_lt_of_le h (Nat.pow_le_pow_right (by decide) hi))

theorem testBit_select (a m s i : Nat) (hm : m < 2 ^ 32) (hs : s < 2 ^ 32) :
    ((a &&& m) ||| (s &&& not32 m)).testBit i
      = if m.testBit i then a.testBit i else s.testBit i := by
  have h32 : (0xffffffff : Nat) = 2 ^ 32 - 1 := by norm_num
  simp only [not32, h32, Nat.testBit_or, Nat.testBit_and, Nat.testBit_xor,
    Nat.testBit_two_pow_sub_one]
  by_cases hi : i < 32
  · cases a.testBit i <;> cases m.testBit i <;> cases s.testBit i <;> simp [hi]
  · rw [testBit_eq_false_of_lt m i hm (by omega), testBit_eq_false_of_lt s i hs (by omega)]
    simp

/-- The call `a.mask(m, s)` on IPv4 addresses, `s` being another object than
`a`: it succeeds, after which `a` is an IPv4 address whose payload is
`(a0 AND m) OR (s AND (NOT m))`, `a0` being the payload before the call: each bit
where `m` is 1 comes from `a0`, each bit where `m` is 0 comes from `s`. -/
theorem IPAddress.mask_set_other (x m s : IPv4AddressImpl) :
    (IPAddress.mask_set ⟨.v4 x⟩ (.other ⟨.v4 m⟩) (.other ⟨.v4 s⟩)).2 = .ok () ∧
    (IPAddress.mask_set ⟨.v4 x⟩ (.other ⟨.v4 m⟩) (.other ⟨.v4 s⟩)).1.family = .IPv4 ∧
    (IPAddress.mask_set ⟨.v4 x⟩ (.other ⟨.v4 m⟩) (.other ⟨.v4 s⟩)).1.payload
      = ((IPAddress.payload ⟨.v4 x⟩ &&& IPAddress.payload ⟨.v4 m⟩)
          ||| (IPAddress.payload ⟨.v4 s⟩ &&& not32 (IPAddress.payload ⟨.v4 m⟩))) ∧
    ∀ i, (IPAddress.mask_set ⟨.v4 x⟩ (.other ⟨.v4 m⟩) (.other ⟨.v4 s⟩)).1.payload.testBit i
      = if (IPAddress.payload ⟨.v4 m⟩).testBit i then (IPAddress.payload ⟨.v4 x⟩).testBit i
        else (IPAddress.payload ⟨.v4 s⟩).testBit i := by
  have hmask : IPAddress.mask_set ⟨.v4 x⟩ (.other ⟨.v4 m⟩) (.other ⟨.v4 s⟩)
      = (⟨.v4 ⟨Octets.ofWord 4 ((x._addr.s_addr &&& m._addr.s_addr)
            ||| (s._addr.s_addr &&& not32 m._addr.s_addr))⟩⟩, .ok ()) := by
    simp [IPAddress.mask_set, IPAddressImpl.mask, IPAddressImpl.clone, IPv4AddressImpl.clone,
      IPv4AddressImpl.ofAddr, ObjRef.pImpl, IPv4AddressImpl.mask_v4]
  have hpay : IPAddress.payload ⟨.v4 ⟨Octets.ofWord 4 ((x._addr.s_addr &&& m._addr.s_addr)
            ||| (s._addr.s_addr &&& not32 m._addr.s_addr))⟩⟩
      = (x._addr.s_addr &&& m._addr.s_addr) ||| (s._addr.s_addr &&& not32 m._addr.s_addr) :=
    in_addr.s_addr_ofWord _ (IPv4AddressImpl.mask_value_lt x m s)
  rw [hmask]
  refine ⟨rfl, rfl, hpay, ?_⟩
  intro i
  rw [hpay]
  exact testBit_select _ _ _ i m._addr.s_addr_lt s._addr.s_addr_lt

/-- The call `a.mask(m, a)` on IPv4 addresses, the argument `set` being the
object `a` itself: it succeeds, after which the payload of `a` is `a0 AND m`,
`a0` being the payload before the call. -/
theorem IPAddress.mask_set_self (x m : IPv4AddressImpl) :
    (IPAddress.mask_set ⟨.v4 x⟩ (.other ⟨.v4 m⟩) .self).2 = .ok () ∧
    (IPAddress.mask_set ⟨.v4 x⟩ (.other ⟨.v4 m⟩) .self).1.family = .IPv4 ∧
    (IPAddress.mask_set ⟨.v4 x⟩ (.other ⟨.v4 m⟩) .self).1.payload
      = (IPAddress.payload ⟨.v4 x⟩ &&& IPAddress.payload ⟨.v4 m⟩) := by
  have hmask : IPAddress.mask_set ⟨.v4 x⟩ (.other ⟨.v4 m⟩) .self
      = (⟨.v4 ⟨Octets.ofWord 4 (x._addr.s_addr &&& m._addr.s_addr)⟩⟩, .ok ()) := by
    have h := IPv4AddressImpl.mask_aliased_set x m
    simp only [IPAddress.mask_set, IPAddressImpl.mask, IPAddressImpl.clone,
      IPv4AddressImpl.clone, IPv4AddressImpl.ofAddr, ObjRef.pImpl, h]
  rw [hmask]
  exact ⟨rfl, rfl, in_addr.s_addr_ofWord _ (Nat.and_lt_two_pow _ m._addr.s_addr_lt)⟩

/-! ## Comparison: lemmas -/

theorem IPAddress.addr_length (a : IPAddress) : a.addr.length = a.length := by
  obtain ⟨impl⟩ := a
  cases impl with
  | v4 x => exact x._addr.size_eq
  | v6 x => exact x._addr.size_eq

theorem memcmp_eq_zero_iff (l1 l2 : List Nat) (h : l1.length = l2.length) :
    memcmp l1 l2 l1.length = 0 ↔ l1 = l2 := by
  induction l1 generalizing l2 with
  | nil =>
    cases l2 with
    | nil => simp [memcmp]
    | cons b bs => simp at h
  | cons a as ih =>
    cases l2 with
    | nil => simp at h
    | cons b bs =>
      have hlen : as.length = bs.length := by simpa using h
      simp only [List.length_cons, memcmp, List.cons.injEq]
      by_cases hab : a = b
      · subst hab
        simp [ih bs hlen]
      · have : (a : Int) - (b : Int) ≠ 0 := by omega
        simp [hab, this]

theorem memcmp_neg (l1 l2 : List Nat) (n : Nat) : memcmp l2 l1 n = - memcmp l1 l2 n := by
  induction l1 generalizing l2 n with
  | nil =>
    cases l2 <;> cases n <;> simp [memcmp]
  | cons a as ih =>
    cases l2 with
    | nil => cases n <;> simp [memcmp]
    | cons b bs =>
      cases n with
      | zero => simp [memcmp]
      | succ n =>
        simp only [memcmp]
        by_cases hab : a = b
        · subst hab
          simp [ih bs n]
        · have hba : b ≠ a := fun h => hab h.symm
          simp [hab, hba]

theorem memcmp_lt_trans (x y z : List Nat) (n : Nat)
    (h1 : memcmp x y n < 0) (h2 : memcmp y z n < 0) : memcmp x z n < 0 := by
  induction x generalizing y z n with
  | nil => cases y <;> cases n <;> simp [memcmp] at h1
  | cons a as ih =>
    cases y with
    | nil => cases n <;> simp [memcmp] at h1
    | cons b bs =>
      cases z with
      | nil => cases n <;> simp [memcmp] at h2
      | cons c cs =>
        cases n with
        | zero => simp [memcmp] at h1
        | succ n =>
          simp only [memcmp] at h1 h2 ⊢
          by_cases hab : a = b
          · subst hab
            by_cases hac : a = c
            · subst hac
              simp only [ne_eq, not_true_eq_false, if_false] at h1 h2 ⊢
              exact ih bs cs n h1 h2
            · simp only [ne_eq, hac, not_false_eq_true, if_true] at h2 ⊢
              exact h2
          · simp only [ne_eq, hab, not_false_eq_true, if_true] at h1
            by_cases hbc : b = c
            · subst hbc
              simp only [ne_eq, hab, not_false_eq_true, if_true]
              exact h1
            · simp only [ne_eq, hbc, not_false_eq_true, if_true] at h2
              have hac : a ≠ c := by omega
              simp only [ne_eq, hac, not_false_eq_true, if_true]
              omega

theorem memcmp_lt_iff_lex (l1 l2 : List Nat) (h : l1.length = l2.length) :
    memcmp l1 l2 l1.length < 0 ↔ List.Lex (· < ·) l1 l2 := by
  induction l1 generalizing l2 with
  | nil =>
    cases l2 with
    | nil => simp [memcmp]
    | cons b bs => simp at h
  | cons a as ih =>
    cases l2 with
    | nil => simp at h
    | cons b bs =>
      have hlen : as.length = bs.length := by simpa using h
      simp only [List.length_cons, memcmp]
      by_cases hab : a = b
      · subst hab
        simp only [ne_eq, not_true_eq_false, if_false, ih bs hlen]
        constructor
        · intro hl
          exact List.Lex.cons hl
        · intro hl
          cases hl with
          | cons hl => exact hl
          | rel hr => exact absurd hr (lt_irrefl _)
      · simp only [ne_eq, hab, not_false_eq_true, if_true]
        constructor
        · intro hlt
          exact List.Lex.rel (by omega)
        · intro hl
          cases hl with
          | cons hl => exact absurd rfl hab
          | rel hr => omega

/-! ## Bitwise operators: lemmas -/

theorem IPAddress.ofAddr_in_addr (addr : in_addr) :
    IPAddress.ofAddr addr = .ok ⟨.v4 (IPv4AddressImpl.ofAddr addr)⟩ := by
  simp [IPAddress.ofAddr, Octets.cast]

theorem IPAddress.ofAddr_in6_addr (addr : in6_addr) :
    IPAddress.ofAddr addr = .ok ⟨.v6 (IPv6AddressImpl.ofAddr addr)⟩ := by
  simp [IPAddress.ofAddr, Octets.cast]

/-! ## The properties -/


/-- C1: for each family and each prefix length `n` within the family's bit
width (32 for IPv4, 128 for IPv6), the address built from the prefix length `n` is
constructed successfully and its `prefixLength()` is `n`. -/
theorem C1_prefix_round_trip (family : IPAddress.Family) (n : Nat) (uninit : in6_addr)
    (hn : n ≤ family.width) :
    ∃ a, IPAddress.ofPrefixLength n family uninit = .ok a ∧ a.prefixLength = n := by
  cases family with
  | IPv4 =>
    have hn32 : n ≤ 32 := hn
    refine ⟨⟨.v4 (IPv4AddressImpl.ofPrefixLength n)⟩, ?_, ?_⟩
    · simp [IPAddress.ofPrefixLength, hn32]
    · rw [IPAddress.prefixLength_eq]
      have hv : IPAddress.payload ⟨.v4 (IPv4AddressImpl.ofPrefixLength n)⟩ = 2 ^ 32 - 2 ^ (32 - n) :=
        IPv4AddressImpl.ofPrefixLength_value_v4 n hn32
      rw [hv]
      exact prefix_of_mask_value 32 n hn32
  | IPv6 =>
    have hn128 : n ≤ 128 := hn
    refine ⟨⟨.v6 (IPv6AddressImpl.ofPrefixLength n uninit)⟩, ?_, ?_⟩
    · simp [IPAddress.ofPrefixLength, hn128]
    · rw [IPAddress.prefixLength_eq]
      have hv : IPAddress.payload ⟨.v6 (IPv6AddressImpl.ofPrefixLength n uninit)⟩
          = 2 ^ 128 - 2 ^ (128 - n) :=
        IPv6AddressImpl.ofPrefixLength_value_v6 n hn128 uninit
      rw [hv]
      exact prefix_of_mask_value 128 n hn128

/-- Witness of C1: the IPv6 prefix length 64. -/
theorem C1_prefix_round_trip_witness :
    64 ≤ IPAddress.Family.IPv6.width ∧
    ∃ a, IPAddress.ofPrefixLength 64 .IPv6 (Octets.zero 16) = .ok a ∧ a.prefixLength = 64 :=
  ⟨by decide, C1_prefix_round_trip .IPv6 64 (Octets.zero 16) (by decide)⟩

/-- C2: for each family of bit width `w` and each `n`, constructing an address
from the prefix length `n` succeeds when `n ≤ w`, and the result has the requested
family, scope 0 and a payload which, read as a big-endian integer, is
`2^w - 2^(w-n)`: its bit `i` is set exactly for `w - n ≤ i < w`, the top `n` of
the `w` bits.  When `n > w` the construction fails with the exception for an
invalid prefix length (so it succeeds if and only if `n ≤ w`). -/
theorem C2_ofPrefixLength (family : IPAddress.Family) (n : Nat) (uninit : in6_addr) :
    (n ≤ family.width →
      ∃ a, IPAddress.ofPrefixLength n family uninit = .ok a ∧ a.family = family ∧
        a.scope = 0 ∧ a.payload = 2 ^ family.width - 2 ^ (family.width - n) ∧
        ∀ i, a.payload.testBit i = decide (family.width - n ≤ i ∧ i < family.width)) ∧
    (family.width < n →
      IPAddress.ofPrefixLength n family uninit
        = .error (.InvalidArgumentException invalidPrefixMsg)) := by
  cases family with
  | IPv4 =>
    constructor
    · intro hn
      have hn32 : n ≤ 32 := hn
      have hv : IPAddress.payload ⟨.v4 (IPv4AddressImpl.ofPrefixLength n)⟩ = 2 ^ 32 - 2 ^ (32 - n) :=
        IPv4AddressImpl.ofPrefixLength_value_v4 n hn32
      refine ⟨⟨.v4 (IPv4AddressImpl.ofPrefixLength n)⟩, ?_, rfl, rfl, hv, ?_⟩
      · simp [IPAddress.ofPrefixLength, hn32]
      · intro i
        rw [hv]
        exact testBit_mask_value 32 n i hn32
    · intro hn
      have hn32 : ¬ n ≤ 32 := by
        have : 32 < n := hn
        omega
      simp [IPAddress.ofPrefixLength, hn32]
  | IPv6 =>
    constructor
    · intro hn
      have hn128 : n ≤ 128 := hn
      have hv : IPAddress.payload ⟨.v6 (IPv6AddressImpl.ofPrefixLength n uninit)⟩
          = 2 ^ 128 - 2 ^ (128 - n) :=
        IPv6AddressImpl.ofPrefixLength_value_v6 n hn128 uninit
      refine ⟨⟨.v6 (IPv6AddressImpl.ofPrefixLength n uninit)⟩, ?_, rfl, rfl, hv, ?_⟩
      · simp [IPAddress.ofPrefixLength, hn128]
      · intro i
        rw [hv]
        exact testBit_mask_value 128 n i hn128
    · intro hn
      have hn128 : ¬ n ≤ 128 := by
        have : 128 < n := hn
        omega
      simp [IPAddress.ofPrefixLength, hn128]

/-- Witness of C2: the IPv4 prefix length 24 is accepted, the IPv4 prefix length
33 is rejected. -/
theorem C2_ofPrefixLength_witness :
    (24 ≤ IPAddress.Family.IPv4.width ∧
      ∃ a, IPAddress.ofPrefixLength 24 .IPv4 (Octets.zero 16) = .ok a ∧ a.family = .IPv4 ∧
        a.scope = 0 ∧
        a.payload = 2 ^ IPAddress.Family.IPv4.width - 2 ^ (IPAddress.Family.IPv4.width - 24) ∧
        ∀ i, a.payload.testBit i
          = decide (IPAddress.Family.IPv4.width - 24 ≤ i ∧ i < IPAddress.Family.IPv4.width)) ∧
    (IPAddress.Family.IPv4.width < 33 ∧
      IPAddress.ofPrefixLength 33 .IPv4 (Octets.zero 16)
        = .error (.InvalidArgumentException invalidPrefixMsg)) :=
  ⟨⟨by decide, (C2_ofPrefixLength .IPv4 24 (Octets.zero 16)).1 (by decide)⟩,
   ⟨by decide, (C2_ofPrefixLength .IPv4 33 (Octets.zero 16)).2 (by decide)⟩⟩

/-- C3: `prefixLength()` is a total function which, on every address of bit
width `w` (32 for IPv4, 128 for IPv6), contiguous mask or not, returns 0 when the
payload is all zero and otherwise `w` minus the number of trailing zero bits of
the payload read as a big-endian unsigned integer.  The IPv4 mask 255.255.0.1
yields 32. -/
theorem C3_prefixLength_lenient :
    (∀ a : IPAddress, a.prefixLength = if a.payload = 0 then 0
      else a.family.width - trailingZeroBits a.family.width a.payload) ∧
    (exampleV4 255 255 0 1).prefixLength = 32 := by
  refine ⟨IPAddress.prefixLength_eq, ?_⟩
  rw [IPAddress.prefixLength_eq]
  rfl

/-- C4: for all IPv4 addresses `a` and `m`, the call `a.mask(m)` succeeds, after
which `a` is still an IPv4 address of 4 bytes, each the bitwise AND of the
corresponding bytes of the original `a` and of `m`; so it is when `m` is the
object `a` itself, which the call leaves as it was. -/
theorem C4_mask_and (x m : IPv4AddressImpl) :
    ((IPAddress.mask ⟨.v4 x⟩ (.other ⟨.v4 m⟩)).2 = .ok () ∧
      (IPAddress.mask ⟨.v4 x⟩ (.other ⟨.v4 m⟩)).1.family = .IPv4 ∧
      (IPAddress.mask ⟨.v4 x⟩ (.other ⟨.v4 m⟩)).1.addr.length = 4 ∧
      (IPAddress.mask ⟨.v4 x⟩ (.other ⟨.v4 m⟩)).1.addr
        = List.zipWith (· &&& ·) (IPAddress.addr ⟨.v4 x⟩) (IPAddress.addr ⟨.v4 m⟩)) ∧
    ((IPAddress.mask ⟨.v4 x⟩ .self).2 = .ok () ∧
      (IPAddress.mask ⟨.v4 x⟩ .self).1.family = .IPv4 ∧
      (IPAddress.mask ⟨.v4 x⟩ .self).1.addr.length = 4 ∧
      (IPAddress.mask ⟨.v4 x⟩ .self).1.addr
        = List.zipWith (· &&& ·) (IPAddress.addr ⟨.v4 x⟩) (IPAddress.addr ⟨.v4 x⟩) ∧
      (IPAddress.mask ⟨.v4 x⟩ .self).1.addr = IPAddress.addr ⟨.v4 x⟩) := by
  have hz : in_addr.s_addr (IPv4AddressImpl.new)._addr = 0 := rfl
  have hmask : IPAddress.mask ⟨.v4 x⟩ (.other ⟨.v4 m⟩)
      = (⟨.v4 ⟨Octets.ofWord 4 (x._addr.s_addr &&& m._addr.s_addr)⟩⟩, .ok ()) := by
    simp [IPAddress.mask, IPAddressImpl.mask, IPAddressImpl.clone, IPv4AddressImpl.clone,
      IPv4AddressImpl.ofAddr, IPAddress.new, ObjRef.pImpl, IPv4AddressImpl.mask_v4, hz]
  have hself : IPAddress.mask ⟨.v4 x⟩ .self
      = (⟨.v4 ⟨Octets.ofWord 4 (x._addr.s_addr &&& x._addr.s_addr)⟩⟩, .ok ()) := by
    have h := IPv4AddressImpl.mask_aliased_mask x
    simp only [IPAddress.mask, IPAddressImpl.mask, IPAddressImpl.clone, IPv4AddressImpl.clone,
      IPv4AddressImpl.ofAddr, IPAddress.new, ObjRef.pImpl, h]
  have hand : ∀ y : IPv4AddressImpl,
      beBytes 4 (beValue x._addr.bytes &&& beValue y._addr.bytes)
        = List.zipWith (· &&& ·) x._addr.bytes y._addr.bytes := fun y => by
    rw [beBytes_and, Octets.beBytes_s, Octets.beBytes_s]
  rw [hmask, hself]
  refine ⟨⟨rfl, rfl, length_beBytes 4 _, hand m⟩, ⟨rfl, rfl, length_beBytes 4 _, hand x, ?_⟩⟩
  show beBytes 4 (beValue x._addr.bytes &&& beValue x._addr.bytes) = x._addr.bytes
  rw [Nat.and_self, Octets.beBytes_s]

/-- C5: for IPv4 addresses `a`, `m` and `s`, the call `a.mask(m, s)` leaves the
payload `(a0 AND m) OR (s AND (NOT m))` in `a` when `s` is another object than
`a`; in the call `a.mask(m, a)` it leaves `a0 AND m`.  The call `a.mask(m, a)`
with `a` = 10.1.2.3 and `m` = 255.255.0.0 leaves 10.1.0.0 in `a`, where
`(a0 AND m) OR (a0 AND (NOT m))` is 10.1.2.3. -/
theorem C5_mask_set_aliased :
    (∀ x m s : IPv4AddressImpl,
      (IPAddress.mask_set ⟨.v4 x⟩ (.other ⟨.v4 m⟩) (.other ⟨.v4 s⟩)).2 = .ok () ∧
      (IPAddress.mask_set ⟨.v4 x⟩ (.other ⟨.v4 m⟩) (.other ⟨.v4 s⟩)).1.payload
        = ((IPAddress.payload ⟨.v4 x⟩ &&& IPAddress.payload ⟨.v4 m⟩)
            ||| (IPAddress.payload ⟨.v4 s⟩ &&& not32 (IPAddress.payload ⟨.v4 m⟩)))) ∧
    (∀ x m : IPv4AddressImpl,
      (IPAddress.mask_set ⟨.v4 x⟩ (.other ⟨.v4 m⟩) .self).2 = .ok () ∧
      (IPAddress.mask_set ⟨.v4 x⟩ (.other ⟨.v4 m⟩) .self).1.payload
        = (IPAddress.payload ⟨.v4 x⟩ &&& IPAddress.payload ⟨.v4 m⟩)) ∧
    (IPAddress.mask_set (exampleV4 10 1 2 3) (.other (exampleV4 255 255 0 0)) .self).2
      = .ok () ∧
    (IPAddress.mask_set (exampleV4 10 1 2 3) (.other (exampleV4 255 255 0 0)) .self).1.addr
      = [10, 1, 0, 0] ∧
    ((exampleV4 10 1 2 3).payload &&& (exampleV4 255 255 0 0).payload)
        ||| ((exampleV4 10 1 2 3).payload &&& not32 (exampleV4 255 255 0 0).payload)
      = (exampleV4 10 1 2 3).payload ∧
    (IPAddress.mask_set (exampleV4 10 1 2 3) (.other (exampleV4 255 255 0 0)) .self).1.payload
      ≠ ((exampleV4 10 1 2 3).payload &&& (exampleV4 255 255 0 0).payload)
        ||| ((exampleV4 10 1 2 3).payload &&& not32 (exampleV4 255 255 0 0).payload) := by
  refine ⟨fun x m s => ?_, fun x m => ?_, rfl, by decide, by decide, by decide⟩
  · exact ⟨(IPAddress.mask_set_other x m s).1, (IPAddress.mask_set_other x m s).2.2.1⟩
  · exact ⟨(IPAddress.mask_set_self x m).1, (IPAddress.mask_set_self x m).2.2⟩

/-- C6: for all addresses `a` and `b`, each of `a & b`, `a | b` and `a ^ b`
either throws the exception for mismatched families, which happens when the
families of `a` and `b` differ, or returns a result, which happens when they
agree; so the operation fails if and only if the families differ. -/
theorem C6_family_mismatch (a b : IPAddress) :
    ((a.family ≠ b.family ∧ a.op_and b = .error (.InvalidArgumentException invalidFamilyMsg)) ∨
      (a.family = b.family ∧ ∃ r, a.op_and b = .ok r)) ∧
    ((a.family ≠ b.family ∧ a.op_or b = .error (.InvalidArgumentException invalidFamilyMsg)) ∨
      (a.family = b.family ∧ ∃ r, a.op_or b = .ok r)) ∧
    ((a.family ≠ b.family ∧ a.op_xor b = .error (.InvalidArgumentException invalidFamilyMsg)) ∨
      (a.family = b.family ∧ ∃ r, a.op_xor b = .ok r)) := by
  obtain ⟨ia⟩ := a
  obtain ⟨ib⟩ := b
  cases ia <;> cases ib <;>
    simp [IPAddress.op_and, IPAddress.op_or, IPAddress.op_xor, IPAddress.family,
      IPAddressImpl.family, IPv4AddressImpl.family, IPv6AddressImpl.family,
      IPAddress.ofAddr_in_addr, IPAddress.ofAddr_in6_addr]

/-- C7: for every IPv6 address `a` and all addresses `m` and `s`, `a` itself
among them, both `a.mask(m)` and `a.mask(m, s)` throw `NotImplementedException`,
and the bytes and the scope of `a` after the failed call are those before it. -/
theorem C7_mask_ipv6_unsupported (x : IPv6AddressImpl) (m s : ObjRef IPAddress) :
    ((IPAddress.mask ⟨.v6 x⟩ m).2
        = .error (.NotImplementedException "mask() is only supported for IPv4 addresses") ∧
      (IPAddress.mask ⟨.v6 x⟩ m).1.family = .IPv6 ∧
      (IPAddress.mask ⟨.v6 x⟩ m).1.addr = IPAddress.addr ⟨.v6 x⟩ ∧
      (IPAddress.mask ⟨.v6 x⟩ m).1.scope = IPAddress.scope ⟨.v6 x⟩) ∧
    ((IPAddress.mask_set ⟨.v6 x⟩ m s).2
        = .error (.NotImplementedException "mask() is only supported for IPv4 addresses") ∧
      (IPAddress.mask_set ⟨.v6 x⟩ m s).1.family = .IPv6 ∧
      (IPAddress.mask_set ⟨.v6 x⟩ m s).1.addr = IPAddress.addr ⟨.v6 x⟩ ∧
      (IPAddress.mask_set ⟨.v6 x⟩ m s).1.scope = IPAddress.scope ⟨.v6 x⟩) :=
  ⟨⟨rfl, rfl, rfl, rfl⟩, ⟨rfl, rfl, rfl, rfl⟩⟩

/-- C8: for all addresses `a` and `b`, `a == b` holds exactly when they have the
same byte length and identical bytes; `a != b` is the negation of `a == b`; the
scope id takes no part: two IPv6 addresses with the same 16 bytes compare equal
whatever their scope ids. -/
theorem C8_equality (a b : IPAddress) :
    a.op_eq b = decide (a.length = b.length ∧ a.addr = b.addr) ∧
    a.op_ne b = !a.op_eq b ∧
    ∀ (bytes : in6_addr) (s1 s2 : Nat),
      IPAddress.op_eq ⟨.v6 ⟨bytes, s1⟩⟩ ⟨.v6 ⟨bytes, s2⟩⟩ = true := by
  have key : ∀ a b : IPAddress,
      a.op_eq b = decide (a.length = b.length ∧ a.addr = b.addr) := by
    intro a b
    simp only [IPAddress.op_eq]
    by_cases hl : a.length = b.length
    · have h := memcmp_eq_zero_iff a.addr b.addr (by rw [a.addr_length, b.addr_length, hl])
      rw [a.addr_length] at h
      rw [if_pos hl]
      by_cases hab : a.addr = b.addr
      · rw [h.mpr hab]
        simp [hl, hab]
      · have hne : memcmp a.addr b.addr a.length ≠ 0 := fun hc => hab (h.mp hc)
        simp [hne, hab]
    · simp [hl]
  refine ⟨key a b, ?_, ?_⟩
  · unfold IPAddress.op_ne IPAddress.op_eq
    by_cases hl : a.length = b.length <;> simp [hl, bne]
  · intro bytes s1 s2
    rw [key]
    simp [IPAddress.length, IPAddress.addr, IPAddressImpl.length, IPAddressImpl.addr,
      IPv6AddressImpl.length, IPv6AddressImpl.addr]

/-- C9: for all addresses `a`, `b`, `c`, exactly one of `a < b`, `a == b`,
`a > b` holds, `a > b` holds exactly when `b < a` does, and `<` is transitive. -/
theorem C9_ordering_total (a b c : IPAddress) :
    ((a.op_lt b = true ∧ a.op_eq b = false ∧ a.op_gt b = false) ∨
      (a.op_lt b = false ∧ a.op_eq b = true ∧ a.op_gt b = false) ∨
      (a.op_lt b = false ∧ a.op_eq b = false ∧ a.op_gt b = true)) ∧
    a.op_gt b = b.op_lt a ∧
    (a.op_lt b = true → b.op_lt c = true → a.op_lt c = true) := by
  refine ⟨?_, ?_, ?_⟩
  · unfold IPAddress.op_lt IPAddress.op_eq IPAddress.op_gt
    by_cases hl : a.length = b.length
    · simp only [hl, if_true]
      rcases lt_trichotomy (memcmp a.addr b.addr b.length) 0 with h | h | h
      · left
        simp [h, h.ne, h.le]
      · right
        left
        simp [h]
      · right
        right
        simp [h, h.ne', h.le]
    · simp only [hl, if_false]
      rcases Nat.lt_or_gt_of_ne hl with h | h
      · left
        simp [h, h.le]
      · right
        right
        simp [h, h.le]
  · unfold IPAddress.op_lt IPAddress.op_gt
    by_cases hl : a.length = b.length
    · have hl2 : b.length = a.length := hl.symm
      simp only [hl, if_true]
      rw [memcmp_neg a.addr b.addr b.length]
      simp
    · have hl2 : ¬ b.length = a.length := fun h => hl h.symm
      simp [hl, hl2]
  · unfold IPAddress.op_lt
    generalize a.length = la
    generalize b.length = lb
    generalize c.length = lc
    intro h1 h2
    by_cases hab : la = lb
    · subst hab
      by_cases hbc : la = lc
      · subst hbc
        simp only [if_true, decide_eq_true_eq] at h1 h2 ⊢
        exact memcmp_lt_trans _ _ _ _ h1 h2
      · simp only [if_true, hbc, if_false, decide_eq_true_eq] at h1 h2 ⊢
        exact h2
    · simp only [hab, if_false, decide_eq_true_eq] at h1
      by_cases hbc : lb = lc
      · subst hbc
        simp only [hab, if_false, decide_eq_true_eq]
        exact h1
      · simp only [hbc, if_false, decide_eq_true_eq] at h2
        have hac : ¬ la = lc := by omega
        simp only [hac, if_false, decide_eq_true_eq]
        omega

/-- Witness of C9: 10.0.0.1 < 10.0.0.2 < ::1. -/
theorem C9_ordering_total_witness :
    (exampleV4 10 0 0 1).op_lt (exampleV4 10 0 0 2) = true ∧
    (exampleV4 10 0 0 2).op_lt exampleV6Loopback = true ∧
    (exampleV4 10 0 0 1).op_lt exampleV6Loopback = true :=
  ⟨by decide, by decide,
    (C9_ordering_total (exampleV4 10 0 0 1) (exampleV4 10 0 0 2) exampleV6Loopback).2.2
      (by decide) (by decide)⟩

/-- C10: for all addresses `a` and `b`, `a < b` holds exactly when `a` is shorter
than `b`, or they have the same length and the bytes of `a` precede those of `b`
in the lexicographic order of unsigned bytes, most significant byte first; every
IPv4 address is less than every IPv6 address. -/
theorem C10_less_than (a b : IPAddress) :
    (a.op_lt b = true ↔
      a.length < b.length ∨ (a.length = b.length ∧ List.Lex (· < ·) a.addr b.addr)) ∧
    ∀ (x : IPv4AddressImpl) (y : IPv6AddressImpl), IPAddress.op_lt ⟨.v4 x⟩ ⟨.v6 y⟩ = true := by
  constructor
  · unfold IPAddress.op_lt
    by_cases hl : a.length = b.length
    · have h := memcmp_lt_iff_lex a.addr b.addr (by rw [a.addr_length, b.addr_length, hl])
      rw [a.addr_length, hl] at h
      simp only [hl, if_true, decide_eq_true_eq, lt_irrefl, false_or, true_and]
      exact h
    · simp only [hl, if_false, decide_eq_true_eq, false_and, or_false]
  · intro x y
    rfl

/-- Witness of C10: 10.0.0.1 < 10.0.0.2, by the lexicographic order of the bytes. -/
theorem C10_less_than_witness :
    (exampleV4 10 0 0 1).op_lt (exampleV4 10 0 0 2) = true :=
  (C10_less_than (exampleV4 10 0 0 1) (exampleV4 10 0 0 2)).1.mpr
    (Or.inr ⟨rfl, List.Lex.cons (List.Lex.cons (List.Lex.cons (List.Lex.rel (by decide))))⟩)

/-! ## Classification: lemmas -/

theorem and_high_mask (N w k : Nat) (hN : N < 2 ^ w) (hk : k ≤ w) :
    N &&& (2 ^ w - 2 ^ k) = N / 2 ^ k * 2 ^ k := by
  apply Nat.eq_of_testBit_eq
  intro i
  have h1 : 2 ^ w - 2 ^ k = 2 ^ w - 2 ^ (w - (w - k)) := by
    congr 2
    omega
  rw [Nat.testBit_and, h1, testBit_mask_value w (w - k) i (by omega), Nat.mul_comm,
    Nat.testBit_mul_pow_two, ← Nat.shiftRight_eq_div_pow, Nat.testBit_shiftRight]
  by_cases hi : k ≤ i
  · have e : k + (i - k) = i := by omega
    by_cases hw : i < w
    · have : w - (w - k) ≤ i := by omega
      simp [hi, hw, this, e]
    · have hf : N.testBit i = false :=
        Nat.testBit_lt_two_pow (lt_of_lt_of_le hN (Nat.pow_le_pow_right (by decide) (by omega)))
      simp [hi, hw, e, hf]
  · have : ¬ (w - (w - k) ≤ i) := by omega
    simp [hi, this]

theorem in_addr.s_addr_bytes (a : in_addr) (b0 b1 b2 b3 : Nat) (h : a.bytes = [b0, b1, b2, b3]) :
    a.s_addr = b0 * 16777216 + b1 * 65536 + b2 * 256 + b3 ∧
      b0 < 256 ∧ b1 < 256 ∧ b2 < 256 ∧ b3 < 256 := by
  have hb := a.byte_lt
  rw [h] at hb
  refine ⟨?_, hb b0 (by simp), hb b1 (by simp), hb b2 (by simp), hb b3 (by simp)⟩
  simp only [in_addr.s_addr, h, beValue, List.foldl_cons, List.foldl_nil]
  ring

theorem in_addr.and_mask (a : in_addr) (k : Nat) (hk : k ≤ 32) :
    a.s_addr &&& (2 ^ 32 - 2 ^ k) = a.s_addr / 2 ^ k * 2 ^ k :=
  and_high_mask _ 32 k a.s_addr_lt hk

theorem in6_addr.words_lt (a : in6_addr) (i : Nat) : a.words i < 65536 := by
  have hb : ∀ b ∈ (a.bytes.drop (2 * i)).take 2, b < 256 := fun b hb =>
    a.byte_lt b (List.mem_of_mem_drop (List.mem_of_mem_take hb))
  have h1 := beValue_lt _ hb
  have h2 : ((a.bytes.drop (2 * i)).take 2).length ≤ 2 := by simp
  have h3 : 256 ^ ((a.bytes.drop (2 * i)).take 2).length ≤ 256 ^ 2 :=
    Nat.pow_le_pow_right (by decide) h2
  unfold in6_addr.words
  omega

theorem in6_addr.words_and_mask (a : in6_addr) (i k : Nat) (hk : k ≤ 16) :
    a.words i &&& (2 ^ 16 - 2 ^ k) = a.words i / 2 ^ k * 2 ^ k :=
  and_high_mask _ 16 k (a.words_lt i) hk

theorem IPv4AddressImpl.classifier_bytes (x : IPv4AddressImpl) (b0 b1 b2 b3 : Nat)
    (h : x._addr.bytes = [b0, b1, b2, b3]) :
    x.isLoopback = decide (b0 = 127) ∧
    x.isMulticast = decide (224 ≤ b0 ∧ b0 ≤ 239) ∧
    x.isLinkLocal = decide (b0 = 169 ∧ b1 = 254) ∧
    x.isSiteLocal = decide (b0 = 10 ∨ (b0 = 192 ∧ b1 = 168) ∨ (b0 = 172 ∧ 16 ≤ b1 ∧ b1 ≤ 31)) ∧
    x.isWildcard = decide (b0 = 0 ∧ b1 = 0 ∧ b2 = 0 ∧ b3 = 0) ∧
    x.isBroadcast = decide (b0 = 255 ∧ b1 = 255 ∧ b2 = 255 ∧ b3 = 255) ∧
    x.isWellKnownMC = decide (b0 = 224 ∧ b1 = 0 ∧ b2 = 0) ∧
    x.isLinkLocalMC = decide (b0 = 224) := by
  obtain ⟨hs, h0, h1, h2, h3⟩ := x._addr.s_addr_bytes b0 b1 b2 b3 h
  have m24 := x._addr.and_mask 24 (by decide)
  have m28 := x._addr.and_mask 28 (by decide)
  have m16 := x._addr.and_mask 16 (by decide)
  have m8 := x._addr.and_mask 8 (by decide)
  norm_num at m24 m28 m16 m8
  simp only [IPv4AddressImpl.isLoopback, IPv4AddressImpl.isMulticast, IPv4AddressImpl.isLinkLocal,
    IPv4AddressImpl.isSiteLocal, IPv4AddressImpl.isWildcard, IPv4AddressImpl.isBroadcast,
    IPv4AddressImpl.isWellKnownMC, IPv4AddressImpl.isLinkLocalMC, INADDR_ANY, INADDR_NONE,
    m24, m28, m16, m8]
  rw [hs]
  refine ⟨?_, ?_, ?_, ?_, ?_, ?_, ?_, ?_⟩ <;>
    simp only [beq_iff_eq, Bool.or_eq_true, Bool.and_eq_true, decide_eq_true_eq,
      Bool.decide_or, Bool.decide_and, ge_iff_le, ← Bool.decide_and, ← Bool.decide_or,
      decide_eq_decide, beq_eq_decide] <;>
    omega

theorem IPv6AddressImpl.classifier_words (x : IPv6AddressImpl) :
    x.isMulticast = decide (0xFF00 ≤ x._addr.words 0 ∧ x._addr.words 0 ≤ 0xFF1F) ∧
    x.isLinkLocal = decide (0xFE80 ≤ x._addr.words 0 ∧ x._addr.words 0 ≤ 0xFE9F) ∧
    x.isSiteLocal = decide ((0xFEC0 ≤ x._addr.words 0 ∧ x._addr.words 0 ≤ 0xFEDF) ∨
      (0xFC00 ≤ x._addr.words 0 ∧ x._addr.words 0 ≤ 0xFCFF)) := by
  have hlt := x._addr.words_lt 0
  have m5 := x._addr.words_and_mask 0 5 (by decide)
  have m8 := x._addr.words_and_mask 0 8 (by decide)
  norm_num at m5 m8
  simp only [IPv6AddressImpl.isMulticast, IPv6AddressImpl.isLinkLocal,
    IPv6AddressImpl.isSiteLocal, m5, m8]
  refine ⟨?_, ?_, ?_⟩ <;>
    simp only [beq_iff_eq, Bool.or_eq_true, Bool.and_eq_true, decide_eq_true_eq,
      Bool.decide_or, Bool.decide_and, ge_iff_le, ← Bool.decide_and, ← Bool.decide_or,
      decide_eq_decide, beq_eq_decide] <;>
    omega

/-- C15: for every IPv4 address with bytes `b0.b1.b2.b3`, loopback holds iff
`b0 = 127`; multicast iff `224 ≤ b0 ≤ 239`; link-local iff `b0 = 169` and
`b1 = 254`; site-local iff `b0 = 10`, or `b0 = 192` and `b1 = 168`, or `b0 = 172`
and `16 ≤ b1 ≤ 31`; wildcard iff all bytes are 0; broadcast iff all bytes are
255. -/
theorem C15_v4_classifier (x : IPv4AddressImpl) (b0 b1 b2 b3 : Nat)
    (h : IPAddress.addr ⟨.v4 x⟩ = [b0, b1, b2, b3]) :
    IPAddress.isLoopback ⟨.v4 x⟩ = decide (b0 = 127) ∧
    IPAddress.isMulticast ⟨.v4 x⟩ = decide (224 ≤ b0 ∧ b0 ≤ 239) ∧
    IPAddress.isLinkLocal ⟨.v4 x⟩ = decide (b0 = 169 ∧ b1 = 254) ∧
    IPAddress.isSiteLocal ⟨.v4 x⟩
      = decide (b0 = 10 ∨ (b0 = 192 ∧ b1 = 168) ∨ (b0 = 172 ∧ 16 ≤ b1 ∧ b1 ≤ 31)) ∧
    IPAddress.isWildcard ⟨.v4 x⟩ = decide (b0 = 0 ∧ b1 = 0 ∧ b2 = 0 ∧ b3 = 0) ∧
    IPAddress.isBroadcast ⟨.v4 x⟩ = decide (b0 = 255 ∧ b1 = 255 ∧ b2 = 255 ∧ b3 = 255) := by
  obtain ⟨h1, h2, h3, h4, h5, h6, _, _⟩ := x.classifier_bytes b0 b1 b2 b3 h
  exact ⟨h1, h2, h3, h4, h5, h6⟩

/-- Witness of C15: the address 172.16.0.1. -/
theorem C15_v4_classifier_witness :
    (exampleV4 172 16 0 1).addr = [172, 16, 0, 1] ∧
    (exampleV4 172 16 0 1).isLoopback = decide (172 = 127) ∧
    (exampleV4 172 16 0 1).isMulticast = decide (224 ≤ 172 ∧ 172 ≤ 239) ∧
    (exampleV4 172 16 0 1).isLinkLocal = decide (172 = 169 ∧ 16 = 254) ∧
    (exampleV4 172 16 0 1).isSiteLocal
      = decide (172 = 10 ∨ (172 = 192 ∧ 16 = 168) ∨ (172 = 172 ∧ 16 ≤ 16 ∧ 16 ≤ 31)) ∧
    (exampleV4 172 16 0 1).isWildcard = decide (172 = 0 ∧ 16 = 0 ∧ 0 = 0 ∧ 1 = 0) ∧
    (exampleV4 172 16 0 1).isBroadcast = decide (172 = 255 ∧ 16 = 255 ∧ 0 = 255 ∧ 1 = 255) :=
  ⟨rfl, C15_v4_classifier _ 172 16 0 1 rfl⟩

/-- C16: the code of `isLinkLocal()` on an IPv6 address compares the first
eleven bits of the address with `1111 1110 100`: it is true exactly when the first
16-bit group is in `0xFE80..0xFE9F`.  The address `fea0::1`, which lies in
`fe80::/10`, is not reported as link-local. -/
theorem C16_isLinkLocal_v6_code :
    (∀ x : IPv6AddressImpl, IPAddress.isLinkLocal ⟨.v6 x⟩
      = decide (0xFE80 ≤ x._addr.words 0 ∧ x._addr.words 0 ≤ 0xFE9F)) ∧
    (exampleV6 0xFEA0 0 0 0 0 0 0 1).isLinkLocal = false := by
  refine ⟨fun x => x.classifier_words.2.1, ?_⟩
  decide

/-- C17: the code of `isSiteLocal()` on an IPv6 address is true exactly when the
first 16-bit group is in `0xFEC0..0xFEDF` or in `0xFC00..0xFCFF`.  The unique-local
address `fd00::1`, which lies in `fc00::/7`, and the address `fee0::1`, which
lies in `fec0::/10`, are not reported as site-local. -/
theorem C17_isSiteLocal_v6_code :
    (∀ x : IPv6AddressImpl, IPAddress.isSiteLocal ⟨.v6 x⟩
      = decide ((0xFEC0 ≤ x._addr.words 0 ∧ x._addr.words 0 ≤ 0xFEDF) ∨
          (0xFC00 ≤ x._addr.words 0 ∧ x._addr.words 0 ≤ 0xFCFF))) ∧
    (exampleV6 0xFD00 0 0 0 0 0 0 1).isSiteLocal = false ∧
    (exampleV6 0xFEE0 0 0 0 0 0 0 1).isSiteLocal = false := by
  refine ⟨fun x => x.classifier_words.2.2, ?_, ?_⟩ <;> decide

/-- C18: for every IPv6 address, multicast is true iff the first 16-bit group, in
network order, lies in `0xFF00..0xFF1F`. -/
theorem C18_isMulticast_v6 (x : IPv6AddressImpl) :
    IPAddress.isMulticast ⟨.v6 x⟩
      = decide (0xFF00 ≤ x._addr.words 0 ∧ x._addr.words 0 ≤ 0xFF1F) :=
  x.classifier_words.1

theorem toDigitsCore_append (b : Nat) (hb : 2 ≤ b) (n : Nat) :
    ∀ (fuel : Nat) (ds : List Char), n < fuel →
      Nat.toDigitsCore b fuel n ds = Nat.toDigitsCore b (n + 1) n [] ++ ds := by
  induction n using Nat.strong_induction_on with
  | _ n ih =>
    intro fuel ds hf
    obtain ⟨f, rfl⟩ : ∃ f, fuel = f + 1 := ⟨fuel - 1, by omega⟩
    simp only [Nat.toDigitsCore]
    by_cases h0 : n / b = 0
    · simp [h0]
    · have hlt : n / b < n := Nat.div_lt_self (by
        rcases Nat.eq_zero_or_pos n with h | h
        · subst h
          simp at h0
        · exact h) (by omega)
      simp only [h0, if_false]
      rw [ih (n / b) hlt f _ (by omega), ih (n / b) hlt n [Nat.digitChar (n % b)] hlt]
      simp

theorem toDigits_eq (b : Nat) (hb : 2 ≤ b) (n : Nat) :
    Nat.toDigits b n
      = if n < b then [Nat.digitChar n] else Nat.toDigits b (n / b) ++ [Nat.digitChar (n % b)] := by
  unfold Nat.toDigits
  by_cases h : n < b
  · rw [if_pos h]
    simp [Nat.toDigitsCore, Nat.div_eq_of_lt h, Nat.mod_eq_of_lt h]
  · rw [if_neg h]
    have h0 : n / b ≠ 0 := by
      intro hc
      have := (Nat.div_eq_zero_iff (by omega : 0 < b)).mp hc
      omega
    have hlt : n / b < n := Nat.div_lt_self (by omega) (by omega)
    simp only [Nat.toDigitsCore, h0, if_false]
    exact toDigitsCore_append b hb (n / b) n _ hlt

theorem toDigits_ne_nil (b : Nat) (hb : 2 ≤ b) (n : Nat) : Nat.toDigits b n ≠ [] := by
  rw [toDigits_eq b hb]
  split <;> simp

theorem toDigits_length_le (b : Nat) (hb : 2 ≤ b) (n e : Nat) (h : n < b ^ e) (he : 0 < e) :
    (Nat.toDigits b n).length ≤ e :=
  Nat.toDigitsCore_length b hb (n + 1) n e h he

/-- Every character of the digits of a number below the base is a digit
character of a value below the base. -/
theorem mem_toDigits (b : Nat) (hb : 2 ≤ b) (n : Nat) :
    ∀ c ∈ Nat.toDigits b n, ∃ d, d < b ∧ c = Nat.digitChar d := by
  induction n using Nat.strong_induction_on with
  | _ n ih =>
    intro c hc
    rw [toDigits_eq b hb] at hc
    by_cases h : n < b
    · rw [if_pos h] at hc
      simp only [List.mem_singleton] at hc
      exact ⟨n, h, hc⟩
    · rw [if_neg h] at hc
      simp only [List.mem_append, List.mem_singleton] at hc
      rcases hc with hc | hc
      · exact ih (n / b) (Nat.div_lt_self (by omega) (by omega)) c hc
      · exact ⟨n % b, Nat.mod_lt _ (by omega), hc⟩

/-! ## toString: lemmas -/

theorem in6_addr.groups_drop (a : in6_addr) (i : Nat) (h : i < 8) :
    a.groups.drop i = a.words i :: a.groups.drop (i + 1) := by
  unfold in6_addr.groups
  interval_cases i <;> rfl

theorem in6_addr.groups_drop_eight (a : in6_addr) : a.groups.drop 8 = [] := rfl

theorem leadingZeros_cons (w : Nat) (rest : List Nat) :
    leadingZeros (w :: rest) = if w = 0 then leadingZeros rest + 1 else 0 := by
  unfold leadingZeros
  by_cases h : w = 0 <;> simp [List.takeWhile_cons, h]

theorem leadingZeros_le (l : List Nat) : leadingZeros l ≤ l.length := by
  induction l with
  | nil => simp [leadingZeros]
  | cons w rest ih =>
    rw [leadingZeros_cons]
    split <;> (simp only [List.length_cons]; omega)

theorem IPv6AddressImpl.skipZeros_eq (a : in6_addr) (n i : Nat) (hn : 8 - i = n) (hi : i ≤ 8) :
    IPv6AddressImpl.toString.skipZeros a.words i = i + leadingZeros (a.groups.drop i) := by
  induction n generalizing i with
  | zero =>
    have h8 : i = 8 := by omega
    subst h8
    rw [IPv6AddressImpl.toString.skipZeros]
    simp [in6_addr.groups_drop_eight, leadingZeros]
  | succ n ih =>
    have hlt : i < 8 := by omega
    rw [IPv6AddressImpl.toString.skipZeros, a.groups_drop i hlt, leadingZeros_cons]
    by_cases hw : a.words i = 0
    · rw [if_pos ⟨hlt, hw⟩, if_pos hw, ih (i + 1) (by omega) (by omega)]
      omega
    · rw [if_neg (fun hc => hw hc.2), if_neg hw]
      rfl

theorem NumberFormatter.appendHex_eq (str : String) (w : Nat) :
    NumberFormatter.appendHex str w = str ++ hexGroupUpper w := rfl

theorem IPv6AddressImpl.loop_after_run (a : in6_addr) (n i : Nat) (hn : 8 - i = n) (hi : i ≤ 8)
    (h0 : 0 < i) (r : String) :
    IPv6AddressImpl.toString.loop a.words i true r
      = r ++ colonGroups hexGroupUpper (a.groups.drop i) := by
  induction n generalizing i r with
  | zero =>
    have h8 : i = 8 := by omega
    subst h8
    rw [IPv6AddressImpl.toString.loop]
    simp [in6_addr.groups_drop_eight, colonGroups]
  | succ n ih =>
    have hlt : i < 8 := by omega
    rw [IPv6AddressImpl.toString.loop, if_pos hlt]
    simp only [IPv6AddressImpl.toString.zeroStep, Bool.not_true, Bool.false_eq_true, false_and,
      if_false, if_pos h0, if_pos hlt]
    rw [ih (i + 1) (by omega) (by omega) (by omega), a.groups_drop i hlt, colonGroups,
      NumberFormatter.appendHex_eq]
    simp only [String.append_assoc]

theorem IPv6AddressImpl.loop_eq (a : in6_addr) (n i : Nat) (hn : 8 - i = n) (hi : i ≤ 8)
    (r : String) :
    IPv6AddressImpl.toString.loop a.words i false r
      = r ++ renderGroups hexGroupUpper (i == 0) (a.groups.drop i) := by
  induction n generalizing i r with
  | zero =>
    have h8 : i = 8 := by omega
    subst h8
    rw [IPv6AddressImpl.toString.loop]
    simp [in6_addr.groups_drop_eight, renderGroups]
  | succ n ih =>
    have hlt : i < 8 := by omega
    have hskip := IPv6AddressImpl.skipZeros_eq a (8 - i) i rfl hi
    have hdrop := a.groups_drop i hlt
    have hlz := leadingZeros_cons (a.words i) (a.groups.drop (i + 1))
    rw [IPv6AddressImpl.toString.loop, if_pos hlt]
    by_cases hrun : 2 ≤ leadingZeros (a.groups.drop i)
    · -- a run of two or more zero groups starts at `i`
      have hw : a.words i = 0 := by
        by_contra hc
        rw [hdrop, hlz, if_neg hc] at hrun
        omega
      have hzi : IPv6AddressImpl.toString.skipZeros a.words i > i + 1 := by omega
      have hle : i + leadingZeros (a.groups.drop i) ≤ 8 := by
        have h1 := leadingZeros_le (a.groups.drop i)
        have h2 : (a.groups.drop i).length = 8 - i := by simp [in6_addr.groups]
        omega
      have hstep : IPv6AddressImpl.toString.zeroStep a.words i false r
          = (i + leadingZeros (a.groups.drop i), r ++ ":", true) := by
        have hzi2 : i + leadingZeros (a.groups.drop i) > i + 1 := by omega
        simp only [IPv6AddressImpl.toString.zeroStep, Bool.not_false, true_and, if_pos hw,
          hskip, if_pos hzi2]
      have hpos : i + leadingZeros (a.groups.drop i) > 0 := by omega
      simp only [hstep, if_pos hpos]
      have hd : (a.groups.drop i).drop (leadingZeros (a.groups.drop i))
          = a.groups.drop (i + leadingZeros (a.groups.drop i)) := by
        rw [List.drop_drop, Nat.add_comm]
      have hrender : renderGroups hexGroupUpper (i == 0) (a.groups.drop i)
          = "::" ++ (match a.groups.drop (i + leadingZeros (a.groups.drop i)) with
              | [] => ""
              | w1 :: rest1 => hexGroupUpper w1 ++ colonGroups hexGroupUpper rest1) := by
        rw [← hd]
        generalize hl : a.groups.drop i = l at hrun
        cases l with
        | nil => simp [leadingZeros] at hrun
        | cons w rest => rw [renderGroups, if_pos hrun]
      rw [hrender]
      by_cases h8 : i + leadingZeros (a.groups.drop i) < 8
      · rw [if_pos h8, IPv6AddressImpl.loop_after_run a _ _ rfl (by omega) (by omega),
          a.groups_drop _ h8, NumberFormatter.appendHex_eq]
        simp only [String.append_assoc]
        rfl
      · have e8 : i + leadingZeros (a.groups.drop i) = 8 := by omega
        rw [if_neg h8, e8, IPv6AddressImpl.toString.loop, if_neg (by omega),
          in6_addr.groups_drop_eight]
        simp only [String.append_assoc]
        rfl
    · -- no run of two or more zero groups starts at `i`
      have hstep : IPv6AddressImpl.toString.zeroStep a.words i false r = (i, r, false) := by
        simp only [IPv6AddressImpl.toString.zeroStep, Bool.not_false, true_and]
        by_cases hw : a.words i = 0
        · have : ¬ IPv6AddressImpl.toString.skipZeros a.words i > i + 1 := by omega
          rw [if_pos hw, if_neg this]
        · rw [if_neg hw]
      simp only [hstep, if_pos hlt]
      rw [ih (i + 1) (by omega) (by omega), hdrop, renderGroups, ← hdrop, if_neg hrun,
        NumberFormatter.appendHex_eq]
      by_cases h0 : i = 0
      · subst h0
        simp [String.append_assoc]
      · have hpos : i > 0 := by omega
        simp [hpos, h0, String.append_assoc]

theorem joinGroups_cons (h : Nat → String) (w : Nat) (rest : List Nat) :
    joinGroups h (w :: rest) = h w ++ colonGroups h rest := by
  induction rest generalizing w with
  | nil => simp [joinGroups, colonGroups]
  | cons w1 rest ih =>
    rw [joinGroups, ih w1, colonGroups]
    simp only [String.append_assoc]
    simp

theorem firstZeroRun_of_run (l : List Nat) (h : 2 ≤ leadingZeros l) :
    firstZeroRun l = some (0, leadingZeros l) := by
  cases l with
  | nil => simp [leadingZeros] at h
  | cons w rest => rw [firstZeroRun, if_pos h]

theorem firstZeroRun_cons_of_not_run (w : Nat) (rest : List Nat)
    (h : ¬ 2 ≤ leadingZeros (w :: rest)) :
    firstZeroRun (w :: rest) = (firstZeroRun rest).map (fun r => (r.1 + 1, r.2)) := by
  rw [firstZeroRun, if_neg h]

theorem firstZeroRun_pos_of_not_run (l : List Nat) (h : ¬ 2 ≤ leadingZeros l) (i k : Nat)
    (hr : firstZeroRun l = some (i, k)) : 0 < i := by
  cases l with
  | nil => simp [firstZeroRun] at hr
  | cons w rest =>
    rw [firstZeroRun_cons_of_not_run w rest h] at hr
    cases hrest : firstZeroRun rest with
    | none => simp [hrest] at hr
    | some p =>
      simp only [hrest, Option.map_some', Option.some.injEq, Prod.mk.injEq] at hr
      omega

theorem renderGroups_eq (h : Nat → String) (l : List Nat) (hl : l ≠ []) (first : Bool) :
    renderGroups h first l
      = (if first = true ∨ 2 ≤ leadingZeros l then "" else ":") ++ compressFirstRun h l := by
  induction l generalizing first with
  | nil => exact absurd rfl hl
  | cons w rest ih =>
    by_cases hrun : 2 ≤ leadingZeros (w :: rest)
    · rw [renderGroups, if_pos hrun, if_pos (Or.inr hrun), compressFirstRun,
        firstZeroRun_of_run _ hrun]
      simp only [List.take_zero, joinGroups, Nat.zero_add]
      cases hd : (w :: rest).drop (leadingZeros (w :: rest)) with
      | nil => simp [joinGroups]
      | cons w1 rest1 => simp [joinGroups_cons]
    · rw [renderGroups, if_neg hrun, compressFirstRun, firstZeroRun_cons_of_not_run w rest hrun]
      have hsep : (if first = true ∨ 2 ≤ leadingZeros (w :: rest) then "" else ":")
          = (if first = true then "" else ":") := by
        by_cases hf : first = true <;> simp [hf, hrun]
      rw [hsep]
      cases rest with
      | nil => simp [renderGroups, firstZeroRun, joinGroups]
      | cons w1 rest1 =>
        rw [ih (by simp) false]
        cases hr : firstZeroRun (w1 :: rest1) with
        | none =>
          have hno : ¬ 2 ≤ leadingZeros (w1 :: rest1) := by
            intro hc
            rw [firstZeroRun_of_run _ hc] at hr
            exact absurd hr (by simp)
          simp only [compressFirstRun, hr, Option.map_none', Bool.false_eq_true, false_or,
            if_neg hno, joinGroups_cons, colonGroups, String.append_assoc]
        | some p =>
          obtain ⟨i, k⟩ := p
          simp only [compressFirstRun, hr, Option.map_some', Bool.false_eq_true, false_or,
            List.take_succ_cons, Nat.add_right_comm i 1 k, List.drop_succ_cons]
          by_cases hrun1 : 2 ≤ leadingZeros (w1 :: rest1)
          · have hi : i = 0 := by
              rw [firstZeroRun_of_run _ hrun1] at hr
              simp only [Option.some.injEq, Prod.mk.injEq] at hr
              omega
            subst hi
            simp [hrun1, joinGroups, String.append_assoc]
          · have hi := firstZeroRun_pos_of_not_run _ hrun1 i k hr
            obtain ⟨j, rfl⟩ : ∃ j, i = j + 1 := ⟨i - 1, by omega⟩
            simp only [if_neg hrun1, List.take_succ_cons]
            rw [joinGroups_cons, joinGroups_cons, colonGroups]
            simp only [String.append_assoc]

theorem toLower_append (a b : String) : toLower (a ++ b) = toLower a ++ toLower b := by
  apply String.ext
  simp [toLower, String.data_append]

theorem toLower_hexGroupUpper (w : Nat) : toLower (hexGroupUpper w) = hexGroup w := by
  apply String.ext
  simp only [toLower, hexGroupUpper, hexGroup, List.map_map]
  conv_rhs => rw [← List.map_id (Nat.toDigits 16 w)]
  apply List.map_congr_left
  intro c hc
  obtain ⟨d, hd, rfl⟩ := mem_toDigits 16 (by decide) w c hc
  interval_cases d <;> rfl

theorem toLower_colonGroups (l : List Nat) :
    toLower (colonGroups hexGroupUpper l) = colonGroups hexGroup l := by
  induction l with
  | nil => rfl
  | cons w rest ih =>
    rw [colonGroups, colonGroups, toLower_append, toLower_append, ih, toLower_hexGroupUpper]
    rfl

theorem toLower_joinGroups (l : List Nat) :
    toLower (joinGroups hexGroupUpper l) = joinGroups hexGroup l := by
  cases l with
  | nil => rfl
  | cons w rest =>
    rw [joinGroups_cons, joinGroups_cons, toLower_append, toLower_colonGroups,
      toLower_hexGroupUpper]

theorem toLower_compressFirstRun (l : List Nat) :
    toLower (compressFirstRun hexGroupUpper l) = compressFirstRun hexGroup l := by
  unfold compressFirstRun
  cases firstZeroRun l with
  | none => exact toLower_joinGroups l
  | some p =>
    simp only [toLower_append, toLower_joinGroups]
    rfl

theorem in6_addr.groups_ne_nil (a : in6_addr) : a.groups ≠ [] := by
  simp [in6_addr.groups, List.range_succ]

/-- The text of an IPv6 address that is neither IPv4-compatible nor
IPv4-mapped. -/
theorem IPv6AddressImpl.toString_scoped (x : IPv6AddressImpl)
    (if_indextoname : Nat → Option String)
    (hc : x.isIPv4Compatible = false) (hm : x.isIPv4Mapped = false) :
    x.toString if_indextoname
      = toLower (compressFirstRun hexGroupUpper x._addr.groups
          ++ (if x._scope > 0 then
                "%" ++ (match if_indextoname x._scope with
                  | some buffer => buffer
                  | none => Nat.repr x._scope)
              else "")) := by
  have hloop := IPv6AddressImpl.loop_eq x._addr 8 0 rfl (by decide) ""
  simp only [List.drop_zero] at hloop
  rw [renderGroups_eq _ _ x._addr.groups_ne_nil] at hloop
  simp only [IPv6AddressImpl.toString, hc, hm, Bool.or_self, Bool.false_eq_true, if_false, hloop]
  congr 1
  by_cases hs : x._scope > 0
  · simp only [if_pos hs]
    cases if_indextoname x._scope with
    | none => simp [NumberFormatter.append, Nat.repr, List.asString, String.append_assoc]
    | some buffer => simp [String.append_assoc]
  · simp [if_neg hs]

/-- The text of an IPv6 address that is neither IPv4-compatible nor IPv4-mapped
and has no scope. -/
theorem IPv6AddressImpl.toString_general (x : IPv6AddressImpl)
    (if_indextoname : Nat → Option String) (hs : x._scope = 0)
    (hc : x.isIPv4Compatible = false) (hm : x.isIPv4Mapped = false) :
    x.toString if_indextoname = compressFirstRun hexGroup x._addr.groups := by
  have hloop := IPv6AddressImpl.loop_eq x._addr 8 0 rfl (by decide) ""
  simp only [List.drop_zero] at hloop
  rw [renderGroups_eq _ _ x._addr.groups_ne_nil] at hloop
  simp only [IPv6AddressImpl.toString, hc, hm, Bool.or_self, Bool.false_eq_true, if_false, hs,
    gt_iff_lt, lt_irrefl, hloop]
  rw [← toLower_compressFirstRun]
  congr 1

/-- The text of an IPv6 address that is IPv4-compatible or IPv4-mapped. -/
theorem IPv6AddressImpl.toString_embedded (x : IPv6AddressImpl)
    (if_indextoname : Nat → Option String)
    (h : x.isIPv4Compatible = true ∨ x.isIPv4Mapped = true) :
    x.toString if_indextoname
      = (if x._addr.words 5 = 0 then "::" else "::ffff:")
        ++ dottedQuad (x._addr.byte 12) (x._addr.byte 13) (x._addr.byte 14) (x._addr.byte 15) := by
  have hb : (x.isIPv4Compatible || x.isIPv4Mapped) = true := by
    rcases h with h | h <;> simp [h]
  simp only [IPv6AddressImpl.toString, hb, if_true, NumberFormatter.append, dottedQuad]
  by_cases h5 : x._addr.words 5 = 0 <;>
    simp only [h5, if_true, if_false, String.append_assoc] <;> rfl

/-! ## The first run of zero groups: lemmas -/

theorem leadingZeros_eq_zero (l : List Nat) (h : leadingZeros l = 0) : l.head? ≠ some 0 := by
  cases l with
  | nil => simp
  | cons w rest =>
    rw [leadingZeros_cons] at h
    by_cases hw : w = 0
    · rw [if_pos hw] at h
      omega
    · simpa using hw

theorem leadingZeros_drop_head (l : List Nat) : (l.drop (leadingZeros l)).head? ≠ some 0 := by
  induction l with
  | nil => simp [leadingZeros]
  | cons w rest ih =>
    rw [leadingZeros_cons]
    by_cases hw : w = 0
    · rw [if_pos hw, List.drop_succ_cons]
      exact ih
    · rw [if_neg hw]
      simpa using hw

theorem no_zero_pair_of_not_run (w : Nat) (rest : List Nat)
    (h : ¬ 2 ≤ leadingZeros (w :: rest)) : ¬ (w = 0 ∧ rest.head? = some 0) := by
  rintro ⟨hw, hr⟩
  rw [leadingZeros_cons, if_pos hw] at h
  have h0 : leadingZeros rest = 0 := by omega
  exact leadingZeros_eq_zero rest h0 hr

/-- When `firstZeroRun` finds no run, no two consecutive groups are zero. -/
theorem firstZeroRun_none (l : List Nat) (h : firstZeroRun l = none) (j : Nat) :
    ¬ (l[j]? = some 0 ∧ l[j + 1]? = some 0) := by
  induction l generalizing j with
  | nil => simp
  | cons w rest ih =>
    have hrun : ¬ 2 ≤ leadingZeros (w :: rest) := by
      intro hc
      rw [firstZeroRun_of_run _ hc] at h
      exact Option.noConfusion h
    rw [firstZeroRun_cons_of_not_run w rest hrun] at h
    have hrest : firstZeroRun rest = none := by
      cases hr : firstZeroRun rest with
      | none => rfl
      | some p => simp [hr] at h
    cases j with
    | zero =>
      have := no_zero_pair_of_not_run w rest hrun
      simpa [List.head?_eq_getElem?] using this
    | succ j =>
      simpa using ih hrest j

/-- The run that `firstZeroRun` finds is the first one, and it is not followed by
a zero group: no two consecutive groups are zero up to its first group, and
the group after it, if there is one, is not zero. -/
theorem firstZeroRun_first (l : List Nat) (i k : Nat) (h : firstZeroRun l = some (i, k)) :
    (∀ j, j < i → ¬ (l[j]? = some 0 ∧ l[j + 1]? = some 0)) ∧
      (l.drop (i + k)).head? ≠ some 0 := by
  induction l generalizing i with
  | nil => simp [firstZeroRun] at h
  | cons w rest ih =>
    by_cases hrun : 2 ≤ leadingZeros (w :: rest)
    · rw [firstZeroRun_of_run _ hrun] at h
      simp only [Option.some.injEq, Prod.mk.injEq] at h
      obtain ⟨rfl, rfl⟩ := h
      refine ⟨fun j hj => absurd hj (by omega), ?_⟩
      rw [Nat.zero_add]
      exact leadingZeros_drop_head _
    · rw [firstZeroRun_cons_of_not_run w rest hrun] at h
      cases hrest : firstZeroRun rest with
      | none => simp [hrest] at h
      | some p =>
        obtain ⟨i1, k1⟩ := p
        simp only [hrest, Option.map_some', Option.some.injEq, Prod.mk.injEq] at h
        obtain ⟨rfl, rfl⟩ := h
        obtain ⟨h1, h2⟩ := ih i1 hrest
        constructor
        · intro j hj
          cases j with
          | zero =>
            have := no_zero_pair_of_not_run w rest hrun
            simpa [List.head?_eq_getElem?] using this
          | succ j =>
            simpa using h1 j (by omega)
        · rw [Nat.add_right_comm, List.drop_succ_cons]
          exact h2

/-! ## The properties of the text form -/

/-- Counterexample to C11: the address with the groups 1,0,0,2,0,0,0,3, which
has scope 0 and is neither IPv4-mapped nor IPv4-compatible, is rendered
`1::2:0:0:0:3`, the first run of zero groups being replaced, and not
`1:0:0:2::3`, in which the longest run is. -/
theorem C11_longest_run_counterexample :
    (exampleV6 1 0 0 2 0 0 0 3).scope = 0 ∧
    (exampleV6 1 0 0 2 0 0 0 3).isIPv4Mapped = false ∧
    (exampleV6 1 0 0 2 0 0 0 3).isIPv4Compatible = false ∧
    (exampleV6 1 0 0 2 0 0 0 3).toString noInterfaceName = "1::2:0:0:0:3" ∧
    (exampleV6 1 0 0 2 0 0 0 3).toString noInterfaceName ≠ "1:0:0:2::3" := by
  have h : (exampleV6 1 0 0 2 0 0 0 3).toString noInterfaceName = "1::2:0:0:0:3" := by
    show (exampleV6Impl 1 0 0 2 0 0 0 3).toString noInterfaceName = _
    rw [IPv6AddressImpl.toString_general _ _ rfl (by decide) (by decide)]
    decide
  refine ⟨rfl, by decide, by decide, h, ?_⟩
  rw [h]
  decide

/-- C11, amended: for every IPv6 address with scope 0 that is neither
IPv4-mapped nor IPv4-compatible, `toString()` yields the eight 16-bit groups in
lower-case hexadecimal without leading zeros, separated by `:`, in which the first
(leftmost) run of two or more consecutive all-zero groups is replaced by `::`,
and no other group is removed. -/
theorem C11_toString_first_run (x : IPv6AddressImpl) (if_indextoname : Nat → Option String)
    (hs : IPAddress.scope ⟨.v6 x⟩ = 0)
    (hm : IPAddress.isIPv4Mapped ⟨.v6 x⟩ = false)
    (hc : IPAddress.isIPv4Compatible ⟨.v6 x⟩ = false) :
    IPAddress.toString ⟨.v6 x⟩ if_indextoname = compressFirstRun hexGroup x._addr.groups :=
  IPv6AddressImpl.toString_general x if_indextoname hs hc hm

/-- Witness of C11, amended: the address with the groups 1,0,0,0,2,0,0,3. -/
theorem C11_toString_first_run_witness :
    (exampleV6 1 0 0 0 2 0 0 3).scope = 0 ∧
    (exampleV6 1 0 0 0 2 0 0 3).isIPv4Mapped = false ∧
    (exampleV6 1 0 0 0 2 0 0 3).isIPv4Compatible = false ∧
    (exampleV6 1 0 0 0 2 0 0 3).toString noInterfaceName
      = compressFirstRun hexGroup [1, 0, 0, 0, 2, 0, 0, 3] :=
  ⟨rfl, by decide, by decide,
    C11_toString_first_run (exampleV6Impl 1 0 0 0 2 0 0 3) noInterfaceName rfl
      (by decide) (by decide)⟩

/-- C12: for every IPv6 address whose first 80 bits are zero and whose next 16
bits are `0x0000` or `0xFFFF`, `toString()` yields `::` followed by the last four
bytes in dotted decimal when those 16 bits are zero, and `::ffff:` followed by
the last four bytes in dotted decimal when they are `0xFFFF`; the loopback
address `::1` is rendered `::0.0.0.1` and the wildcard address `::0.0.0.0`. -/
theorem C12_toString_embedded_ipv4 :
    (∀ (x : IPv6AddressImpl) (if_indextoname : Nat → Option String),
      x._addr.words 0 = 0 → x._addr.words 1 = 0 → x._addr.words 2 = 0 →
      x._addr.words 3 = 0 → x._addr.words 4 = 0 →
      (x._addr.words 5 = 0 →
        IPAddress.toString ⟨.v6 x⟩ if_indextoname
          = "::" ++ dottedQuad (x._addr.byte 12) (x._addr.byte 13) (x._addr.byte 14)
              (x._addr.byte 15)) ∧
      (x._addr.words 5 = 0xFFFF →
        IPAddress.toString ⟨.v6 x⟩ if_indextoname
          = "::ffff:" ++ dottedQuad (x._addr.byte 12) (x._addr.byte 13) (x._addr.byte 14)
              (x._addr.byte 15))) ∧
    exampleV6Loopback.toString noInterfaceName = "::0.0.0.1" ∧
    (exampleV6 0 0 0 0 0 0 0 0).toString noInterfaceName = "::0.0.0.0" := by
  refine ⟨?_, by decide, by decide⟩
  intro x r h0 h1 h2 h3 h4
  constructor
  · intro h5
    have hc : x.isIPv4Compatible = true := by
      simp [IPv6AddressImpl.isIPv4Compatible, h0, h1, h2, h3, h4, h5]
    have := IPv6AddressImpl.toString_embedded x r (Or.inl hc)
    rw [if_pos h5] at this
    exact this
  · intro h5
    have hm : x.isIPv4Mapped = true := by
      simp [IPv6AddressImpl.isIPv4Mapped, h0, h1, h2, h3, h4, h5]
    have := IPv6AddressImpl.toString_embedded x r (Or.inr hm)
    rw [if_neg (by omega)] at this
    exact this

/-- Witness of C12: the IPv4-compatible address `::1.2.3.4` and the IPv4-mapped
address `::ffff:1.2.3.4`. -/
theorem C12_toString_embedded_ipv4_witness :
    (exampleV6 0 0 0 0 0 0 0x0102 0x0304).toString noInterfaceName
      = "::" ++ dottedQuad 1 2 3 4 ∧
    (exampleV6 0 0 0 0 0 0xFFFF 0x0102 0x0304).toString noInterfaceName
      = "::ffff:" ++ dottedQuad 1 2 3 4 :=
  ⟨(C12_toString_embedded_ipv4.1 (exampleV6Impl 0 0 0 0 0 0 0x0102 0x0304) noInterfaceName
      rfl rfl rfl rfl rfl).1 rfl,
   (C12_toString_embedded_ipv4.1 (exampleV6Impl 0 0 0 0 0 0xFFFF 0x0102 0x0304) noInterfaceName
      rfl rfl rfl rfl rfl).2 rfl⟩

/-! ## Parsing: lemmas -/

theorem digitValue_digitChar (d : Nat) (h : d < 16) : digitValue (Nat.digitChar d) = some d := by
  interval_cases d <;> rfl

theorem digitChar_ne_sep (d : Nat) (h : d < 16) :
    Nat.digitChar d ≠ ':' ∧ Nat.digitChar d ≠ '.' ∧ Nat.digitChar d ≠ '%' := by
  interval_cases d <;> decide

theorem not_mem_toDigits (b : Nat) (hb : 2 ≤ b) (hb16 : b ≤ 16) (n : Nat) :
    ':' ∉ Nat.toDigits b n ∧ '.' ∉ Nat.toDigits b n ∧ '%' ∉ Nat.toDigits b n := by
  refine ⟨?_, ?_, ?_⟩
  · intro hc
    obtain ⟨d, hd, he⟩ := mem_toDigits b hb n _ hc
    exact (digitChar_ne_sep d (by omega)).1 he.symm
  · intro hc
    obtain ⟨d, hd, he⟩ := mem_toDigits b hb n _ hc
    exact (digitChar_ne_sep d (by omega)).2.1 he.symm
  · intro hc
    obtain ⟨d, hd, he⟩ := mem_toDigits b hb n _ hc
    exact (digitChar_ne_sep d (by omega)).2.2 he.symm

theorem parseDigits_append (b acc : Nat) (xs ys : List Char) :
    parseDigits b acc (xs ++ ys) = (parseDigits b acc xs).bind (fun a => parseDigits b a ys) := by
  induction xs generalizing acc with
  | nil => rfl
  | cons c cs ih =>
    simp only [List.cons_append, parseDigits]
    cases digitValue c with
    | none => rfl
    | some d =>
      by_cases hd : d < b
      · simp only [hd, if_true]
        exact ih _
      · simp only [hd, if_false]
        rfl

theorem parseDigits_toDigits (b : Nat) (hb : 2 ≤ b) (hb16 : b ≤ 16) (n : Nat) :
    parseDigits b 0 (Nat.toDigits b n) = some n := by
  induction n using Nat.strong_induction_on with
  | _ n ih =>
    rw [toDigits_eq b hb]
    by_cases h : n < b
    · rw [if_pos h]
      simp [parseDigits, digitValue_digitChar n (by omega), h]
    · rw [if_neg h, parseDigits_append, ih (n / b) (Nat.div_lt_self (by omega) (by omega))]
      have hm : n % b < b := Nat.mod_lt _ (by omega)
      simp only [Option.some_bind, parseDigits, digitValue_digitChar (n % b) (by omega), hm,
        if_true]
      rw [Nat.div_add_mod']

theorem parseGroup_hex (w : Nat) (h : w < 65536) : parseGroup (Nat.toDigits 16 w) = some w := by
  have h1 := toDigits_ne_nil 16 (by decide) w
  have h2 := toDigits_length_le 16 (by decide) w 4 (by simpa using h) (by decide)
  rw [parseGroup, if_pos ⟨h1, h2⟩]
  exact parseDigits_toDigits 16 (by decide) (by decide) w

theorem parseOctet_dec (v : Nat) (h : v < 256) : parseOctet (Nat.toDigits 10 v) = some v := by
  have h1 := toDigits_ne_nil 10 (by decide) v
  have h2 := toDigits_length_le 10 (by decide) v 3 (by omega) (by decide)
  rw [parseOctet, if_pos ⟨h1, h2⟩, parseDigits_toDigits 10 (by decide) (by decide) v]
  simp only [Option.some_bind]
  rw [if_pos (by omega)]

theorem splitOn_ne_nil (sep : Char) (cs : List Char) : splitOn sep cs ≠ [] := by
  induction cs with
  | nil => simp [splitOn]
  | cons c cs ih =>
    rw [splitOn]
    split
    · simp
    · split <;> simp

theorem splitOn_of_not_mem (sep : Char) (p : List Char) (h : sep ∉ p) : splitOn sep p = [p] := by
  induction p with
  | nil => rfl
  | cons c cs ih =>
    simp only [List.mem_cons, not_or] at h
    rw [splitOn, if_neg (fun hc => h.1 hc.symm), ih h.2]

theorem splitOn_append (sep : Char) (p rest : List Char) (h : sep ∉ p) :
    splitOn sep (p ++ sep :: rest) = p :: splitOn sep rest := by
  induction p with
  | nil => simp [splitOn]
  | cons c cs ih =>
    simp only [List.mem_cons, not_or] at h
    rw [List.cons_append, splitOn, if_neg (fun hc => h.1 hc.symm), ih h.2]

theorem colonGroups_data (w : Nat) (rest : List Nat) :
    (colonGroups hexGroup (w :: rest)).data
      = ':' :: (Nat.toDigits 16 w ++ (colonGroups hexGroup rest).data) := by
  simp [colonGroups, hexGroup, String.data_append]

theorem joinGroups_data (w : Nat) (rest : List Nat) :
    (joinGroups hexGroup (w :: rest)).data
      = Nat.toDigits 16 w ++ (colonGroups hexGroup rest).data := by
  rw [joinGroups_cons]
  simp [hexGroup, String.data_append]

theorem joinGroups_data_ne_nil (w : Nat) (rest : List Nat) :
    (joinGroups hexGroup (w :: rest)).data ≠ [] := by
  rw [joinGroups_data]
  have := toDigits_ne_nil 16 (by decide) w
  simp [this]

theorem splitOn_groups (w : Nat) (rest : List Nat) :
    splitOn ':' (Nat.toDigits 16 w ++ (colonGroups hexGroup rest).data)
      = (w :: rest).map (Nat.toDigits 16) := by
  have hno := fun v => (not_mem_toDigits 16 (by decide) (by decide) v).1
  induction rest generalizing w with
  | nil => simpa [colonGroups] using splitOn_of_not_mem ':' _ (hno w)
  | cons w1 r ih =>
    rw [colonGroups_data, splitOn_append _ _ _ (hno w), ih w1]
    rfl

theorem parseEach_groups (l : List Nat) (h : ∀ w ∈ l, w < 65536) :
    parseEach parseGroup (l.map (Nat.toDigits 16)) = some l := by
  induction l with
  | nil => rfl
  | cons w rest ih =>
    simp only [List.map_cons, parseEach, parseGroup_hex w (h w (List.mem_cons_self _ _)),
      ih (fun v hv => h v (List.mem_cons_of_mem _ hv))]

theorem parseTail_groups (l : List Nat) (h : ∀ w ∈ l, w < 65536) :
    parseTail (l.map (Nat.toDigits 16)) = some l := by
  induction l with
  | nil => rfl
  | cons w rest ih =>
    have hw := parseGroup_hex w (h w (List.mem_cons_self _ _))
    have hrest := ih (fun v hv => h v (List.mem_cons_of_mem _ hv))
    cases rest with
    | nil =>
      have hdot := (not_mem_toDigits 16 (by decide) (by decide) w).2.1
      simp only [List.map_cons, List.map_nil, parseTail, if_neg hdot, hw, Option.map_some']
    | cons w1 r =>
      simp only [List.map_cons] at hrest ⊢
      simp only [parseTail, hw, hrest]

theorem splitDoubleColon_append (cs rest : List Char) (h : ':' ∉ cs) :
    splitDoubleColon (cs ++ rest)
      = (splitDoubleColon rest).map (fun lr => (cs ++ lr.1, lr.2)) := by
  induction cs with
  | nil =>
    simp only [List.nil_append]
    cases splitDoubleColon rest <;> rfl
  | cons c cs ih =>
    simp only [List.mem_cons, not_or] at h
    have hc : ¬ c = ':' := fun hc => h.1 hc.symm
    cases hcr : cs ++ rest with
    | nil =>
      have h1 : cs = [] := (List.append_eq_nil.mp hcr).1
      have h2 : rest = [] := (List.append_eq_nil.mp hcr).2
      subst h1 h2
      rfl
    | cons d tl =>
      rw [List.cons_append, hcr, splitDoubleColon, if_neg (fun hx => hc hx.1), ← hcr, ih h.2]
      cases splitDoubleColon rest <;> rfl

theorem splitDoubleColon_colon (d : Char) (tl : List Char) (h : d ≠ ':') :
    splitDoubleColon (':' :: d :: tl)
      = (splitDoubleColon (d :: tl)).map (fun lr => (':' :: lr.1, lr.2)) := by
  rw [splitDoubleColon, if_neg (fun hx => h hx.2)]

theorem toDigits_head (w : Nat) :
    ∃ d tl, Nat.toDigits 16 w = d :: tl ∧ d ≠ ':' := by
  have hne := toDigits_ne_nil 16 (by decide) w
  have hno := (not_mem_toDigits 16 (by decide) (by decide) w).1
  cases hd : Nat.toDigits 16 w with
  | nil => exact absurd hd hne
  | cons d tl =>
    refine ⟨d, tl, rfl, ?_⟩
    intro hc
    rw [hd, hc] at hno
    exact hno (List.mem_cons_self _ _)

theorem splitDoubleColon_groups (w : Nat) (rest : List Nat) :
    splitDoubleColon (Nat.toDigits 16 w ++ (colonGroups hexGroup rest).data) = none := by
  have hno := fun v => (not_mem_toDigits 16 (by decide) (by decide) v).1
  induction rest generalizing w with
  | nil =>
    rw [splitDoubleColon_append _ _ (hno w)]
    rfl
  | cons w1 r ih =>
    obtain ⟨d, tl, hd, hne⟩ := toDigits_head w1
    rw [splitDoubleColon_append _ _ (hno w), colonGroups_data]
    have h1 := ih w1
    rw [hd] at h1 ⊢
    rw [List.cons_append, splitDoubleColon_colon d _ hne, ← List.cons_append, h1]
    rfl

theorem splitDoubleColon_groups_gap (w : Nat) (rest : List Nat) (right : List Char) :
    splitDoubleColon (Nat.toDigits 16 w ++ (colonGroups hexGroup rest).data ++ ':' :: ':' :: right)
      = some (Nat.toDigits 16 w ++ (colonGroups hexGroup rest).data, right) := by
  have hno := fun v => (not_mem_toDigits 16 (by decide) (by decide) v).1
  induction rest generalizing w with
  | nil =>
    simp only [colonGroups, List.append_nil]
    rw [splitDoubleColon_append _ _ (hno w)]
    simp [splitDoubleColon]
  | cons w1 r ih =>
    obtain ⟨d, tl, hd, hne⟩ := toDigits_head w1
    have h1 := ih w1
    rw [colonGroups_data, List.append_assoc, splitDoubleColon_append _ _ (hno w)]
    rw [hd] at h1 ⊢
    simp only [List.cons_append, List.append_assoc] at h1 ⊢
    rw [splitDoubleColon_colon d _ hne, h1]
    rfl

theorem leadingZeros_split (l : List Nat) :
    l = List.replicate (leadingZeros l) 0 ++ l.drop (leadingZeros l) := by
  induction l with
  | nil => rfl
  | cons w rest ih =>
    rw [leadingZeros_cons]
    by_cases hw : w = 0
    · subst hw
      rw [if_pos rfl, List.replicate_succ, List.drop_succ_cons, List.cons_append, ← ih]
    · rw [if_neg hw]
      rfl

theorem firstZeroRun_spec (l : List Nat) (i k : Nat) (h : firstZeroRun l = some (i, k)) :
    2 ≤ k ∧ l = l.take i ++ (List.replicate k 0 ++ l.drop (i + k)) := by
  induction l generalizing i with
  | nil => simp [firstZeroRun] at h
  | cons w rest ih =>
    by_cases hrun : 2 ≤ leadingZeros (w :: rest)
    · rw [firstZeroRun_of_run _ hrun] at h
      simp only [Option.some.injEq, Prod.mk.injEq] at h
      obtain ⟨rfl, rfl⟩ := h
      refine ⟨hrun, ?_⟩
      simpa using leadingZeros_split (w :: rest)
    · rw [firstZeroRun_cons_of_not_run w rest hrun] at h
      cases hrest : firstZeroRun rest with
      | none => simp [hrest] at h
      | some p =>
        obtain ⟨j, k1⟩ := p
        simp only [hrest, Option.map_some', Option.some.injEq, Prod.mk.injEq] at h
        obtain ⟨rfl, rfl⟩ := h
        obtain ⟨h2, hsplit⟩ := ih j hrest
        refine ⟨h2, ?_⟩
        rw [List.take_succ_cons, Nat.add_right_comm, List.drop_succ_cons, List.cons_append,
          ← hsplit]

theorem parse_left_groups (pre : List Nat) (h : ∀ w ∈ pre, w < 65536) :
    (if (joinGroups hexGroup pre).data = [] then some []
      else parseEach parseGroup (splitOn ':' (joinGroups hexGroup pre).data)) = some pre := by
  cases pre with
  | nil => rfl
  | cons w rest =>
    rw [if_neg (joinGroups_data_ne_nil w rest), joinGroups_data, splitOn_groups]
    exact parseEach_groups _ h

theorem parse_right_groups (post : List Nat) (h : ∀ w ∈ post, w < 65536) :
    (if (joinGroups hexGroup post).data = [] then some []
      else parseTail (splitOn ':' (joinGroups hexGroup post).data)) = some post := by
  cases post with
  | nil => rfl
  | cons w rest =>
    rw [if_neg (joinGroups_data_ne_nil w rest), joinGroups_data, splitOn_groups]
    exact parseTail_groups _ h

theorem splitDoubleColon_join_gap (pre : List Nat) (right : List Char) :
    splitDoubleColon ((joinGroups hexGroup pre).data ++ ':' :: ':' :: right)
      = some ((joinGroups hexGroup pre).data, right) := by
  cases pre with
  | nil => simp [joinGroups, splitDoubleColon]
  | cons w rest =>
    rw [joinGroups_data]
    exact splitDoubleColon_groups_gap w rest right

/-- The model of `inet_pton` reads the text of eight groups with the first run
of zero groups replaced back into the eight groups. -/
theorem parseGroups_compressFirstRun (g : List Nat) (hlen : g.length = 8)
    (hlt : ∀ w ∈ g, w < 65536) :
    parseGroups (compressFirstRun hexGroup g).data = some g := by
  unfold compressFirstRun
  cases hr : firstZeroRun g with
  | none =>
    simp only
    cases g with
    | nil => simp at hlen
    | cons w rest =>
      rw [parseGroups, joinGroups_data, splitDoubleColon_groups, splitOn_groups,
        parseTail_groups _ hlt]
      simp [hlen]
  | some p =>
    obtain ⟨i, k⟩ := p
    obtain ⟨hk, hsplit⟩ := firstZeroRun_spec g i k hr
    have hpre : ∀ w ∈ g.take i, w < 65536 := fun w hw => hlt w (List.mem_of_mem_take hw)
    have hpost : ∀ w ∈ g.drop (i + k), w < 65536 := fun w hw => hlt w (List.mem_of_mem_drop hw)
    have hl : (g.take i).length + k + (g.drop (i + k)).length = 8 := by
      have := congrArg List.length hsplit
      simp only [List.length_append, List.length_replicate] at this
      omega
    have hdata : (joinGroups hexGroup (g.take i) ++ "::" ++ joinGroups hexGroup (g.drop (i + k))).data
        = (joinGroups hexGroup (g.take i)).data
          ++ ':' :: ':' :: (joinGroups hexGroup (g.drop (i + k))).data := by
      simp [String.data_append]
    simp only
    rw [hdata, parseGroups, splitDoubleColon_join_gap]
    simp only [parse_left_groups _ hpre, parse_right_groups _ hpost]
    have hle : (g.take i).length + (g.drop (i + k)).length ≤ 7 := by omega
    have hk8 : 8 - ((g.take i).length + (g.drop (i + k)).length) = k := by omega
    rw [if_pos hle, hk8, List.append_assoc, ← hsplit]

theorem dottedQuad_data (a b c d : Nat) :
    (dottedQuad a b c d).data
      = Nat.toDigits 10 a ++ '.' :: (Nat.toDigits 10 b ++ '.' :: (Nat.toDigits 10 c
          ++ '.' :: Nat.toDigits 10 d)) := by
  simp [dottedQuad, Nat.repr, List.asString, String.data_append]

theorem splitOn_dottedQuad (pre : List Char) (hpre : '.' ∉ pre) (a b c d : Nat) :
    splitOn '.' (pre ++ (dottedQuad a b c d).data)
      = [pre ++ Nat.toDigits 10 a, Nat.toDigits 10 b, Nat.toDigits 10 c, Nat.toDigits 10 d] := by
  have hno := fun v => (not_mem_toDigits 10 (by decide) (by decide) v).2.1
  have h1 : '.' ∉ pre ++ Nat.toDigits 10 a := by
    simp only [List.mem_append, not_or]
    exact ⟨hpre, hno a⟩
  rw [dottedQuad_data, ← List.append_assoc, splitOn_append _ _ _ h1, splitOn_append _ _ _ (hno b),
    splitOn_append _ _ _ (hno c), splitOn_of_not_mem _ _ (hno d)]

theorem parseDottedQuad_dottedQuad (a b c d : Nat) (ha : a < 256) (hb : b < 256) (hc : c < 256)
    (hd : d < 256) : parseDottedQuad (dottedQuad a b c d).data = some [a, b, c, d] := by
  have h := splitOn_dottedQuad [] (by simp) a b c d
  simp only [List.nil_append] at h
  simp only [parseDottedQuad, h, parseEach, parseOctet_dec a ha, parseOctet_dec b hb,
    parseOctet_dec c hc, parseOctet_dec d hd]

theorem parseDottedQuad_of_colon (pre : List Char) (hpre : '.' ∉ pre) (tl : List Char)
    (a b c d : Nat) (hp : pre = ':' :: tl) :
    parseDottedQuad (pre ++ (dottedQuad a b c d).data) = none := by
  have h := splitOn_dottedQuad pre hpre a b c d
  have h1 : parseOctet (pre ++ Nat.toDigits 10 a) = none := by
    subst hp
    unfold parseOctet
    split
    · simp [parseDigits, digitValue]
    · rfl
  simp only [parseDottedQuad, h, parseEach, h1]

theorem parseDottedQuad_of_no_dot (cs : List Char) (h : '.' ∉ cs) : parseDottedQuad cs = none := by
  simp only [parseDottedQuad, splitOn_of_not_mem _ _ h, parseEach]
  cases parseOctet cs <;> rfl

theorem dottedQuad_no_sep (a b c d : Nat) :
    ':' ∉ (dottedQuad a b c d).data ∧ '%' ∉ (dottedQuad a b c d).data
      ∧ '.' ∈ (dottedQuad a b c d).data ∧ (dottedQuad a b c d).data ≠ [] := by
  have hno := fun v => not_mem_toDigits 10 (by decide) (by decide) v
  rw [dottedQuad_data]
  refine ⟨?_, ?_, ?_, ?_⟩
  · simp [(hno a).1, (hno b).1, (hno c).1, (hno d).1]
  · simp [(hno a).2.2, (hno b).2.2, (hno c).2.2, (hno d).2.2]
  · simp
  · simp

theorem find_of_not_mem (s : List Char) (c : Char) (h : c ∉ s) : find s c = none := by
  induction s with
  | nil => rfl
  | cons x xs ih =>
    simp only [List.mem_cons, not_or] at h
    rw [find, if_neg (fun hc => h.1 hc.symm), ih h.2]
    rfl

theorem not_mem_colonGroups (c : Char) (hc : c ≠ ':') (hd : ∀ w, c ∉ Nat.toDigits 16 w)
    (l : List Nat) : c ∉ (colonGroups hexGroup l).data := by
  induction l with
  | nil => simp [colonGroups]
  | cons w rest ih =>
    rw [colonGroups_data]
    simp only [List.mem_cons, List.mem_append, not_or]
    exact ⟨hc, hd w, ih⟩

theorem not_mem_joinGroups (c : Char) (hc : c ≠ ':') (hd : ∀ w, c ∉ Nat.toDigits 16 w)
    (l : List Nat) : c ∉ (joinGroups hexGroup l).data := by
  cases l with
  | nil => simp [joinGroups]
  | cons w rest =>
    rw [joinGroups_data]
    simp only [List.mem_append, not_or]
    exact ⟨hd w, not_mem_colonGroups c hc hd rest⟩

theorem not_mem_compressFirstRun (c : Char) (hc : c ≠ ':') (hd : ∀ w, c ∉ Nat.toDigits 16 w)
    (l : List Nat) : c ∉ (compressFirstRun hexGroup l).data := by
  unfold compressFirstRun
  cases firstZeroRun l with
  | none => exact not_mem_joinGroups c hc hd l
  | some p =>
    simp only [String.data_append, List.mem_append, not_or]
    refine ⟨⟨not_mem_joinGroups c hc hd _, ?_⟩, not_mem_joinGroups c hc hd _⟩
    intro hm
    have : c = ':' := by
      simp only [List.mem_cons, List.mem_singleton, List.not_mem_nil, or_false, or_self] at hm
      exact hm
    exact hc this

theorem Octets.ofList_bytes {n : Nat} (a : Octets n) : Octets.ofList n a.bytes = a := by
  apply Octets.ext_bytes
  apply List.ext_getElem
  · simp [Octets.ofList, a.size_eq]
  · intro i h1 h2
    have hlt : a.bytes[i] < 256 := a.byte_lt _ (List.getElem_mem _)
    simp only [Octets.ofList, List.getElem_map, List.getElem_range]
    rw [List.getD_eq_getElem _ _ h2]
    exact Nat.mod_eq_of_lt hlt

theorem Octets.byte_lt_256 {n : Nat} (a : Octets n) (i : Nat) : a.byte i < 256 := by
  unfold Octets.byte
  by_cases h : i < a.bytes.length
  · rw [List.getD_eq_getElem _ _ h]
    exact a.byte_lt _ (List.getElem_mem _)
  · rw [List.getD_eq_default _ _ (by omega)]
    decide

theorem in_addr.bytes_eq_byte4 (a : in_addr) :
    a.bytes = [a.byte 0, a.byte 1, a.byte 2, a.byte 3] := by
  obtain ⟨l, hl, _⟩ := a
  rcases l with _ | ⟨b0, _ | ⟨b1, _ | ⟨b2, _ | ⟨b3, _ | ⟨b4, l⟩⟩⟩⟩⟩ <;> simp at hl
  rfl

theorem in6_addr.bytes_eq_byte16 (a : in6_addr) :
    a.bytes = [a.byte 0, a.byte 1, a.byte 2, a.byte 3, a.byte 4, a.byte 5, a.byte 6, a.byte 7,
      a.byte 8, a.byte 9, a.byte 10, a.byte 11, a.byte 12, a.byte 13, a.byte 14, a.byte 15] := by
  obtain ⟨b0, b1, b2, b3, b4, b5, b6, b7, b8, b9, b10, b11, b12, b13, b14, b15, hb⟩ := a.bytes_eq
  simp [Octets.byte, hb]

theorem in6_addr.words_eq_byte (a : in6_addr) (i : Nat) (h : i < 8) :
    a.words i = a.byte (2 * i) * 256 + a.byte (2 * i + 1) := by
  obtain ⟨b0, b1, b2, b3, b4, b5, b6, b7, b8, b9, b10, b11, b12, b13, b14, b15, hb⟩ := a.bytes_eq
  interval_cases i <;> simp [in6_addr.words, Octets.byte, hb, beValue]

theorem in6_addr.groups_eq_byte (a : in6_addr) :
    a.groups = [a.byte 0 * 256 + a.byte 1, a.byte 2 * 256 + a.byte 3, a.byte 4 * 256 + a.byte 5,
      a.byte 6 * 256 + a.byte 7, a.byte 8 * 256 + a.byte 9, a.byte 10 * 256 + a.byte 11,
      a.byte 12 * 256 + a.byte 13, a.byte 14 * 256 + a.byte 15] := by
  have h := fun i hi => a.words_eq_byte i hi
  simp only [in6_addr.groups, List.range_succ, List.range_zero, List.nil_append, List.cons_append,
    List.map_cons, List.map_nil]
  rw [h 0 (by decide), h 1 (by decide), h 2 (by decide), h 3 (by decide), h 4 (by decide),
    h 5 (by decide), h 6 (by decide), h 7 (by decide)]

theorem in6_addr.groups_length (a : in6_addr) : a.groups.length = 8 := by
  simp [in6_addr.groups]

theorem in6_addr.groups_lt (a : in6_addr) : ∀ w ∈ a.groups, w < 65536 := by
  intro w hw
  simp only [in6_addr.groups, List.mem_map] at hw
  obtain ⟨i, _, rfl⟩ := hw
  exact a.words_lt i

theorem split_octets (b0 b1 : Nat) (h1 : b1 < 256) :
    (b0 * 256 + b1) / 256 = b0 ∧ (b0 * 256 + b1) % 256 = b1 := by
  constructor <;> omega

theorem in6_addr.ofList_groups (a : in6_addr) :
    Octets.ofList 16 (a.groups.flatMap (fun w => [w / 256, w % 256])) = a := by
  have h := fun i => a.byte_lt_256 i
  have hflat : a.groups.flatMap (fun w => [w / 256, w % 256]) = a.bytes := by
    rw [a.groups_eq_byte]
    conv_rhs => rw [a.bytes_eq_byte16]
    simp only [List.flatMap_cons, List.flatMap_nil, List.cons_append, List.nil_append,
      List.append_nil, split_octets _ _ (h 1), split_octets _ _ (h 3), split_octets _ _ (h 5),
      split_octets _ _ (h 7), split_octets _ _ (h 9), split_octets _ _ (h 11),
      split_octets _ _ (h 13), split_octets _ _ (h 15), List.singleton_append]
  rw [hflat]
  exact a.ofList_bytes

theorem String.ne_empty_of_data (s : String) (h : s.data ≠ []) : s ≠ "" := by
  intro hc
  subst hc
  exact h rfl

theorem IPv4AddressImpl.toString_eq (x : IPv4AddressImpl) :
    x.toString = dottedQuad (x._addr.byte 0) (x._addr.byte 1) (x._addr.byte 2) (x._addr.byte 3) := by
  simp only [IPv4AddressImpl.toString, NumberFormatter.append, dottedQuad, String.append_assoc]
  rfl

/-- The IPv4 parser reads the text of an IPv4 address back into the address. -/
theorem IPv4AddressImpl.parse_toString_v4 (x : IPv4AddressImpl) :
    IPv4AddressImpl.parse x.toString = some x := by
  have hb := fun i => x._addr.byte_lt_256 i
  have hne : x.toString ≠ "" := by
    apply String.ne_empty_of_data
    rw [x.toString_eq]
    exact (dottedQuad_no_sep _ _ _ _).2.2.2
  have hq : inet_aton x.toString = some x._addr := by
    rw [inet_aton, x.toString_eq, parseDottedQuad_dottedQuad _ _ _ _ (hb 0) (hb 1) (hb 2) (hb 3)]
    simp only [Option.map_some', Option.some.injEq]
    rw [← x._addr.bytes_eq_byte4]
    exact x._addr.ofList_bytes
  simp only [IPv4AddressImpl.parse, if_neg hne, hq]
  rfl

theorem parseGroups_compat (a b c d : Nat) (ha : a < 256) (hb : b < 256) (hc : c < 256)
    (hd : d < 256) :
    parseGroups ("::" ++ dottedQuad a b c d).data
      = some [0, 0, 0, 0, 0, 0, a * 256 + b, c * 256 + d] := by
  obtain ⟨h1, _, h3, h4⟩ := dottedQuad_no_sep a b c d
  have hdata : ("::" ++ dottedQuad a b c d).data = ':' :: ':' :: (dottedQuad a b c d).data := by
    simp [String.data_append]
  rw [hdata, parseGroups]
  simp only [splitDoubleColon, and_self, if_true, if_neg h4, splitOn_of_not_mem _ _ h1, parseTail,
    if_pos h3, parseDottedQuad_dottedQuad a b c d ha hb hc hd, Option.map_some']
  rfl

theorem parseGroups_mapped (a b c d : Nat) (ha : a < 256) (hb : b < 256) (hc : c < 256)
    (hd : d < 256) :
    parseGroups ("::ffff:" ++ dottedQuad a b c d).data
      = some [0, 0, 0, 0, 0, 65535, a * 256 + b, c * 256 + d] := by
  obtain ⟨h1, _, h3, h4⟩ := dottedQuad_no_sep a b c d
  have hdata : ("::ffff:" ++ dottedQuad a b c d).data
      = ':' :: ':' :: (['f', 'f', 'f', 'f'] ++ ':' :: (dottedQuad a b c d).data) := by
    simp [String.data_append]
  have hsplit : splitOn ':' (['f', 'f', 'f', 'f'] ++ ':' :: (dottedQuad a b c d).data)
      = [['f', 'f', 'f', 'f'], (dottedQuad a b c d).data] := by
    rw [splitOn_append _ _ _ (by decide), splitOn_of_not_mem _ _ h1]
  have hg : parseGroup ['f', 'f', 'f', 'f'] = some 65535 := by decide
  rw [hdata, parseGroups]
  simp only [splitDoubleColon, and_self, if_true, hsplit, parseTail, hg,
    if_pos h3, parseDottedQuad_dottedQuad a b c d ha hb hc hd, Option.map_some']
  rfl

/-- The IPv4 parser rejects the text of every IPv6 address. -/
theorem IPv4AddressImpl.parse_toString_v6 (x : IPv6AddressImpl)
    (if_indextoname : Nat → Option String) (hs : x._scope = 0) :
    IPv4AddressImpl.parse (x.toString if_indextoname) = none := by
  have hq : inet_aton (x.toString if_indextoname) = none := by
    rw [inet_aton]
    by_cases he : x.isIPv4Compatible = true ∨ x.isIPv4Mapped = true
    · rw [IPv6AddressImpl.toString_embedded x _ he, String.data_append]
      by_cases h5 : x._addr.words 5 = 0
      · rw [if_pos h5, parseDottedQuad_of_colon _ (by decide) [':'] _ _ _ _ rfl]
        rfl
      · rw [if_neg h5, parseDottedQuad_of_colon _ (by decide) [':', 'f', 'f', 'f', 'f', ':']
          _ _ _ _ rfl]
        rfl
    · have hc : x.isIPv4Compatible = false := by
        cases h : x.isIPv4Compatible
        · rfl
        · exact absurd (Or.inl h) he
      have hm : x.isIPv4Mapped = false := by
        cases h : x.isIPv4Mapped
        · rfl
        · exact absurd (Or.inr h) he
      rw [IPv6AddressImpl.toString_general x _ hs hc hm,
        parseDottedQuad_of_no_dot _ (not_mem_compressFirstRun '.' (by decide)
          (fun w => (not_mem_toDigits 16 (by decide) (by decide) w).2.1) _)]
      rfl
  unfold IPv4AddressImpl.parse
  split
  · rfl
  · rw [hq]

theorem IPv6AddressImpl.embedded_groups (x : IPv6AddressImpl)
    (h : x.isIPv4Compatible = true ∨ x.isIPv4Mapped = true) :
    x._addr.groups = [0, 0, 0, 0, 0, x._addr.words 5,
        x._addr.byte 12 * 256 + x._addr.byte 13, x._addr.byte 14 * 256 + x._addr.byte 15] ∧
      (x._addr.words 5 ≠ 0 → x._addr.words 5 = 65535) := by
  have hg := x._addr.groups_eq_byte
  have hw := fun i hi => x._addr.words_eq_byte i hi
  have h0 := hw 0 (by decide)
  have h1 := hw 1 (by decide)
  have h2 := hw 2 (by decide)
  have h3 := hw 3 (by decide)
  have h4 := hw 4 (by decide)
  have h5 := hw 5 (by decide)
  simp only [Nat.mul_zero, Nat.zero_add, Nat.reduceMul, Nat.reduceAdd] at h0 h1 h2 h3 h4 h5
  rw [hg, ← h0, ← h1, ← h2, ← h3, ← h4, ← h5]
  rcases h with h | h
  · simp only [IPv6AddressImpl.isIPv4Compatible, Bool.and_eq_true, beq_iff_eq] at h
    obtain ⟨⟨⟨⟨⟨e0, e1⟩, e2⟩, e3⟩, e4⟩, e5⟩ := h
    rw [e0, e1, e2, e3, e4]
    exact ⟨rfl, fun hc => absurd e5 hc⟩
  · simp only [IPv6AddressImpl.isIPv4Mapped, Bool.and_eq_true, beq_iff_eq] at h
    obtain ⟨⟨⟨⟨⟨e0, e1⟩, e2⟩, e3⟩, e4⟩, e5⟩ := h
    rw [e0, e1, e2, e3, e4]
    exact ⟨rfl, fun _ => e5⟩

/-- The model of `inet_pton` reads the text of an IPv6 address without scope back
into its sixteen octets, and the text contains no `%`. -/
theorem IPv6AddressImpl.inet_pton6_toString (x : IPv6AddressImpl)
    (if_indextoname : Nat → Option String) (hs : x._scope = 0) :
    inet_pton6 (x.toString if_indextoname) = some x._addr ∧
      '%' ∉ (x.toString if_indextoname).data := by
  have hb := fun i => x._addr.byte_lt_256 i
  by_cases he : x.isIPv4Compatible = true ∨ x.isIPv4Mapped = true
  · obtain ⟨hg, h5⟩ := x.embedded_groups he
    have hq := dottedQuad_no_sep (x._addr.byte 12) (x._addr.byte 13) (x._addr.byte 14)
      (x._addr.byte 15)
    rw [IPv6AddressImpl.toString_embedded x _ he]
    by_cases hz : x._addr.words 5 = 0
    · rw [if_pos hz, inet_pton6, parseGroups_compat _ _ _ _ (hb 12) (hb 13) (hb 14) (hb 15)]
      rw [hz] at hg
      simp only [Option.map_some', ← hg, x._addr.ofList_groups, String.data_append,
        List.mem_append, not_or, true_and]
      exact ⟨by decide, hq.2.1⟩
    · rw [if_neg hz, inet_pton6, parseGroups_mapped _ _ _ _ (hb 12) (hb 13) (hb 14) (hb 15)]
      rw [h5 hz] at hg
      simp only [Option.map_some', ← hg, x._addr.ofList_groups, String.data_append,
        List.mem_append, not_or, true_and]
      exact ⟨by decide, hq.2.1⟩
  · have hc : x.isIPv4Compatible = false := by
      cases h : x.isIPv4Compatible
      · rfl
      · exact absurd (Or.inl h) he
    have hm : x.isIPv4Mapped = false := by
      cases h : x.isIPv4Mapped
      · rfl
      · exact absurd (Or.inr h) he
    rw [IPv6AddressImpl.toString_general x _ hs hc hm, inet_pton6,
      parseGroups_compressFirstRun _ x._addr.groups_length x._addr.groups_lt]
    simp only [Option.map_some', x._addr.ofList_groups, true_and]
    exact not_mem_compressFirstRun '%' (by decide)
      (fun w => (not_mem_toDigits 16 (by decide) (by decide) w).2.2) _

/-- The IPv6 parser reads the text of an IPv6 address without scope back into
the address. -/
theorem IPv6AddressImpl.parse_toString_scope0 (x : IPv6AddressImpl)
    (if_indextoname : Nat → Option String) (if_nametoindex : String → Nat) (hs : x._scope = 0) :
    IPv6AddressImpl.parse (x.toString if_indextoname) if_nametoindex = some x := by
  obtain ⟨hp, hno⟩ := x.inet_pton6_toString if_indextoname hs
  have hne : x.toString if_indextoname ≠ "" := by
    intro hc
    have h0 : inet_pton6 "" = none := rfl
    rw [hc, h0] at hp
    exact Option.noConfusion hp
  simp only [IPv6AddressImpl.parse, if_neg hne, find_of_not_mem _ _ hno, hp]
  cases x
  simp only at hs
  subst hs
  rfl

/-- The parser reads the text of an address without scope back into the
address. -/
theorem IPAddress.parse_toString (a : IPAddress) (if_indextoname : Nat → Option String)
    (if_nametoindex : String → Nat) (hs : a.scope = 0) :
    IPAddress.parse (a.toString if_indextoname) if_nametoindex = .ok a := by
  obtain ⟨impl⟩ := a
  cases impl with
  | v4 x =>
    simp only [IPAddress.parse, IPAddress.ofString, IPAddress.toString, IPAddressImpl.toString,
      x.parse_toString_v4]
  | v6 x =>
    have hs6 : x._scope = 0 := hs
    simp only [IPAddress.parse, IPAddress.ofString, IPAddress.toString, IPAddressImpl.toString,
      IPv4AddressImpl.parse_toString_v6 x _ hs6, x.parse_toString_scope0 _ _ hs6]

/-- C13: `toString()` is lossless on the addresses without scope: for all
addresses `a` and `b` with scope 0, of any families, equal texts imply that `a`
and `b` have the same family and identical bytes. -/
theorem C13_toString_lossless (a b : IPAddress) (if_indextoname : Nat → Option String)
    (ha : a.scope = 0) (hb : b.scope = 0)
    (h : a.toString if_indextoname = b.toString if_indextoname) :
    a.family = b.family ∧ a.addr = b.addr := by
  have h1 := a.parse_toString if_indextoname (fun _ => 0) ha
  have h2 := b.parse_toString if_indextoname (fun _ => 0) hb
  rw [h, h2] at h1
  have hab : b = a := by
    injection h1
  subst hab
  exact ⟨rfl, rfl⟩

/-- Witness of C13: the address `::1` compared with itself. -/
theorem C13_toString_lossless_witness :
    exampleV6Loopback.scope = 0 ∧
    exampleV6Loopback.toString noInterfaceName = exampleV6Loopback.toString noInterfaceName ∧
    exampleV6Loopback.family = exampleV6Loopback.family ∧
    exampleV6Loopback.addr = exampleV6Loopback.addr :=
  ⟨rfl, rfl, C13_toString_lossless exampleV6Loopback exampleV6Loopback noInterfaceName rfl rfl rfl⟩

/-- C14: on a host whose only interface is `Eth0`, of index 2, the text
`fe80::1%Eth0` is parsed into the address `fe80::1` with scope 2, whose text is
`fe80::1%eth0`, the interface name in lower case; this text is not parsed: the
constructor throws `InvalidAddressException`. -/
theorem C14_round_trip_scope_name :
    (∃ a, IPAddress.parse "fe80::1%Eth0" eth0NameToIndex = .ok a ∧
      a.addr = [0xfe, 0x80, 0, 0, 0, 0, 0, 0, 0, 0, 0, 0, 0, 0, 0, 1] ∧ a.scope = 2 ∧
      a.toString eth0IndexToName = "fe80::1%eth0") ∧
    IPAddress.parse "fe80::1%eth0" eth0NameToIndex
      = .error (.InvalidAddressException "fe80::1%eth0") := by
  refine ⟨⟨⟨.v6 ⟨(exampleV6Impl 0xfe80 0 0 0 0 0 0 1)._addr, 2⟩⟩, ?_, rfl, rfl, ?_⟩, ?_⟩
  · rfl
  · show IPv6AddressImpl.toString ⟨(exampleV6Impl 0xfe80 0 0 0 0 0 0 1)._addr, 2⟩ eth0IndexToName
      = "fe80::1%eth0"
    rw [IPv6AddressImpl.toString_scoped _ _ (by decide) (by decide)]
    decide
  · rfl

/-! ## Bitwise operators on octets: lemmas -/

theorem or_div_mod (x y j : Nat) :
    (x ||| y) / 256 ^ j % 256 = (x / 256 ^ j % 256) ||| (y / 256 ^ j % 256) := by
  have h256 : (256 : Nat) ^ j = 2 ^ (8 * j) := by
    rw [show (256 : Nat) = 2 ^ 8 by norm_num, ← pow_mul]
  have h8 : (256 : Nat) = 2 ^ 8 := by norm_num
  rw [h256, h8]
  apply Nat.eq_of_testBit_eq
  intro i
  simp only [Nat.testBit_mod_two_pow, Nat.testBit_or, ← Nat.shiftRight_eq_div_pow,
    Nat.testBit_shiftRight]
  cases decide (i < 8) <;> simp

theorem xor_div_mod (x y j : Nat) :
    (x ^^^ y) / 256 ^ j % 256 = (x / 256 ^ j % 256) ^^^ (y / 256 ^ j % 256) := by
  have h256 : (256 : Nat) ^ j = 2 ^ (8 * j) := by
    rw [show (256 : Nat) = 2 ^ 8 by norm_num, ← pow_mul]
  have h8 : (256 : Nat) = 2 ^ 8 := by norm_num
  rw [h256, h8]
  apply Nat.eq_of_testBit_eq
  intro i
  simp only [Nat.testBit_mod_two_pow, Nat.testBit_xor, ← Nat.shiftRight_eq_div_pow,
    Nat.testBit_shiftRight]
  cases decide (i < 8) <;> simp

theorem beBytes_op (op : Nat → Nat → Nat) (hop : ∀ x y j : Nat,
      op x y / 256 ^ j % 256 = op (x / 256 ^ j % 256) (y / 256 ^ j % 256)) (k x y : Nat) :
    beBytes k (op x y) = List.zipWith op (beBytes k x) (beBytes k y) := by
  induction k with
  | zero => rfl
  | succ k ih => simp only [beBytes, List.zipWith_cons_cons, ih, hop x y k]

theorem beBytes_op_beValue (op : Nat → Nat → Nat) (hop : ∀ x y j : Nat,
      op x y / 256 ^ j % 256 = op (x / 256 ^ j % 256) (y / 256 ^ j % 256)) (l1 l2 : List Nat)
    (h1 : ∀ b ∈ l1, b < 256) (h2 : ∀ b ∈ l2, b < 256) (hl : l2.length = l1.length) :
    beBytes l1.length (op (beValue l1) (beValue l2)) = List.zipWith op l1 l2 := by
  rw [beBytes_op op hop, beBytes_beValue l1 h1]
  have := beBytes_beValue l2 h2
  rw [hl] at this
  rw [this]

theorem IPv4AddressImpl.op_bytes (op : Nat → Nat → Nat) (hop : ∀ x y j : Nat,
      op x y / 256 ^ j % 256 = op (x / 256 ^ j % 256) (y / 256 ^ j % 256))
    (x y : IPv4AddressImpl) :
    beBytes 4 (op x._addr.s_addr y._addr.s_addr)
      = List.zipWith op x._addr.bytes y._addr.bytes := by
  have h := beBytes_op_beValue op hop x._addr.bytes y._addr.bytes x._addr.byte_lt y._addr.byte_lt
    (by rw [x._addr.size_eq, y._addr.size_eq])
  rw [x._addr.size_eq] at h
  exact h

theorem in6_addr.block_op (op : Nat → Nat → Nat) (hop : ∀ x y j : Nat,
      op x y / 256 ^ j % 256 = op (x / 256 ^ j % 256) (y / 256 ^ j % 256))
    (a0 a1 a2 a3 c0 c1 c2 c3 : Nat)
    (ha : ∀ b ∈ [a0, a1, a2, a3], b < 256) (hc : ∀ b ∈ [c0, c1, c2, c3], b < 256) :
    beBytes 4 (op (beValue [a0, a1, a2, a3]) (beValue [c0, c1, c2, c3]))
      = [op a0 c0, op a1 c1, op a2 c2, op a3 c3] :=
  beBytes_op_beValue op hop [a0, a1, a2, a3] [c0, c1, c2, c3] ha hc rfl

theorem IPv6AddressImpl.wordwise_bytes (op : Nat → Nat → Nat) (hop : ∀ x y j : Nat,
      op x y / 256 ^ j % 256 = op (x / 256 ^ j % 256) (y / 256 ^ j % 256))
    (x y : IPv6AddressImpl) :
    (IPv6AddressImpl.wordwise op x y)._addr.bytes
        = List.zipWith op x._addr.bytes y._addr.bytes ∧
      (IPv6AddressImpl.wordwise op x y)._scope = 0 := by
  obtain ⟨a0, a1, a2, a3, a4, a5, a6, a7, a8, a9, a10, a11, a12, a13, a14, a15, ha⟩ :=
    x._addr.bytes_eq
  obtain ⟨c0, c1, c2, c3, c4, c5, c6, c7, c8, c9, c10, c11, c12, c13, c14, c15, hc⟩ :=
    y._addr.bytes_eq
  have hxa := x._addr.byte_lt
  have hyc := y._addr.byte_lt
  rw [ha] at hxa
  rw [hc] at hyc
  have b0 := in6_addr.block_op op hop a0 a1 a2 a3 c0 c1 c2 c3
    (fun b hb => hxa b (by simp only [List.mem_cons, List.mem_singleton] at hb ⊢; tauto))
    (fun b hb => hyc b (by simp only [List.mem_cons, List.mem_singleton] at hb ⊢; tauto))
  have b1 := in6_addr.block_op op hop a4 a5 a6 a7 c4 c5 c6 c7
    (fun b hb => hxa b (by simp only [List.mem_cons, List.mem_singleton] at hb ⊢; tauto))
    (fun b hb => hyc b (by simp only [List.mem_cons, List.mem_singleton] at hb ⊢; tauto))
  have b2 := in6_addr.block_op op hop a8 a9 a10 a11 c8 c9 c10 c11
    (fun b hb => hxa b (by simp only [List.mem_cons, List.mem_singleton] at hb ⊢; tauto))
    (fun b hb => hyc b (by simp only [List.mem_cons, List.mem_singleton] at hb ⊢; tauto))
  have b3 := in6_addr.block_op op hop a12 a13 a14 a15 c12 c13 c14 c15
    (fun b hb => hxa b (by simp only [List.mem_cons, List.mem_singleton] at hb ⊢; tauto))
    (fun b hb => hyc b (by simp only [List.mem_cons, List.mem_singleton] at hb ⊢; tauto))
  refine ⟨?_, rfl⟩
  simp only [IPv6AddressImpl.wordwise, IPv6AddressImpl.ofAddr, in6_addr.set_s6_addr32,
    in6_addr.s6_addr32, ha, hc, Nat.lt_add_one, Nat.reduceLT, dite_true, Nat.reduceMul,
    List.take_zero, List.drop_zero, List.nil_append, List.take_succ_cons, List.drop_succ_cons,
    List.take_nil, Nat.reduceAdd, b0, List.cons_append, b1, b2, b3, List.drop_nil,
    List.append_nil, List.zipWith_cons_cons, List.zipWith_nil_right]

theorem zipWith_xor_ones (l : List Nat) :
    List.zipWith (· ^^^ ·) l (List.replicate l.length 255) = l.map (· ^^^ 255) := by
  induction l with
  | nil => rfl
  | cons b l ih => simp only [List.length_cons, List.replicate_succ, List.zipWith_cons_cons, ih,
      List.map_cons]

theorem IPv4AddressImpl.op_not_bytes_v4 (x : IPv4AddressImpl) :
    x.op_not._addr.bytes = x._addr.bytes.map (· ^^^ 255) := by
  have h := beBytes_op (· ^^^ ·) xor_div_mod 4 x._addr.s_addr 0xffffffff
  have h1 : beBytes 4 0xffffffff = List.replicate x._addr.bytes.length 255 := by
    rw [x._addr.size_eq]
    rfl
  have h2 : beBytes 4 x._addr.s_addr = x._addr.bytes := Octets.beBytes_s 4 x._addr
  rw [h1, h2, zipWith_xor_ones] at h
  exact h

theorem IPv6AddressImpl.op_not_eq (x : IPv6AddressImpl) :
    x.op_not = IPv6AddressImpl.wordwise (· ^^^ ·) x
      ⟨⟨List.replicate 16 255, rfl, by decide⟩, 0⟩ := by
  have h0 : in6_addr.s6_addr32 ⟨List.replicate 16 255, rfl, by decide⟩ 0 = 0xffffffff := rfl
  have h1 : in6_addr.s6_addr32 ⟨List.replicate 16 255, rfl, by decide⟩ 1 = 0xffffffff := rfl
  have h2 : in6_addr.s6_addr32 ⟨List.replicate 16 255, rfl, by decide⟩ 2 = 0xffffffff := rfl
  have h3 : in6_addr.s6_addr32 ⟨List.replicate 16 255, rfl, by decide⟩ 3 = 0xffffffff := rfl
  simp only [IPv6AddressImpl.op_not, IPv6AddressImpl.wordwise, h0, h1, h2, h3]

theorem IPv6AddressImpl.op_not_bytes_v6 (x : IPv6AddressImpl) :
    x.op_not._addr.bytes = x._addr.bytes.map (· ^^^ 255) ∧ x.op_not._scope = 0 := by
  rw [IPv6AddressImpl.op_not_eq]
  obtain ⟨hb, hs⟩ := IPv6AddressImpl.wordwise_bytes (· ^^^ ·) xor_div_mod x
    ⟨⟨List.replicate 16 255, rfl, by decide⟩, 0⟩
  refine ⟨?_, hs⟩
  rw [hb]
  have := zipWith_xor_ones x._addr.bytes
  rw [x._addr.size_eq] at this
  exact this

/-- The result of a binary bitwise operator of `IPAddress` on two addresses of
one family: the family of the operands, the octets combined one by one, and
scope 0. -/
theorem IPAddress.binary_op_spec (op : Nat → Nat → Nat) (hop : ∀ x y j : Nat,
      op x y / 256 ^ j % 256 = op (x / 256 ^ j % 256) (y / 256 ^ j % 256))
    (f : IPAddress → IPAddress → Except Exception IPAddress)
    (hf4 : ∀ t o : IPv4AddressImpl, f ⟨.v4 t⟩ ⟨.v4 o⟩
      = IPAddress.ofAddr (Octets.ofWord 4 (op t._addr.s_addr o._addr.s_addr)))
    (hf6 : ∀ t o : IPv6AddressImpl, f ⟨.v6 t⟩ ⟨.v6 o⟩
      = IPAddress.ofAddr (IPv6AddressImpl.wordwise op (IPv6AddressImpl.ofAddr t._addr)
          (IPv6AddressImpl.ofAddr o._addr))._addr)
    (a b : IPAddress) (h : a.family = b.family) :
    ∃ r, f a b = .ok r ∧ r.family = a.family ∧ r.length = a.length ∧
      r.addr = List.zipWith op a.addr b.addr ∧ r.scope = 0 := by
  obtain ⟨ia⟩ := a
  obtain ⟨ib⟩ := b
  cases ia with
  | v4 t =>
    cases ib with
    | v4 o =>
      rw [hf4, IPAddress.ofAddr_in_addr]
      exact ⟨_, rfl, rfl, rfl, IPv4AddressImpl.op_bytes op hop t o, rfl⟩
    | v6 o => exact IPAddress.Family.noConfusion h
  | v6 t =>
    cases ib with
    | v4 o => exact IPAddress.Family.noConfusion h
    | v6 o =>
      rw [hf6, IPAddress.ofAddr_in6_addr]
      exact ⟨_, rfl, rfl, rfl,
        (IPv6AddressImpl.wordwise_bytes op hop (IPv6AddressImpl.ofAddr t._addr)
          (IPv6AddressImpl.ofAddr o._addr)).1, rfl⟩

theorem IPAddress.op_and_spec (a b : IPAddress) (h : a.family = b.family) :
    ∃ r, a.op_and b = .ok r ∧ r.family = a.family ∧ r.length = a.length ∧
      r.addr = List.zipWith (· &&& ·) a.addr b.addr ∧ r.scope = 0 :=
  IPAddress.binary_op_spec (· &&& ·) and_div_mod IPAddress.op_and
    (fun _ _ => rfl) (fun _ _ => rfl) a b h

theorem IPAddress.op_or_spec (a b : IPAddress) (h : a.family = b.family) :
    ∃ r, a.op_or b = .ok r ∧ r.family = a.family ∧ r.length = a.length ∧
      r.addr = List.zipWith (· ||| ·) a.addr b.addr ∧ r.scope = 0 :=
  IPAddress.binary_op_spec (· ||| ·) or_div_mod IPAddress.op_or
    (fun _ _ => rfl) (fun _ _ => rfl) a b h

theorem IPAddress.op_xor_spec (a b : IPAddress) (h : a.family = b.family) :
    ∃ r, a.op_xor b = .ok r ∧ r.family = a.family ∧ r.length = a.length ∧
      r.addr = List.zipWith (· ^^^ ·) a.addr b.addr ∧ r.scope = 0 :=
  IPAddress.binary_op_spec (· ^^^ ·) xor_div_mod IPAddress.op_xor
    (fun _ _ => rfl) (fun _ _ => rfl) a b h

theorem IPAddress.op_not_spec (a : IPAddress) :
    ∃ r, a.op_not = .ok r ∧ r.family = a.family ∧ r.length = a.length ∧
      r.addr = a.addr.map (· ^^^ 255) ∧ r.scope = 0 := by
  obtain ⟨ia⟩ := a
  cases ia with
  | v4 t =>
    refine ⟨⟨.v4 (IPv4AddressImpl.ofAddr (IPv4AddressImpl.ofAddr t._addr).op_not._addr)⟩,
      ?_, rfl, rfl, ?_, rfl⟩
    · simp only [IPAddress.op_not, IPAddress.ofAddr_in_addr]
    · exact IPv4AddressImpl.op_not_bytes_v4 (IPv4AddressImpl.ofAddr t._addr)
  | v6 t =>
    refine ⟨⟨.v6 (IPv6AddressImpl.ofAddr (IPv6AddressImpl.ofAddr t._addr).op_not._addr)⟩,
      ?_, rfl, rfl, ?_, rfl⟩
    · simp only [IPAddress.op_not, IPAddress.ofAddr_in6_addr]
    · exact (IPv6AddressImpl.op_not_bytes_v6 (IPv6AddressImpl.ofAddr t._addr)).1

/-! ## The prefix length of a bitwise OR: lemmas -/

theorem trailingZeroBits_or (w x y : Nat) :
    trailingZeroBits w (x ||| y) = min (trailingZeroBits w x) (trailingZeroBits w y) := by
  induction w generalizing x y with
  | zero => rfl
  | succ w ih =>
    simp only [trailingZeroBits, Nat.or_div_two, ih]
    by_cases hx : x % 2 = 1
    · have hxy : (x ||| y) % 2 = 1 := Nat.or_mod_two_eq_one.2 (Or.inl hx)
      rw [if_pos hxy, if_pos hx, Nat.zero_min]
    · by_cases hy : y % 2 = 1
      · have hxy : (x ||| y) % 2 = 1 := Nat.or_mod_two_eq_one.2 (Or.inr hy)
        rw [if_pos hxy, if_pos hy, Nat.min_zero]
      · have hxy : ¬ (x ||| y) % 2 = 1 := fun h =>
          (Nat.or_mod_two_eq_one.1 h).elim hx hy
        rw [if_neg hxy, if_neg hx, if_neg hy]
        omega

theorem beValue_zipWith_or (l1 l2 : List Nat) (h1 : ∀ b ∈ l1, b < 256) (h2 : ∀ b ∈ l2, b < 256)
    (hl : l2.length = l1.length) :
    beValue (List.zipWith (· ||| ·) l1 l2) = beValue l1 ||| beValue l2 := by
  rw [← beBytes_op_beValue (· ||| ·) or_div_mod l1 l2 h1 h2 hl, beValue_beBytes]
  apply Nat.mod_eq_of_lt
  have e : (256 : Nat) ^ l1.length = 2 ^ (8 * l1.length) := by
    rw [show (256 : Nat) = 2 ^ 8 by norm_num, ← pow_mul]
  have b1 := beValue_lt l1 h1
  have b2 := beValue_lt l2 h2
  rw [hl] at b2
  rw [e] at b1 b2 ⊢
  exact Nat.or_lt_two_pow b1 b2

theorem IPAddress.addr_lt (a : IPAddress) : ∀ b ∈ a.addr, b < 256 := by
  obtain ⟨impl⟩ := a
  cases impl with
  | v4 x => exact x._addr.byte_lt
  | v6 x => exact x._addr.byte_lt

theorem IPAddress.prefixLength_eq_sub (a : IPAddress) :
    a.prefixLength = a.family.width - trailingZeroBits a.family.width a.payload := by
  rw [IPAddress.prefixLength_eq]
  by_cases h : a.payload = 0
  · rw [if_pos h, h, trailingZeroBits_zero, Nat.sub_self]
  · rw [if_neg h]

theorem IPAddress.length_eq_of_family (a b : IPAddress) (h : a.family = b.family) :
    b.length = a.length := by
  obtain ⟨ia⟩ := a
  obtain ⟨ib⟩ := b
  cases ia <;> cases ib <;> first | rfl | exact IPAddress.Family.noConfusion h

theorem IPAddress.prefixLength_op_or (a b : IPAddress) (h : a.family = b.family) :
    ∃ r, a.op_or b = .ok r ∧ r.prefixLength = max a.prefixLength b.prefixLength := by
  obtain ⟨r, hr, hfam, _, haddr, _⟩ := IPAddress.op_or_spec a b h
  refine ⟨r, hr, ?_⟩
  have hpay : r.payload = a.payload ||| b.payload := by
    unfold IPAddress.payload
    rw [haddr]
    exact beValue_zipWith_or a.addr b.addr a.addr_lt b.addr_lt
      (by rw [IPAddress.addr_length, IPAddress.addr_length,
        IPAddress.length_eq_of_family a b h])
  rw [IPAddress.prefixLength_eq_sub r, IPAddress.prefixLength_eq_sub a,
    IPAddress.prefixLength_eq_sub b, hpay, hfam, ← h, trailingZeroBits_or]
  omega

/-! ## Multicast classes and exclusive classes: lemmas -/

theorem and_sub_mask (w m1 m2 v : Nat) (hm : m1 &&& m2 = m2) (h : w &&& m1 = v) :
    w &&& m2 = v &&& m2 := by
  rw [← h, Nat.and_assoc, hm]

theorem IPv4AddressImpl.isGlobalMC_range (x : IPv4AddressImpl) :
    x.isGlobalMC = decide (0xE0000100 ≤ x._addr.s_addr ∧ x._addr.s_addr ≤ 0xEE000000) := by
  simp only [IPv4AddressImpl.isGlobalMC, ge_iff_le, Bool.decide_and]

theorem IPv4AddressImpl.isMulticast_of_class_v4 (x : IPv4AddressImpl)
    (h : x.isWellKnownMC = true ∨ x.isNodeLocalMC = true ∨ x.isLinkLocalMC = true ∨
      x.isSiteLocalMC = true ∨ x.isOrgLocalMC = true ∨ x.isGlobalMC = true) :
    x.isMulticast = true := by
  have m28 := x._addr.and_mask 28 (by decide)
  norm_num at m28
  simp only [IPv4AddressImpl.isMulticast, IPv4AddressImpl.isWellKnownMC,
    IPv4AddressImpl.isNodeLocalMC, IPv4AddressImpl.isLinkLocalMC, IPv4AddressImpl.isSiteLocalMC,
    IPv4AddressImpl.isOrgLocalMC, IPv4AddressImpl.isGlobalMC_range, beq_iff_eq,
    decide_eq_true_eq, Bool.false_eq_true, false_or] at h ⊢
  rcases h with h | h | h | h | h
  · exact and_sub_mask _ 0xFFFFFF00 0xF0000000 _ (by decide) h
  · exact and_sub_mask _ 0xFF000000 0xF0000000 _ (by decide) h
  · exact and_sub_mask _ 0xFFFF0000 0xF0000000 _ (by decide) h
  · exact and_sub_mask _ 0xFFFF0000 0xF0000000 _ (by decide) h
  · rw [m28]
    omega

theorem IPv6AddressImpl.isMulticast_of_class_v6 (x : IPv6AddressImpl)
    (h : x.isWellKnownMC = true ∨ x.isNodeLocalMC = true ∨ x.isLinkLocalMC = true ∨
      x.isSiteLocalMC = true ∨ x.isOrgLocalMC = true ∨ x.isGlobalMC = true) :
    x.isMulticast = true := by
  simp only [IPv6AddressImpl.isMulticast, IPv6AddressImpl.isWellKnownMC,
    IPv6AddressImpl.isNodeLocalMC, IPv6AddressImpl.isLinkLocalMC, IPv6AddressImpl.isSiteLocalMC,
    IPv6AddressImpl.isOrgLocalMC, IPv6AddressImpl.isGlobalMC, beq_iff_eq] at h ⊢
  rcases h with h | h | h | h | h | h
  · exact and_sub_mask _ 0xFFF0 0xFFE0 _ (by decide) h
  · exact and_sub_mask _ 0xFFEF 0xFFE0 _ (by decide) h
  · exact and_sub_mask _ 0xFFEF 0xFFE0 _ (by decide) h
  · exact and_sub_mask _ 0xFFEF 0xFFE0 _ (by decide) h
  · exact and_sub_mask _ 0xFFEF 0xFFE0 _ (by decide) h
  · exact and_sub_mask _ 0xFFEF 0xFFE0 _ (by decide) h

theorem IPAddress.isMulticast_of_class (a : IPAddress)
    (h : a.isWellKnownMC = true ∨ a.isNodeLocalMC = true ∨ a.isLinkLocalMC = true ∨
      a.isSiteLocalMC = true ∨ a.isOrgLocalMC = true ∨ a.isGlobalMC = true) :
    a.isMulticast = true := by
  obtain ⟨impl⟩ := a
  cases impl with
  | v4 x => exact x.isMulticast_of_class_v4 h
  | v6 x => exact x.isMulticast_of_class_v6 h

theorem countTrue_le_one (l : List Bool)
    (h : l.Pairwise (fun p q => p = false ∨ q = false)) : countTrue l ≤ 1 := by
  induction l with
  | nil => simp [countTrue]
  | cons p l ih =>
    rw [List.pairwise_cons] at h
    obtain ⟨hp, hl⟩ := h
    have ihl := ih hl
    unfold countTrue at ihl ⊢
    cases p with
    | false =>
      rw [List.count_cons_of_ne (by decide)]
      exact ihl
    | true =>
      have h0 : l.count true = 0 := by
        rw [List.count_eq_zero]
        intro hm
        rcases hp true hm with h | h <;> exact Bool.noConfusion h
      rw [List.count_cons_self, h0]

theorem IPv6AddressImpl.classifier_zero_words (x : IPv6AddressImpl) :
    x.isWildcard = decide (x._addr.words 0 = 0 ∧ x._addr.words 1 = 0 ∧ x._addr.words 2 = 0 ∧
      x._addr.words 3 = 0 ∧ x._addr.words 4 = 0 ∧ x._addr.words 5 = 0 ∧ x._addr.words 6 = 0 ∧
      x._addr.words 7 = 0) ∧
    x.isLoopback = decide (x._addr.words 0 = 0 ∧ x._addr.words 1 = 0 ∧ x._addr.words 2 = 0 ∧
      x._addr.words 3 = 0 ∧ x._addr.words 4 = 0 ∧ x._addr.words 5 = 0 ∧ x._addr.words 6 = 0 ∧
      x._addr.words 7 = 1) := by
  simp only [IPv6AddressImpl.isWildcard, IPv6AddressImpl.isLoopback]
  constructor <;>
    simp only [beq_iff_eq, Bool.and_eq_true, decide_eq_true_eq, Bool.decide_and,
      ← Bool.decide_and, decide_eq_decide, beq_eq_decide] <;>
    omega

theorem IPv4AddressImpl.exclusive_classes_v4 (x : IPv4AddressImpl) :
    countTrue [x.isWildcard, x.isBroadcast, x.isLoopback, x.isMulticast, x.isLinkLocal,
      x.isSiteLocal] ≤ 1 := by
  obtain ⟨b0, b1, b2, b3, hb⟩ : ∃ b0 b1 b2 b3, x._addr.bytes = [b0, b1, b2, b3] := by
    obtain ⟨l, hl, _⟩ := x._addr
    rcases l with _ | ⟨b0, _ | ⟨b1, _ | ⟨b2, _ | ⟨b3, _ | ⟨b4, l⟩⟩⟩⟩⟩ <;> simp at hl
    exact ⟨b0, b1, b2, b3, rfl⟩
  obtain ⟨h1, h2, h3, h4, h5, h6, _, _⟩ := x.classifier_bytes b0 b1 b2 b3 hb
  apply countTrue_le_one
  rw [h1, h2, h3, h4, h5, h6]
  simp only [List.pairwise_cons, List.mem_cons, List.mem_singleton, forall_eq_or_imp, forall_eq,
    List.not_mem_nil, false_imp_iff, implies_true, List.Pairwise.nil, and_true,
    decide_eq_false_iff_not]
  omega

theorem IPv6AddressImpl.exclusive_classes_v6 (x : IPv6AddressImpl) :
    countTrue [x.isWildcard, x.isBroadcast, x.isLoopback, x.isMulticast, x.isLinkLocal,
      x.isSiteLocal] ≤ 1 := by
  obtain ⟨h1, h2⟩ := x.classifier_zero_words
  obtain ⟨h3, h4, h5⟩ := x.classifier_words
  apply countTrue_le_one
  rw [h1, h2, h3, h4, h5]
  simp only [IPv6AddressImpl.isBroadcast, List.pairwise_cons, List.mem_cons, List.mem_singleton,
    forall_eq_or_imp, forall_eq, List.not_mem_nil, false_imp_iff, implies_true,
    List.Pairwise.nil, and_true, decide_eq_false_iff_not, or_true, true_or, true_and]
  omega

/-! ## The properties of the constructors, the operators and the classes -/

/-- C21: the code of `isGlobalMC()` on an IPv4 address is true exactly when the
address, read as a 32-bit big-endian integer, lies in `0xE0000100 .. 0xEE000000`.
The addresses 238.0.0.1 (`0xEE000001`) and 238.255.255.255 (`0xEEFFFFFF`), which
lie in 224.0.1.0 .. 238.255.255.255, are not reported as global multicast. -/
theorem C21_isGlobalMC_v4_code :
    (∀ x : IPv4AddressImpl, IPAddress.isGlobalMC ⟨.v4 x⟩
      = decide (0xE0000100 ≤ IPAddress.payload ⟨.v4 x⟩ ∧
          IPAddress.payload ⟨.v4 x⟩ ≤ 0xEE000000)) ∧
    (exampleV4 238 0 0 1).payload = 0xEE000001 ∧
    (exampleV4 238 0 0 1).isGlobalMC = false ∧
    (exampleV4 238 255 255 255).payload = 0xEEFFFFFF ∧
    (exampleV4 238 255 255 255).isGlobalMC = false := by
  refine ⟨fun x => x.isGlobalMC_range, ?_, ?_, ?_, ?_⟩ <;> decide

/-- C22: constructing an address from a buffer of `L` octets, with or without a
scope, succeeds iff `L` is 4 or 16.  `L = 4` gives an IPv4 address with those 4
octets and scope 0, whatever scope is supplied; `L = 16` gives an IPv6 address
with those 16 octets and the supplied scope, 0 if none is; every other length
throws the exception for an invalid length. -/
theorem C22_construct_from_bytes (L : Nat) (buf : Octets L) (scope : Nat) :
    (L = 4 → ∃ r, IPAddress.ofAddr buf = .ok r ∧ IPAddress.ofAddrScope buf scope = .ok r ∧
      r.family = .IPv4 ∧ r.length = 4 ∧ r.addr = buf.bytes ∧ r.scope = 0) ∧
    (L = 16 → ∃ r1 r2, IPAddress.ofAddr buf = .ok r1 ∧ r1.family = .IPv6 ∧ r1.length = 16 ∧
      r1.addr = buf.bytes ∧ r1.scope = 0 ∧
      IPAddress.ofAddrScope buf scope = .ok r2 ∧ r2.family = .IPv6 ∧ r2.length = 16 ∧
      r2.addr = buf.bytes ∧ r2.scope = scope) ∧
    (L ≠ 4 → L ≠ 16 →
      IPAddress.ofAddr buf = .error (.InvalidArgumentException invalidLengthMsg) ∧
      IPAddress.ofAddrScope buf scope = .error (.InvalidArgumentException invalidLengthMsg)) ∧
    ((∃ r, IPAddress.ofAddr buf = .ok r) ↔ (L = 4 ∨ L = 16)) ∧
    ((∃ r, IPAddress.ofAddrScope buf scope = .ok r) ↔ (L = 4 ∨ L = 16)) := by
  by_cases h4 : L = 4
  · subst h4
    have e1 : IPAddress.ofAddr buf = .ok ⟨.v4 (IPv4AddressImpl.ofAddr buf)⟩ :=
      IPAddress.ofAddr_in_addr buf
    have e2 : IPAddress.ofAddrScope buf scope = .ok ⟨.v4 (IPv4AddressImpl.ofAddr buf)⟩ := by
      simp [IPAddress.ofAddrScope, Octets.cast]
    refine ⟨fun _ => ⟨_, e1, e2, rfl, rfl, rfl, rfl⟩, fun h => absurd h (by decide),
      fun h => absurd rfl h, ⟨fun _ => Or.inl rfl, fun _ => ⟨_, e1⟩⟩,
      ⟨fun _ => Or.inl rfl, fun _ => ⟨_, e2⟩⟩⟩
  · by_cases h16 : L = 16
    · subst h16
      have e1 : IPAddress.ofAddr buf = .ok ⟨.v6 (IPv6AddressImpl.ofAddr buf)⟩ :=
        IPAddress.ofAddr_in6_addr buf
      have e2 : IPAddress.ofAddrScope buf scope
          = .ok ⟨.v6 (IPv6AddressImpl.ofAddrScope buf scope)⟩ := by
        simp [IPAddress.ofAddrScope, Octets.cast]
      refine ⟨fun h => absurd h (by decide),
        fun _ => ⟨_, _, e1, rfl, rfl, rfl, rfl, e2, rfl, rfl, rfl, rfl⟩,
        fun _ h => absurd rfl h, ⟨fun _ => Or.inr rfl, fun _ => ⟨_, e1⟩⟩,
        ⟨fun _ => Or.inr rfl, fun _ => ⟨_, e2⟩⟩⟩
    · have e1 : IPAddress.ofAddr buf = .error (.InvalidArgumentException invalidLengthMsg) := by
        simp [IPAddress.ofAddr, h4, h16]
      have e2 : IPAddress.ofAddrScope buf scope
          = .error (.InvalidArgumentException invalidLengthMsg) := by
        simp [IPAddress.ofAddrScope, h4, h16]
      refine ⟨fun h => absurd h h4, fun h => absurd h h16, fun _ _ => ⟨e1, e2⟩, ?_, ?_⟩
      · rw [e1]
        exact ⟨fun ⟨r, hr⟩ => Except.noConfusion hr, fun h => h.elim (absurd · h4) (absurd · h16)⟩
      · rw [e2]
        exact ⟨fun ⟨r, hr⟩ => Except.noConfusion hr, fun h => h.elim (absurd · h4) (absurd · h16)⟩

/-- Witness of C22: the 4 octets of 10.1.2.3 with scope 7, the 16 octets of
`fe80::1` with scope 7, and a buffer of 5 octets. -/
theorem C22_construct_from_bytes_witness :
    (∃ r, IPAddress.ofAddrScope (Octets.ofList 4 [10, 1, 2, 3]) 7 = .ok r ∧
      r.family = .IPv4 ∧ r.addr = [10, 1, 2, 3] ∧ r.scope = 0) ∧
    (∃ r, IPAddress.ofAddrScope
        (Octets.ofList 16 [254, 128, 0, 0, 0, 0, 0, 0, 0, 0, 0, 0, 0, 0, 0, 1]) 7 = .ok r ∧
      r.family = .IPv6 ∧ r.addr = [254, 128, 0, 0, 0, 0, 0, 0, 0, 0, 0, 0, 0, 0, 0, 1] ∧
      r.scope = 7) ∧
    IPAddress.ofAddr (Octets.ofList 5 [1, 2, 3, 4, 5])
      = .error (.InvalidArgumentException invalidLengthMsg) := by
  refine ⟨?_, ?_, ?_⟩
  · obtain ⟨r, _, h2, h3, _, h5, h6⟩ :=
      (C22_construct_from_bytes 4 (Octets.ofList 4 [10, 1, 2, 3]) 7).1 rfl
    exact ⟨r, h2, h3, h5, h6⟩
  · obtain ⟨_, r, _, _, _, _, _, h2, h3, _, h5, h6⟩ :=
      (C22_construct_from_bytes 16
        (Octets.ofList 16 [254, 128, 0, 0, 0, 0, 0, 0, 0, 0, 0, 0, 0, 0, 0, 1]) 7).2.1 rfl
    exact ⟨r, h2, h3, h5, h6⟩
  · exact ((C22_construct_from_bytes 5 (Octets.ofList 5 [1, 2, 3, 4, 5]) 0).2.2.1
      (by decide) (by decide)).1

/-- C23: for all addresses `a` and `b` of one family, each of `a & b`, `a | b`,
`a ^ b` and `~a` returns a result that has the family of `a`, whose bytes are the
bitwise operation on the corresponding operand bytes, and whose scope is 0
whatever the scopes of the operands; `~(~a)` has the bytes of `a` and scope 0. -/
theorem C23_bitwise_result (a b : IPAddress) (h : a.family = b.family) :
    (∃ r, a.op_and b = .ok r ∧ r.family = a.family ∧
      r.addr = List.zipWith (· &&& ·) a.addr b.addr ∧ r.scope = 0) ∧
    (∃ r, a.op_or b = .ok r ∧ r.family = a.family ∧
      r.addr = List.zipWith (· ||| ·) a.addr b.addr ∧ r.scope = 0) ∧
    (∃ r, a.op_xor b = .ok r ∧ r.family = a.family ∧
      r.addr = List.zipWith (· ^^^ ·) a.addr b.addr ∧ r.scope = 0) ∧
    (∃ r, a.op_not = .ok r ∧ r.family = a.family ∧
      r.addr = a.addr.map (· ^^^ 255) ∧ r.scope = 0 ∧
      ∃ r2, r.op_not = .ok r2 ∧ r2.family = a.family ∧ r2.addr = a.addr ∧ r2.scope = 0) := by
  obtain ⟨r1, e1, f1, _, b1, s1⟩ := IPAddress.op_and_spec a b h
  obtain ⟨r2, e2, f2, _, b2, s2⟩ := IPAddress.op_or_spec a b h
  obtain ⟨r3, e3, f3, _, b3, s3⟩ := IPAddress.op_xor_spec a b h
  obtain ⟨r4, e4, f4, _, b4, s4⟩ := IPAddress.op_not_spec a
  obtain ⟨r5, e5, f5, _, b5, s5⟩ := IPAddress.op_not_spec r4
  refine ⟨⟨r1, e1, f1, b1, s1⟩, ⟨r2, e2, f2, b2, s2⟩, ⟨r3, e3, f3, b3, s3⟩,
    ⟨r4, e4, f4, b4, s4, r5, e5, f5.trans f4, ?_, s5⟩⟩
  rw [b5, b4, List.map_map]
  have hid : ((· ^^^ 255) ∘ (· ^^^ 255) : Nat → Nat) = id := by
    funext x
    simp only [Function.comp_apply, Nat.xor_assoc, Nat.xor_self, Nat.xor_zero, id]
  rw [hid, List.map_id]

/-- Witness of C23: the address `fe80::1` with scope 7 and the address
`ffff:ffff:ffff:ffff::` with scope 0. -/
theorem C23_bitwise_result_witness :
    (exampleV6Scoped 0xFE80 0 0 0 0 0 0 1 7).scope = 7 ∧
    ∃ r, (exampleV6Scoped 0xFE80 0 0 0 0 0 0 1 7).op_and
        (exampleV6 0xFFFF 0xFFFF 0xFFFF 0xFFFF 0 0 0 0) = .ok r ∧
      r.addr = [254, 128, 0, 0, 0, 0, 0, 0, 0, 0, 0, 0, 0, 0, 0, 0] ∧ r.scope = 0 := by
  obtain ⟨r, e, _, hb, hs⟩ := (C23_bitwise_result (exampleV6Scoped 0xFE80 0 0 0 0 0 0 1 7)
    (exampleV6 0xFFFF 0xFFFF 0xFFFF 0xFFFF 0 0 0 0) rfl).1
  exact ⟨rfl, r, e, hb.trans (by decide), hs⟩

/-- C24: for every address of either family, each multicast class predicate
implies `isMulticast()`: when one of `isWellKnownMC()`, `isNodeLocalMC()`,
`isLinkLocalMC()`, `isSiteLocalMC()`, `isOrgLocalMC()` and `isGlobalMC()` is true,
`isMulticast()` is true and `isUnicast()` is false. -/
theorem C24_multicast_classes (a : IPAddress)
    (h : a.isWellKnownMC = true ∨ a.isNodeLocalMC = true ∨ a.isLinkLocalMC = true ∨
      a.isSiteLocalMC = true ∨ a.isOrgLocalMC = true ∨ a.isGlobalMC = true) :
    a.isMulticast = true ∧ a.isUnicast = false := by
  have hm := a.isMulticast_of_class h
  refine ⟨hm, ?_⟩
  simp only [IPAddress.isUnicast, hm, Bool.not_true, Bool.and_false]

/-- Witness of C24: the IPv6 address `ff12::1`, link-local multicast, and the
IPv4 address 239.255.0.1, site-local multicast. -/
theorem C24_multicast_classes_witness :
    ((exampleV6 0xFF12 0 0 0 0 0 0 1).isLinkLocalMC = true ∧
      (exampleV6 0xFF12 0 0 0 0 0 0 1).isMulticast = true ∧
      (exampleV6 0xFF12 0 0 0 0 0 0 1).isUnicast = false) ∧
    ((exampleV4 239 255 0 1).isSiteLocalMC = true ∧
      (exampleV4 239 255 0 1).isMulticast = true ∧
      (exampleV4 239 255 0 1).isUnicast = false) :=
  ⟨⟨by decide, C24_multicast_classes (exampleV6 0xFF12 0 0 0 0 0 0 1)
      (Or.inr (Or.inr (Or.inl (by decide))))⟩,
    ⟨by decide, C24_multicast_classes (exampleV4 239 255 0 1)
      (Or.inr (Or.inr (Or.inr (Or.inl (by decide)))))⟩⟩

/-- C25: for every address of either family, at most one of the six predicates
`isWildcard()`, `isBroadcast()`, `isLoopback()`, `isMulticast()`, `isLinkLocal()`
and `isSiteLocal()` is true. -/
theorem C25_exclusive_classes (a : IPAddress) :
    countTrue [a.isWildcard, a.isBroadcast, a.isLoopback, a.isMulticast, a.isLinkLocal,
      a.isSiteLocal] ≤ 1 := by
  obtain ⟨impl⟩ := a
  cases impl with
  | v4 x => exact x.exclusive_classes_v4
  | v6 x => exact x.exclusive_classes_v6

/-- C26: for all addresses `a` and `b` of one family, `a | b` returns a result
whose prefix length is the larger of the prefix lengths of `a` and of `b`; so the
prefix length does not decrease when further bits are set. -/
theorem C26_prefixLength_or (a b : IPAddress) (h : a.family = b.family) :
    ∃ r, a.op_or b = .ok r ∧ r.prefixLength = max a.prefixLength b.prefixLength ∧
      a.prefixLength ≤ r.prefixLength ∧ b.prefixLength ≤ r.prefixLength := by
  obtain ⟨r, hr, hp⟩ := IPAddress.prefixLength_op_or a b h
  exact ⟨r, hr, hp, by omega, by omega⟩

/-- Witness of C26: the addresses 255.255.0.0, of prefix length 16, and
0.0.1.0, of prefix length 24. -/
theorem C26_prefixLength_or_witness :
    (exampleV4 255 255 0 0).prefixLength = 16 ∧ (exampleV4 0 0 1 0).prefixLength = 24 ∧
    ∃ r, (exampleV4 255 255 0 0).op_or (exampleV4 0 0 1 0) = .ok r ∧
      r.addr = [255, 255, 1, 0] ∧ r.prefixLength = 24 := by
  obtain ⟨r, hr, hp, _, _⟩ := C26_prefixLength_or (exampleV4 255 255 0 0) (exampleV4 0 0 1 0) rfl
  have h1 : (exampleV4 255 255 0 0).prefixLength = 16 := by
    rw [IPAddress.prefixLength_eq]
    rfl
  have h2 : (exampleV4 0 0 1 0).prefixLength = 24 := by
    rw [IPAddress.prefixLength_eq]
    rfl
  obtain ⟨r1, hr1, _, _, hb, _⟩ :=
    IPAddress.op_or_spec (exampleV4 255 255 0 0) (exampleV4 0 0 1 0) rfl
  rw [hr] at hr1
  cases hr1
  rw [h1, h2] at hp
  exact ⟨h1, h2, r, hr, hb.trans (by decide), hp⟩

end Poco.Net
